import Mathlib

/-!
Shallow embedding of the directed simple-graph core of the repository:
`AbstractGraph` (validation, derived predicates, vertex labels) and its two
storage backends `AdjacencyListGraph` and `AdjacencyMatrixGraph`.

Python exceptions are modelled with `Except GraphError`; `IndexError` from
vertex validation becomes `GraphError.rangeError`, the `ValueError` for
self-loops becomes `GraphError.selfLoop`.  Public operations take `Int`
arguments (Python ints may be negative); after validation the indices are
known to be non-negative and are used as `Nat` via `Int.toNat`.
-/

namespace TrabalhoGrafos

/-- Errors raised by graph operations: `rangeError v` models the
`IndexError` raised by `_validate_vertex`, `selfLoop` the `ValueError`
raised by `_validate_edge` on a self-pair. -/
inductive GraphError where
  | rangeError (v : Int)
  | selfLoop
  deriving DecidableEq, Repr

/-- Is the result a failure caused by vertex-range validation? -/
def isRangeFailure : Except GraphError α → Bool
  | Except.error (GraphError.rangeError _) => true
  | _ => false

/-- AbstractGraph._validate_vertex: raises IndexError unless 0 ≤ v < n. -/
def validate_vertex (n : Nat) (v : Int) : Except GraphError Unit :=
  if 0 ≤ v ∧ v < (n : Int) then Except.ok () else Except.error (GraphError.rangeError v)

/-- AbstractGraph._validate_edge: validates both endpoints, then rejects
self-pairs with a ValueError. -/
def validate_edge (n : Nat) (u v : Int) : Except GraphError Unit := do
  validate_vertex n u
  validate_vertex n v
  if u = v then Except.error GraphError.selfLoop else Except.ok ()

/-- A public-call argument is in range. -/
def inRange (n : Nat) (v : Int) : Prop := 0 ≤ v ∧ v < (n : Int)

instance (n : Nat) (v : Int) : Decidable (inRange n v) := by
  unfold inRange; infer_instance

/-- Generic recursive DFS mirroring `_dfs_undirected`: mark the current
vertex, then recurse into each not-yet-visited neighbour, in the order the
backend enumerates them.  The Python recursion terminates because every call
marks a fresh vertex; here that is made structural with a fuel parameter
(callers pass the vertex count, which the termination argument shows is
enough). -/
def dfsUndirected (nbrs : Nat → List Nat) : Nat → Nat → List Nat → List Nat
  | 0, _, visited => visited
  | fuel+1, vertex, visited =>
    (nbrs vertex).foldl
      (fun acc y => if y ∈ acc then acc else dfsUndirected nbrs fuel y acc)
      (vertex :: visited)

/-- Mutating public calls (the query calls are pure and do not change
state). -/
inductive Op where
  | addEdge (u v : Int)
  | removeEdge (u v : Int)
  | setLabel (v : Int) (s : String)
  deriving DecidableEq, Repr

structure AdjacencyListGraph where
  n : Nat
  adj : List (List Nat)
  edge_count : Int
  labels : List (Nat × String)
  deriving DecidableEq, Repr

namespace AdjacencyListGraph

/-- Constructor: one empty successor list per vertex, zero edges, no
labels (callers must pass a positive count; the Python constructor raises on
`n ≤ 0`). -/
def mk0 (n : Nat) : AdjacencyListGraph :=
  { n := n, adj := List.replicate n [], edge_count := 0, labels := [] }

/-- The successor list `self._adj_list[u]`. -/
def succs (g : AdjacencyListGraph) (u : Nat) : List Nat := g.adj.getD u []

/-- Raw storage lookup `v in self._adj_list[u]` (no validation). -/
def edgeNat (g : AdjacencyListGraph) (u v : Nat) : Bool := decide (v ∈ g.succs u)

def getVertexCount (g : AdjacencyListGraph) : Nat := g.n

def getEdgeCount (g : AdjacencyListGraph) : Int := g.edge_count

def hasEdge (g : AdjacencyListGraph) (u v : Int) : Except GraphError Bool := do
  validate_edge g.n u v
  pure (g.edgeNat u.toNat v.toNat)

def addEdge (g : AdjacencyListGraph) (u v : Int) :
    Except GraphError AdjacencyListGraph := do
  validate_edge g.n u v
  if g.edgeNat u.toNat v.toNat then pure g
  else pure { g with
    adj := g.adj.set u.toNat (g.succs u.toNat ++ [v.toNat]),
    edge_count := g.edge_count + 1 }

def removeEdge (g : AdjacencyListGraph) (u v : Int) :
    Except GraphError AdjacencyListGraph := do
  validate_edge g.n u v
  if g.edgeNat u.toNat v.toNat then
    pure { g with
      adj := g.adj.set u.toNat ((g.succs u.toNat).erase v.toNat),
      edge_count := g.edge_count - 1 }
  else pure g

def isSucessor (g : AdjacencyListGraph) (u v : Int) : Except GraphError Bool :=
  g.hasEdge u v

def isPredessor (g : AdjacencyListGraph) (u v : Int) : Except GraphError Bool :=
  g.hasEdge v u

/-- Raw in-degree: scan all vertices counting those whose successor list
contains `u`. -/
def inDegNat (g : AdjacencyListGraph) (u : Nat) : Nat :=
  (List.range g.n).countP (fun i => g.edgeNat i u)

/-- Raw out-degree: length of the successor list. -/
def outDegNat (g : AdjacencyListGraph) (u : Nat) : Nat :=
  (g.succs u).length

def getVertexInDegree (g : AdjacencyListGraph) (u : Int) : Except GraphError Nat := do
  validate_vertex g.n u
  pure (g.inDegNat u.toNat)

def getVertexOutDegree (g : AdjacencyListGraph) (u : Int) : Except GraphError Nat := do
  validate_vertex g.n u
  pure (g.outDegNat u.toNat)

def isEmptyGraph (g : AdjacencyListGraph) : Bool := decide (g.edge_count = 0)

/-- Vertex with at least one incident edge (the degree test used by
`isConnected`). -/
def nonIsolated (g : AdjacencyListGraph) (i : Nat) : Bool :=
  decide (0 < g.inDegNat i) || decide (0 < g.outDegNat i)

/-- Neighbour enumeration order of `_dfs_undirected` for the list backend:
successors first (adjacency-list order), then predecessors in index order. -/
def nbrs (g : AdjacencyListGraph) (x : Nat) : List Nat :=
  g.succs x ++ (List.range g.n).filter (fun i => g.edgeNat i x)

def isConnected (g : AdjacencyListGraph) : Bool :=
  if g.n ≤ 1 then true
  else if g.isEmptyGraph then false
  else
    match (List.range g.n).find? (fun i => g.nonIsolated i) with
    | none => false
    | some start =>
      let visited := dfsUndirected g.nbrs g.n start []
      (List.range g.n).all (fun i => !(g.nonIsolated i) || decide (i ∈ visited))

def isCompleteGraph (g : AdjacencyListGraph) : Bool :=
  if g.n ≤ 1 then true
  else if ¬ (g.edge_count = ((g.n * (g.n - 1) : Nat) : Int)) then false
  else
    (List.range g.n).all (fun i =>
      decide ((g.succs i).length = g.n - 1) &&
      (List.range g.n).all (fun j => decide (i = j) || decide (j ∈ g.succs i)))

def setVertexLabel (g : AdjacencyListGraph) (v : Int) (label : String) :
    Except GraphError AdjacencyListGraph := do
  validate_vertex g.n v
  pure { g with labels := (v.toNat, label) :: g.labels }

def getVertexLabel (g : AdjacencyListGraph) (v : Int) : Except GraphError String := do
  validate_vertex g.n v
  pure ((g.labels.lookup v.toNat).getD (toString v.toNat))

/-- One public mutating call; on an exception the state is unchanged. -/
def applyOp (g : AdjacencyListGraph) : Op → AdjacencyListGraph
  | Op.addEdge u v =>
    match g.addEdge u v with | Except.ok g' => g' | Except.error _ => g
  | Op.removeEdge u v =>
    match g.removeEdge u v with | Except.ok g' => g' | Except.error _ => g
  | Op.setLabel v s =>
    match g.setVertexLabel v s with | Except.ok g' => g' | Except.error _ => g

def applyOps (g : AdjacencyListGraph) (ops : List Op) : AdjacencyListGraph :=
  ops.foldl applyOp g

/-- Representation invariant maintained by every public call. -/
def WF (g : AdjacencyListGraph) : Prop :=
  0 < g.n ∧
  g.adj.length = g.n ∧
  (∀ i ∈ List.range g.n,
    (g.succs i).Nodup ∧ i ∉ g.succs i ∧ ∀ v ∈ g.succs i, v < g.n) ∧
  g.edge_count = (((g.adj.map List.length).sum : Nat) : Int)

instance (g : AdjacencyListGraph) : Decidable g.WF := by
  unfold WF; infer_instance

end AdjacencyListGraph

structure AdjacencyMatrixGraph where
  n : Nat
  matrix : List (List Bool)
  edge_count : Int
  labels : List (Nat × String)
  deriving DecidableEq, Repr

namespace AdjacencyMatrixGraph

/-- Constructor: an all-`false` n × n matrix, zero edges, no labels. -/
def mk0 (n : Nat) : AdjacencyMatrixGraph :=
  { n := n, matrix := List.replicate n (List.replicate n false),
    edge_count := 0, labels := [] }

/-- Raw cell access `self._matrix[u][v]`. -/
def cell (g : AdjacencyMatrixGraph) (u v : Nat) : Bool :=
  (g.matrix.getD u []).getD v false

def getVertexCount (g : AdjacencyMatrixGraph) : Nat := g.n

def getEdgeCount (g : AdjacencyMatrixGraph) : Int := g.edge_count

def hasEdge (g : AdjacencyMatrixGraph) (u v : Int) : Except GraphError Bool := do
  validate_edge g.n u v
  pure (g.cell u.toNat v.toNat)

/-- Write a single matrix cell. -/
def setCell (g : AdjacencyMatrixGraph) (u v : Nat) (b : Bool) : List (List Bool) :=
  g.matrix.set u ((g.matrix.getD u []).set v b)

def addEdge (g : AdjacencyMatrixGraph) (u v : Int) :
    Except GraphError AdjacencyMatrixGraph := do
  validate_edge g.n u v
  if g.cell u.toNat v.toNat then pure g
  else pure { g with
    matrix := g.setCell u.toNat v.toNat true,
    edge_count := g.edge_count + 1 }

def removeEdge (g : AdjacencyMatrixGraph) (u v : Int) :
    Except GraphError AdjacencyMatrixGraph := do
  validate_edge g.n u v
  if g.cell u.toNat v.toNat then
    pure { g with
      matrix := g.setCell u.toNat v.toNat false,
      edge_count := g.edge_count - 1 }
  else pure g

def isSucessor (g : AdjacencyMatrixGraph) (u v : Int) : Except GraphError Bool :=
  g.hasEdge u v

def isPredessor (g : AdjacencyMatrixGraph) (u v : Int) : Except GraphError Bool :=
  g.hasEdge v u

/-- Raw in-degree: count of true cells in column `u`. -/
def inDegNat (g : AdjacencyMatrixGraph) (u : Nat) : Nat :=
  (List.range g.n).countP (fun i => g.cell i u)

/-- Raw out-degree: count of true cells in row `u`. -/
def outDegNat (g : AdjacencyMatrixGraph) (u : Nat) : Nat :=
  (List.range g.n).countP (fun j => g.cell u j)

def getVertexInDegree (g : AdjacencyMatrixGraph) (u : Int) : Except GraphError Nat := do
  validate_vertex g.n u
  pure (g.inDegNat u.toNat)

def getVertexOutDegree (g : AdjacencyMatrixGraph) (u : Int) : Except GraphError Nat := do
  validate_vertex g.n u
  pure (g.outDegNat u.toNat)

def isEmptyGraph (g : AdjacencyMatrixGraph) : Bool := decide (g.edge_count = 0)

def nonIsolated (g : AdjacencyMatrixGraph) (i : Nat) : Bool :=
  decide (0 < g.inDegNat i) || decide (0 < g.outDegNat i)

/-- Neighbour enumeration order of `_dfs_undirected` for the matrix backend:
all weakly adjacent vertices in index order. -/
def nbrs (g : AdjacencyMatrixGraph) (x : Nat) : List Nat :=
  (List.range g.n).filter (fun i => g.cell x i || g.cell i x)

def isConnected (g : AdjacencyMatrixGraph) : Bool :=
  if g.n ≤ 1 then true
  else if g.isEmptyGraph then false
  else
    match (List.range g.n).find? (fun i => g.nonIsolated i) with
    | none => false
    | some start =>
      let visited := dfsUndirected g.nbrs g.n start []
      (List.range g.n).all (fun i => !(g.nonIsolated i) || decide (i ∈ visited))

def isCompleteGraph (g : AdjacencyMatrixGraph) : Bool :=
  if g.n ≤ 1 then true
  else if ¬ (g.edge_count = ((g.n * (g.n - 1) : Nat) : Int)) then false
  else
    (List.range g.n).all (fun i =>
      (List.range g.n).all (fun j => decide (i = j) || g.cell i j))

def setVertexLabel (g : AdjacencyMatrixGraph) (v : Int) (label : String) :
    Except GraphError AdjacencyMatrixGraph := do
  validate_vertex g.n v
  pure { g with labels := (v.toNat, label) :: g.labels }

def getVertexLabel (g : AdjacencyMatrixGraph) (v : Int) : Except GraphError String := do
  validate_vertex g.n v
  pure ((g.labels.lookup v.toNat).getD (toString v.toNat))

def applyOp (g : AdjacencyMatrixGraph) : Op → AdjacencyMatrixGraph
  | Op.addEdge u v =>
    match g.addEdge u v with | Except.ok g' => g' | Except.error _ => g
  | Op.removeEdge u v =>
    match g.removeEdge u v with | Except.ok g' => g' | Except.error _ => g
  | Op.setLabel v s =>
    match g.setVertexLabel v s with | Except.ok g' => g' | Except.error _ => g

def applyOps (g : AdjacencyMatrixGraph) (ops : List Op) : AdjacencyMatrixGraph :=
  ops.foldl applyOp g

/-- Representation invariant maintained by every public call. -/
def WF (g : AdjacencyMatrixGraph) : Prop :=
  0 < g.n ∧
  g.matrix.length = g.n ∧
  (∀ row ∈ g.matrix, row.length = g.n) ∧
  (∀ i ∈ List.range g.n, g.cell i i = false) ∧
  g.edge_count = (((g.matrix.map (fun row => row.countP (fun b => b))).sum : Nat) : Int)

instance (g : AdjacencyMatrixGraph) : Decidable g.WF := by
  unfold WF; infer_instance

end AdjacencyMatrixGraph

/-- AbstractGraph.isDivergent, parameterized by the backend capability set
(vertex count and `hasEdge`), with Python's short-circuit evaluation order. -/
def isDivergentWith (n : Nat) (hasE : Int → Int → Except GraphError Bool)
    (u1 v1 u2 v2 : Int) : Except GraphError Bool := do
  validate_edge n u1 v1
  validate_edge n u2 v2
  if u1 = u2 then
    if v1 ≠ v2 then do
      let h1 ← hasE u1 v1
      if h1 then hasE u2 v2 else pure false
    else pure false
  else pure false

/-- AbstractGraph.isConvergent, parameterized like `isDivergentWith`. -/
def isConvergentWith (n : Nat) (hasE : Int → Int → Except GraphError Bool)
    (u1 v1 u2 v2 : Int) : Except GraphError Bool := do
  validate_edge n u1 v1
  validate_edge n u2 v2
  if v1 = v2 then
    if u1 ≠ u2 then do
      let h1 ← hasE u1 v1
      if h1 then hasE u2 v2 else pure false
    else pure false
  else pure false

/-- AbstractGraph.isIncident, parameterized like `isDivergentWith`. -/
def isIncidentWith (n : Nat) (hasE : Int → Int → Except GraphError Bool)
    (u v x : Int) : Except GraphError Bool := do
  validate_edge n u v
  validate_vertex n x
  let h ← hasE u v
  if h then pure (decide (u = x) || decide (v = x)) else pure false

def AdjacencyListGraph.isDivergent (g : AdjacencyListGraph) (u1 v1 u2 v2 : Int) :
    Except GraphError Bool :=
  isDivergentWith g.n g.hasEdge u1 v1 u2 v2

def AdjacencyListGraph.isConvergent (g : AdjacencyListGraph) (u1 v1 u2 v2 : Int) :
    Except GraphError Bool :=
  isConvergentWith g.n g.hasEdge u1 v1 u2 v2

def AdjacencyListGraph.isIncident (g : AdjacencyListGraph) (u v x : Int) :
    Except GraphError Bool :=
  isIncidentWith g.n g.hasEdge u v x

def AdjacencyMatrixGraph.isDivergent (g : AdjacencyMatrixGraph) (u1 v1 u2 v2 : Int) :
    Except GraphError Bool :=
  isDivergentWith g.n g.hasEdge u1 v1 u2 v2

def AdjacencyMatrixGraph.isConvergent (g : AdjacencyMatrixGraph) (u1 v1 u2 v2 : Int) :
    Except GraphError Bool :=
  isConvergentWith g.n g.hasEdge u1 v1 u2 v2

def AdjacencyMatrixGraph.isIncident (g : AdjacencyMatrixGraph) (u v x : Int) :
    Except GraphError Bool :=
  isIncidentWith g.n g.hasEdge u v x

/-! ### Validation lemmas -/

theorem validate_vertex_ok {n : Nat} {v : Int} (h : inRange n v) :
    validate_vertex n v = Except.ok () := by
  unfold validate_vertex inRange at *
  exact if_pos h

theorem validate_vertex_err {n : Nat} {v : Int} (h : ¬ inRange n v) :
    validate_vertex n v = Except.error (GraphError.rangeError v) := by
  unfold validate_vertex inRange at *
  exact if_neg h

theorem bind_unit {α : Type} (x : Except GraphError Unit)
    (f : Unit → Except GraphError α) :
    (x >>= f) = match x with | Except.ok _ => f () | Except.error e => Except.error e := by
  cases x <;> rfl

theorem validate_edge_def (n : Nat) (u v : Int) :
    validate_edge n u v =
      (validate_vertex n u >>= fun _ => validate_vertex n v >>= fun _ =>
        if u = v then Except.error GraphError.selfLoop else Except.ok ()) := rfl

theorem validate_edge_ok {n : Nat} {u v : Int}
    (hu : inRange n u) (hv : inRange n v) (huv : u ≠ v) :
    validate_edge n u v = Except.ok () := by
  rw [validate_edge_def]
  rw [validate_vertex_ok hu, bind_unit, validate_vertex_ok hv, bind_unit]
  simp [huv]

theorem validate_edge_self {n : Nat} {u v : Int}
    (hu : inRange n u) (hv : inRange n v) (huv : u = v) :
    validate_edge n u v = Except.error GraphError.selfLoop := by
  rw [validate_edge_def]
  rw [validate_vertex_ok hu, bind_unit, validate_vertex_ok hv, bind_unit]
  simp [huv]

theorem validate_edge_err_left {n : Nat} {u v : Int} (hu : ¬ inRange n u) :
    validate_edge n u v = Except.error (GraphError.rangeError u) := by
  rw [validate_edge_def]
  rw [validate_vertex_err hu, bind_unit]

theorem validate_edge_err_right {n : Nat} {u v : Int}
    (hu : inRange n u) (hv : ¬ inRange n v) :
    validate_edge n u v = Except.error (GraphError.rangeError v) := by
  rw [validate_edge_def]
  rw [validate_vertex_ok hu, bind_unit, validate_vertex_err hv, bind_unit]

/-! ### Int index helpers -/

theorem toNat_lt_of_inRange {n : Nat} {v : Int} (h : inRange n v) : v.toNat < n := by
  rcases h with ⟨h0, hn⟩
  omega

theorem toNat_inj_of_inRange {n : Nat} {u v : Int}
    (hu : inRange n u) (hv : inRange n v) (h : u ≠ v) : u.toNat ≠ v.toNat := by
  rcases hu with ⟨hu0, _⟩; rcases hv with ⟨hv0, _⟩
  omega

theorem inRange_of_lt {n i : Nat} (h : i < n) : inRange n (i : Int) := by
  constructor <;> omega

/-! ### List indexing helpers -/

theorem getD_set_self {α : Type} (l : List α) {i : Nat} (h : i < l.length) (a d : α) :
    (l.set i a).getD i d = a := by
  simp [List.getD_eq_getElem?_getD, List.getElem?_set_self h]

theorem getD_set_ne {α : Type} (l : List α) {i j : Nat} (h : i ≠ j) (a d : α) :
    (l.set i a).getD j d = l.getD j d := by
  simp [List.getD_eq_getElem?_getD, List.getElem?_set_ne h]

theorem set_getD_self {α : Type} :
    ∀ (l : List α) (i : Nat), i < l.length → ∀ (d : α), l.set i (l.getD i d) = l := by
  intro l
  induction l with
  | nil => intro i h d; simp at h
  | cons a t ih =>
    intro i h d
    cases i with
    | zero => simp [List.set, List.getD]
    | succ j =>
      simp only [List.set, List.getD_cons_succ]
      rw [ih j (by simpa using h) d]

theorem getD_replicate_def {α : Type} {n i : Nat} (h : i < n) (d a : α) :
    (List.replicate n a).getD i d = a := by
  simp [List.getD_eq_getElem?_getD, List.getElem?_replicate, h]

theorem getD_of_length_le {α : Type} {l : List α} {i : Nat} (h : l.length ≤ i) (d : α) :
    l.getD i d = d := by
  simp [List.getD_eq_getElem?_getD, List.getElem?_eq_none h]

/-- Replacing the element at index `i` changes a mapped sum only by the
difference between old and new values (additive form, `Nat`-friendly). -/
theorem sum_map_set {α : Type} (f : α → Nat) (d : α) :
    ∀ (l : List α) (i : Nat), i < l.length → ∀ (x : α),
      ((l.set i x).map f).sum + f (l.getD i d) = (l.map f).sum + f x := by
  intro l
  induction l with
  | nil => intro i h; simp at h
  | cons a t ih =>
    intro i h x
    cases i with
    | zero => simp [List.set, List.getD]; omega
    | succ j =>
      have hj : j < t.length := by simpa using h
      simp only [List.set, List.map_cons, List.sum_cons, List.getD_cons_succ]
      have := ih j hj x
      omega

theorem countP_eq_sum_map {α : Type} (p : α → Bool) (l : List α) :
    l.countP p = (l.map (fun a => if p a then 1 else 0)).sum := by
  induction l with
  | nil => simp
  | cons a t ih =>
    by_cases h : p a <;>
      simp [List.countP_cons, h, ih, Nat.add_comm]

theorem length_le_of_nodup_lt {l : List Nat} {n : Nat}
    (hd : l.Nodup) (hb : ∀ v ∈ l, v < n) : l.length ≤ n := by
  have hsub : l ⊆ List.range n := by
    intro v hv; exact List.mem_range.mpr (hb v hv)
  have := (List.subperm_of_subset hd hsub).length_le
  simpa using this

/-- Two `Nodup` lists of naturals with the same members have the same
length. -/
theorem length_eq_of_nodup_same_mem {l l' : List Nat}
    (hd : l.Nodup) (hd' : l'.Nodup) (hmem : ∀ v, v ∈ l ↔ v ∈ l') :
    l.length = l'.length := by
  have h1 := (List.subperm_of_subset hd (fun v hv => (hmem v).mp hv)).length_le
  have h2 := (List.subperm_of_subset hd' (fun v hv => (hmem v).mpr hv)).length_le
  omega

theorem find?_congruent {α : Type} {p q : α → Bool} :
    ∀ (l : List α), (∀ a ∈ l, p a = q a) → l.find? p = l.find? q := by
  intro l
  induction l with
  | nil => intro _; rfl
  | cons a t ih =>
    intro h
    have ha := h a (List.mem_cons_self a t)
    rw [List.find?_cons, List.find?_cons, ha]
    cases q a with
    | true => rfl
    | false => exact ih (fun b hb => h b (List.mem_cons_of_mem a hb))

theorem all_congruent {α : Type} {p q : α → Bool} :
    ∀ (l : List α), (∀ a ∈ l, p a = q a) → l.all p = l.all q := by
  intro l
  induction l with
  | nil => intro _; rfl
  | cons a t ih =>
    intro h
    rw [List.all_cons, List.all_cons, h a (List.mem_cons_self a t),
      ih (fun b hb => h b (List.mem_cons_of_mem a hb))]

/-- Membership count over `range n` of a `Nodup` list bounded by `n` is its
length. -/
theorem countP_range_mem_eq_length {l : List Nat} {n : Nat}
    (hd : l.Nodup) (hb : ∀ v ∈ l, v < n) :
    (List.range n).countP (fun v => decide (v ∈ l)) = l.length := by
  rw [List.countP_eq_length_filter]
  refine length_eq_of_nodup_same_mem ?_ hd ?_
  · exact (List.nodup_range n).filter _
  · intro v
    simp only [List.mem_filter, List.mem_range, decide_eq_true_eq]
    constructor
    · exact fun h => h.2
    · exact fun h => ⟨hb v h, h⟩

theorem range_find?_eq_some {p : Nat → Bool} :
    ∀ {n s : Nat}, s < n → p s = true → (∀ j < s, p j = false) →
      (List.range n).find? p = some s := by
  intro n
  induction n with
  | zero => intro s h; omega
  | succ m ih =>
    intro s hs hp hmin
    rw [List.range_succ, List.find?_append]
    by_cases hsm : s < m
    · rw [ih hsm hp hmin]; rfl
    · have hse : s = m := by omega
      subst hse
      have hnone : (List.range s).find? p = none := by
        rw [List.find?_eq_none]
        intro j hj
        simp [hmin j (List.mem_range.mp hj)]
      rw [hnone]
      simp [List.find?, hp]

/-! ### List backend: behavior of the public calls -/

namespace AdjacencyListGraph

variable (g : AdjacencyListGraph)

theorem hasEdge_valid {u v : Int} (hu : inRange g.n u) (hv : inRange g.n v)
    (huv : u ≠ v) : g.hasEdge u v = Except.ok (g.edgeNat u.toNat v.toNat) := by
  unfold hasEdge
  rw [validate_edge_ok hu hv huv, bind_unit]
  rfl

theorem hasEdge_err_left {u v : Int} (hu : ¬ inRange g.n u) :
    g.hasEdge u v = Except.error (GraphError.rangeError u) := by
  unfold hasEdge
  rw [validate_edge_err_left hu, bind_unit]

theorem hasEdge_err_right {u v : Int} (hu : inRange g.n u) (hv : ¬ inRange g.n v) :
    g.hasEdge u v = Except.error (GraphError.rangeError v) := by
  unfold hasEdge
  rw [validate_edge_err_right hu hv, bind_unit]

theorem hasEdge_self {u v : Int} (hu : inRange g.n u) (hv : inRange g.n v)
    (huv : u = v) : g.hasEdge u v = Except.error GraphError.selfLoop := by
  unfold hasEdge
  rw [validate_edge_self hu hv huv, bind_unit]

theorem addEdge_valid_present {u v : Int} (hu : inRange g.n u) (hv : inRange g.n v)
    (huv : u ≠ v) (h : g.edgeNat u.toNat v.toNat = true) :
    g.addEdge u v = Except.ok g := by
  unfold addEdge
  rw [validate_edge_ok hu hv huv, bind_unit]
  simp [h]
  rfl

theorem addEdge_valid_absent {u v : Int} (hu : inRange g.n u) (hv : inRange g.n v)
    (huv : u ≠ v) (h : g.edgeNat u.toNat v.toNat = false) :
    g.addEdge u v = Except.ok { g with
      adj := g.adj.set u.toNat (g.succs u.toNat ++ [v.toNat]),
      edge_count := g.edge_count + 1 } := by
  unfold addEdge
  rw [validate_edge_ok hu hv huv, bind_unit]
  simp [h]
  rfl

theorem addEdge_err_left {u v : Int} (hu : ¬ inRange g.n u) :
    g.addEdge u v = Except.error (GraphError.rangeError u) := by
  unfold addEdge
  rw [validate_edge_err_left hu, bind_unit]

theorem addEdge_err_right {u v : Int} (hu : inRange g.n u) (hv : ¬ inRange g.n v) :
    g.addEdge u v = Except.error (GraphError.rangeError v) := by
  unfold addEdge
  rw [validate_edge_err_right hu hv, bind_unit]

theorem addEdge_self {u v : Int} (hu : inRange g.n u) (hv : inRange g.n v)
    (huv : u = v) : g.addEdge u v = Except.error GraphError.selfLoop := by
  unfold addEdge
  rw [validate_edge_self hu hv huv, bind_unit]

theorem removeEdge_valid_present {u v : Int} (hu : inRange g.n u) (hv : inRange g.n v)
    (huv : u ≠ v) (h : g.edgeNat u.toNat v.toNat = true) :
    g.removeEdge u v = Except.ok { g with
      adj := g.adj.set u.toNat ((g.succs u.toNat).erase v.toNat),
      edge_count := g.edge_count - 1 } := by
  unfold removeEdge
  rw [validate_edge_ok hu hv huv, bind_unit]
  simp [h]
  rfl

theorem removeEdge_valid_absent {u v : Int} (hu : inRange g.n u) (hv : inRange g.n v)
    (huv : u ≠ v) (h : g.edgeNat u.toNat v.toNat = false) :
    g.removeEdge u v = Except.ok g := by
  unfold removeEdge
  rw [validate_edge_ok hu hv huv, bind_unit]
  simp [h]
  rfl

theorem removeEdge_err_left {u v : Int} (hu : ¬ inRange g.n u) :
    g.removeEdge u v = Except.error (GraphError.rangeError u) := by
  unfold removeEdge
  rw [validate_edge_err_left hu, bind_unit]

theorem removeEdge_err_right {u v : Int} (hu : inRange g.n u) (hv : ¬ inRange g.n v) :
    g.removeEdge u v = Except.error (GraphError.rangeError v) := by
  unfold removeEdge
  rw [validate_edge_err_right hu hv, bind_unit]

theorem removeEdge_self {u v : Int} (hu : inRange g.n u) (hv : inRange g.n v)
    (huv : u = v) : g.removeEdge u v = Except.error GraphError.selfLoop := by
  unfold removeEdge
  rw [validate_edge_self hu hv huv, bind_unit]

theorem getVertexInDegree_valid {u : Int} (hu : inRange g.n u) :
    g.getVertexInDegree u = Except.ok (g.inDegNat u.toNat) := by
  unfold getVertexInDegree
  rw [validate_vertex_ok hu, bind_unit]
  rfl

theorem getVertexInDegree_err {u : Int} (hu : ¬ inRange g.n u) :
    g.getVertexInDegree u = Except.error (GraphError.rangeError u) := by
  unfold getVertexInDegree
  rw [validate_vertex_err hu, bind_unit]

theorem getVertexOutDegree_valid {u : Int} (hu : inRange g.n u) :
    g.getVertexOutDegree u = Except.ok (g.outDegNat u.toNat) := by
  unfold getVertexOutDegree
  rw [validate_vertex_ok hu, bind_unit]
  rfl

theorem getVertexOutDegree_err {u : Int} (hu : ¬ inRange g.n u) :
    g.getVertexOutDegree u = Except.error (GraphError.rangeError u) := by
  unfold getVertexOutDegree
  rw [validate_vertex_err hu, bind_unit]

theorem setVertexLabel_valid {v : Int} (label : String) (hv : inRange g.n v) :
    g.setVertexLabel v label =
      Except.ok { g with labels := (v.toNat, label) :: g.labels } := by
  unfold setVertexLabel
  rw [validate_vertex_ok hv, bind_unit]
  rfl

theorem setVertexLabel_err {v : Int} (label : String) (hv : ¬ inRange g.n v) :
    g.setVertexLabel v label = Except.error (GraphError.rangeError v) := by
  unfold setVertexLabel
  rw [validate_vertex_err hv, bind_unit]

theorem getVertexLabel_valid {v : Int} (hv : inRange g.n v) :
    g.getVertexLabel v =
      Except.ok ((g.labels.lookup v.toNat).getD (toString v.toNat)) := by
  unfold getVertexLabel
  rw [validate_vertex_ok hv, bind_unit]
  rfl

theorem getVertexLabel_err {v : Int} (hv : ¬ inRange g.n v) :
    g.getVertexLabel v = Except.error (GraphError.rangeError v) := by
  unfold getVertexLabel
  rw [validate_vertex_err hv, bind_unit]

end AdjacencyListGraph

/-! ### Matrix backend: behavior of the public calls -/

namespace AdjacencyMatrixGraph

variable (g : AdjacencyMatrixGraph)

theorem hasEdge_valid_m {u v : Int} (hu : inRange g.n u) (hv : inRange g.n v)
    (huv : u ≠ v) : g.hasEdge u v = Except.ok (g.cell u.toNat v.toNat) := by
  unfold hasEdge
  rw [validate_edge_ok hu hv huv, bind_unit]
  rfl

theorem hasEdge_err_left_m {u v : Int} (hu : ¬ inRange g.n u) :
    g.hasEdge u v = Except.error (GraphError.rangeError u) := by
  unfold hasEdge
  rw [validate_edge_err_left hu, bind_unit]

theorem hasEdge_err_right_m {u v : Int} (hu : inRange g.n u) (hv : ¬ inRange g.n v) :
    g.hasEdge u v = Except.error (GraphError.rangeError v) := by
  unfold hasEdge
  rw [validate_edge_err_right hu hv, bind_unit]

theorem hasEdge_self_m {u v : Int} (hu : inRange g.n u) (hv : inRange g.n v)
    (huv : u = v) : g.hasEdge u v = Except.error GraphError.selfLoop := by
  unfold hasEdge
  rw [validate_edge_self hu hv huv, bind_unit]

theorem addEdge_valid_present_m {u v : Int} (hu : inRange g.n u) (hv : inRange g.n v)
    (huv : u ≠ v) (h : g.cell u.toNat v.toNat = true) :
    g.addEdge u v = Except.ok g := by
  unfold addEdge
  rw [validate_edge_ok hu hv huv, bind_unit]
  simp [h]
  rfl

theorem addEdge_valid_absent_m {u v : Int} (hu : inRange g.n u) (hv : inRange g.n v)
    (huv : u ≠ v) (h : g.cell u.toNat v.toNat = false) :
    g.addEdge u v = Except.ok { g with
      matrix := g.setCell u.toNat v.toNat true,
      edge_count := g.edge_count + 1 } := by
  unfold addEdge
  rw [validate_edge_ok hu hv huv, bind_unit]
  simp [h]
  rfl

theorem addEdge_err_left_m {u v : Int} (hu : ¬ inRange g.n u) :
    g.addEdge u v = Except.error (GraphError.rangeError u) := by
  unfold addEdge
  rw [validate_edge_err_left hu, bind_unit]

theorem addEdge_err_right_m {u v : Int} (hu : inRange g.n u) (hv : ¬ inRange g.n v) :
    g.addEdge u v = Except.error (GraphError.rangeError v) := by
  unfold addEdge
  rw [validate_edge_err_right hu hv, bind_unit]

theorem addEdge_self_m {u v : Int} (hu : inRange g.n u) (hv : inRange g.n v)
    (huv : u = v) : g.addEdge u v = Except.error GraphError.selfLoop := by
  unfold addEdge
  rw [validate_edge_self hu hv huv, bind_unit]

theorem removeEdge_valid_present_m {u v : Int} (hu : inRange g.n u) (hv : inRange g.n v)
    (huv : u ≠ v) (h : g.cell u.toNat v.toNat = true) :
    g.removeEdge u v = Except.ok { g with
      matrix := g.setCell u.toNat v.toNat false,
      edge_count := g.edge_count - 1 } := by
  unfold removeEdge
  rw [validate_edge_ok hu hv huv, bind_unit]
  simp [h]
  rfl

theorem removeEdge_valid_absent_m {u v : Int} (hu : inRange g.n u) (hv : inRange g.n v)
    (huv : u ≠ v) (h : g.cell u.toNat v.toNat = false) :
    g.removeEdge u v = Except.ok g := by
  unfold removeEdge
  rw [validate_edge_ok hu hv huv, bind_unit]
  simp [h]
  rfl

theorem removeEdge_err_left_m {u v : Int} (hu : ¬ inRange g.n u) :
    g.removeEdge u v = Except.error (GraphError.rangeError u) := by
  unfold removeEdge
  rw [validate_edge_err_left hu, bind_unit]

theorem removeEdge_err_right_m {u v : Int} (hu : inRange g.n u) (hv : ¬ inRange g.n v) :
    g.removeEdge u v = Except.error (GraphError.rangeError v) := by
  unfold removeEdge
  rw [validate_edge_err_right hu hv, bind_unit]

theorem removeEdge_self_m {u v : Int} (hu : inRange g.n u) (hv : inRange g.n v)
    (huv : u = v) : g.removeEdge u v = Except.error GraphError.selfLoop := by
  unfold removeEdge
  rw [validate_edge_self hu hv huv, bind_unit]

theorem getVertexInDegree_valid_m {u : Int} (hu : inRange g.n u) :
    g.getVertexInDegree u = Except.ok (g.inDegNat u.toNat) := by
  unfold getVertexInDegree
  rw [validate_vertex_ok hu, bind_unit]
  rfl

theorem getVertexInDegree_err_m {u : Int} (hu : ¬ inRange g.n u) :
    g.getVertexInDegree u = Except.error (GraphError.rangeError u) := by
  unfold getVertexInDegree
  rw [validate_vertex_err hu, bind_unit]

theorem getVertexOutDegree_valid_m {u : Int} (hu : inRange g.n u) :
    g.getVertexOutDegree u = Except.ok (g.outDegNat u.toNat) := by
  unfold getVertexOutDegree
  rw [validate_vertex_ok hu, bind_unit]
  rfl

theorem getVertexOutDegree_err_m {u : Int} (hu : ¬ inRange g.n u) :
    g.getVertexOutDegree u = Except.error (GraphError.rangeError u) := by
  unfold getVertexOutDegree
  rw [validate_vertex_err hu, bind_unit]

theorem setVertexLabel_valid_m {v : Int} (label : String) (hv : inRange g.n v) :
    g.setVertexLabel v label =
      Except.ok { g with labels := (v.toNat, label) :: g.labels } := by
  unfold setVertexLabel
  rw [validate_vertex_ok hv, bind_unit]
  rfl

theorem setVertexLabel_err_m {v : Int} (label : String) (hv : ¬ inRange g.n v) :
    g.setVertexLabel v label = Except.error (GraphError.rangeError v) := by
  unfold setVertexLabel
  rw [validate_vertex_err hv, bind_unit]

theorem getVertexLabel_valid_m {v : Int} (hv : inRange g.n v) :
    g.getVertexLabel v =
      Except.ok ((g.labels.lookup v.toNat).getD (toString v.toNat)) := by
  unfold getVertexLabel
  rw [validate_vertex_ok hv, bind_unit]
  rfl

theorem getVertexLabel_err_m {v : Int} (hv : ¬ inRange g.n v) :
    g.getVertexLabel v = Except.error (GraphError.rangeError v) := by
  unfold getVertexLabel
  rw [validate_vertex_err hv, bind_unit]

end AdjacencyMatrixGraph

/-! ### Counting helpers -/

theorem countP_set {α : Type} (p : α → Bool) (d : α) :
    ∀ (l : List α) (i : Nat), i < l.length → ∀ (x : α),
      ((l.set i x).countP p) + (if p (l.getD i d) then 1 else 0) =
        l.countP p + (if p x then 1 else 0) := by
  intro l
  induction l with
  | nil => intro i h; simp at h
  | cons a t ih =>
    intro i h x
    cases i with
    | zero =>
      simp only [List.set, List.getD_cons_zero, List.countP_cons]
      omega
    | succ j =>
      have hj : j < t.length := by simpa using h
      simp only [List.set, List.getD_cons_succ, List.countP_cons]
      have := ih j hj x
      omega

theorem le_sum_map_of_mem {α : Type} {f : α → Nat} {l : List α} {a : α}
    (h : a ∈ l) : f a ≤ (l.map f).sum := by
  induction l with
  | nil => simp at h
  | cons b t ih =>
    rcases List.mem_cons.mp h with rfl | hmem
    · simp only [List.map_cons, List.sum_cons]
      exact Nat.le_add_right _ _
    · simp only [List.map_cons, List.sum_cons]
      exact le_trans (ih hmem) (Nat.le_add_left _ _)

theorem getD_mem_of_lt {α : Type} {l : List α} {i : Nat} (h : i < l.length) (d : α) :
    l.getD i d ∈ l := by
  rw [List.getD_eq_getElem?_getD, List.getElem?_eq_getElem h]
  exact List.getElem_mem h

/-! ### List backend: well-formedness preservation -/

namespace AdjacencyListGraph

theorem WF_mk0 {n : Nat} (hn : 0 < n) : (mk0 n).WF := by
  refine ⟨hn, by simp [mk0], ?_, ?_⟩
  · intro i hi
    have : (mk0 n).succs i = [] := by
      unfold succs mk0
      simp only
      by_cases h : i < n
      · exact getD_replicate_def h [] []
      · exact getD_of_length_le (by simpa using Nat.le_of_not_lt h) []
    rw [this]
    simp
  · simp [mk0, List.map_replicate]

theorem WF_addEdge_ok {g g' : AdjacencyListGraph} {u v : Int}
    (hWF : g.WF) (h : g.addEdge u v = Except.ok g') : g'.WF := by
  obtain ⟨hn, hlen, hinv, hcount⟩ := hWF
  by_cases hu : inRange g.n u
  · by_cases hv : inRange g.n v
    · by_cases huv : u = v
      · rw [addEdge_self g hu hv huv] at h; cases h
      · by_cases he : g.edgeNat u.toNat v.toNat = true
        · rw [addEdge_valid_present g hu hv huv he] at h
          cases h
          exact ⟨hn, hlen, hinv, hcount⟩
        · have he' : g.edgeNat u.toNat v.toNat = false := by
            revert he; cases g.edgeNat u.toNat v.toNat <;> simp
          rw [addEdge_valid_absent g hu hv huv he'] at h
          cases h
          have hun : u.toNat < g.n := toNat_lt_of_inRange hu
          have hvn : v.toNat < g.n := toNat_lt_of_inRange hv
          have huvn : u.toNat ≠ v.toNat := toNat_inj_of_inRange hu hv huv
          have hulen : u.toNat < g.adj.length := by omega
          have hvmem : ¬ v.toNat ∈ g.succs u.toNat := by
            have := he'
            unfold edgeNat at this
            simpa using this
          obtain ⟨hnodup, hnself, hbound⟩ := hinv u.toNat (List.mem_range.mpr hun)
          refine ⟨hn, by simpa using hlen, ?_, ?_⟩
          · intro i hi
            by_cases hiu : i = u.toNat
            · subst hiu
              have hsuccs : ({ g with
                  adj := g.adj.set u.toNat (g.succs u.toNat ++ [v.toNat]),
                  edge_count := g.edge_count + 1 } : AdjacencyListGraph).succs u.toNat =
                    g.succs u.toNat ++ [v.toNat] := by
                unfold succs
                exact getD_set_self _ hulen _ _
              rw [hsuccs]
              refine ⟨?_, ?_, ?_⟩
              · refine List.Nodup.append hnodup (by simp) ?_
                intro a ha hav
                rw [List.mem_singleton] at hav
                exact hvmem (hav ▸ ha)
              · simp only [List.mem_append, List.mem_singleton]
                rintro (hmem | heq)
                · exact hnself hmem
                · exact huvn heq
              · intro w hw
                rcases List.mem_append.mp hw with hw | hw
                · exact hbound w hw
                · rw [List.mem_singleton.mp hw]; exact hvn
            · have hsuccs : ({ g with
                  adj := g.adj.set u.toNat (g.succs u.toNat ++ [v.toNat]),
                  edge_count := g.edge_count + 1 } : AdjacencyListGraph).succs i =
                    g.succs i := by
                unfold succs
                exact getD_set_ne _ (fun hh => hiu hh.symm) _ _
              rw [hsuccs]
              exact hinv i hi
          · have hsum := sum_map_set List.length [] g.adj u.toNat hulen
              (g.succs u.toNat ++ [v.toNat])
            have hgetD : g.adj.getD u.toNat [] = g.succs u.toNat := rfl
            rw [hgetD] at hsum
            simp only [List.length_append, List.length_singleton] at hsum
            simp only [hcount]
            have : ((g.adj.set u.toNat (g.succs u.toNat ++ [v.toNat])).map List.length).sum =
                (g.adj.map List.length).sum + 1 := by omega
            rw [this]
            push_cast
            ring
    · rw [addEdge_err_right g hu hv] at h; cases h
  · rw [addEdge_err_left g hu] at h; cases h

theorem WF_removeEdge_ok {g g' : AdjacencyListGraph} {u v : Int}
    (hWF : g.WF) (h : g.removeEdge u v = Except.ok g') : g'.WF := by
  obtain ⟨hn, hlen, hinv, hcount⟩ := hWF
  by_cases hu : inRange g.n u
  · by_cases hv : inRange g.n v
    · by_cases huv : u = v
      · rw [removeEdge_self g hu hv huv] at h; cases h
      · by_cases he : g.edgeNat u.toNat v.toNat = true
        · rw [removeEdge_valid_present g hu hv huv he] at h
          cases h
          have hun : u.toNat < g.n := toNat_lt_of_inRange hu
          have hulen : u.toNat < g.adj.length := by omega
          have hvmem : v.toNat ∈ g.succs u.toNat := by
            have := he
            unfold edgeNat at this
            simpa using this
          obtain ⟨hnodup, hnself, hbound⟩ := hinv u.toNat (List.mem_range.mpr hun)
          refine ⟨hn, by simpa using hlen, ?_, ?_⟩
          · intro i hi
            by_cases hiu : i = u.toNat
            · subst hiu
              have hsuccs : ({ g with
                  adj := g.adj.set u.toNat ((g.succs u.toNat).erase v.toNat),
                  edge_count := g.edge_count - 1 } : AdjacencyListGraph).succs u.toNat =
                    (g.succs u.toNat).erase v.toNat := by
                unfold succs
                exact getD_set_self _ hulen _ _
              rw [hsuccs]
              refine ⟨hnodup.erase _, ?_, ?_⟩
              · intro hmem
                exact hnself (List.mem_of_mem_erase hmem)
              · intro w hw
                exact hbound w (List.mem_of_mem_erase hw)
            · have hsuccs : ({ g with
                  adj := g.adj.set u.toNat ((g.succs u.toNat).erase v.toNat),
                  edge_count := g.edge_count - 1 } : AdjacencyListGraph).succs i =
                    g.succs i := by
                unfold succs
                exact getD_set_ne _ (fun hh => hiu hh.symm) _ _
              rw [hsuccs]
              exact hinv i hi
          · have hsum := sum_map_set List.length [] g.adj u.toNat hulen
              ((g.succs u.toNat).erase v.toNat)
            have hgetD : g.adj.getD u.toNat [] = g.succs u.toNat := rfl
            rw [hgetD] at hsum
            rw [List.length_erase_of_mem hvmem] at hsum
            have hlenpos : 1 ≤ (g.succs u.toNat).length := by
              cases hl : g.succs u.toNat with
              | nil => rw [hl] at hvmem; simp at hvmem
              | cons a t => simp [hl]
            have hsumge : (g.succs u.toNat).length ≤ (g.adj.map List.length).sum :=
              le_sum_map_of_mem (getD_mem_of_lt hulen [])
            simp only [hcount]
            omega
        · have he' : g.edgeNat u.toNat v.toNat = false := by
            revert he; cases g.edgeNat u.toNat v.toNat <;> simp
          rw [removeEdge_valid_absent g hu hv huv he'] at h
          cases h
          exact ⟨hn, hlen, hinv, hcount⟩
    · rw [removeEdge_err_right g hu hv] at h; cases h
  · rw [removeEdge_err_left g hu] at h; cases h

theorem WF_setVertexLabel_ok {g g' : AdjacencyListGraph} {v : Int} {label : String}
    (hWF : g.WF) (h : g.setVertexLabel v label = Except.ok g') : g'.WF := by
  obtain ⟨hn, hlen, hinv, hcount⟩ := hWF
  by_cases hv : inRange g.n v
  · rw [setVertexLabel_valid g label hv] at h
    cases h
    exact ⟨hn, hlen, hinv, hcount⟩
  · rw [setVertexLabel_err g label hv] at h; cases h

theorem WF_applyOp {g : AdjacencyListGraph} (hWF : g.WF) (op : Op) :
    (g.applyOp op).WF := by
  cases op with
  | addEdge u v =>
    simp only [applyOp]
    cases h : g.addEdge u v with
    | ok g' => exact WF_addEdge_ok hWF h
    | error e => exact hWF
  | removeEdge u v =>
    simp only [applyOp]
    cases h : g.removeEdge u v with
    | ok g' => exact WF_removeEdge_ok hWF h
    | error e => exact hWF
  | setLabel v s =>
    simp only [applyOp]
    cases h : g.setVertexLabel v s with
    | ok g' => exact WF_setVertexLabel_ok hWF h
    | error e => exact hWF

theorem WF_applyOps {g : AdjacencyListGraph} (hWF : g.WF) (ops : List Op) :
    (g.applyOps ops).WF := by
  induction ops generalizing g with
  | nil => exact hWF
  | cons op rest ih => exact ih (WF_applyOp hWF op)

end AdjacencyListGraph

/-! ### Matrix backend: well-formedness preservation -/

namespace AdjacencyMatrixGraph

theorem WF_mk0_m {n : Nat} (hn : 0 < n) : (mk0 n).WF := by
  refine ⟨hn, by simp [mk0], ?_, ?_, ?_⟩
  · intro row hrow
    rw [List.eq_of_mem_replicate hrow]
    simp [mk0]
  · intro i hi
    have hi' : i < n := by simpa [mk0] using List.mem_range.mp hi
    unfold cell mk0
    simp only
    rw [getD_replicate_def hi' [] (List.replicate n false),
      getD_replicate_def hi' false false]
  · unfold mk0
    simp [List.map_replicate, List.countP_eq_length_filter]

theorem row_length {g : AdjacencyMatrixGraph} (hWF2 : g.matrix.length = g.n)
    (hWF3 : ∀ row ∈ g.matrix, row.length = g.n) {u : Nat} (hu : u < g.n) :
    (g.matrix.getD u []).length = g.n :=
  hWF3 _ (getD_mem_of_lt (by omega) [])

theorem cell_setCell_self {g : AdjacencyMatrixGraph} {u v : Nat} (b : Bool)
    (hu : u < g.matrix.length) (hv : v < (g.matrix.getD u []).length) :
    ((g.setCell u v b).getD u []).getD v false = b := by
  unfold setCell
  rw [getD_set_self _ hu _ _, getD_set_self _ hv _ _]

theorem cell_setCell_ne {g : AdjacencyMatrixGraph} {u v p q : Nat} (b : Bool)
    (h : ¬ (p = u ∧ q = v)) :
    ((g.setCell u v b).getD p []).getD q false = (g.matrix.getD p []).getD q false := by
  unfold setCell
  by_cases hpu : p = u
  · subst hpu
    have hqv : q ≠ v := fun hq => h ⟨rfl, hq⟩
    by_cases hlt : p < g.matrix.length
    · rw [getD_set_self _ hlt _ _, getD_set_ne _ (fun hh => hqv hh.symm) _ _]
    · have hle : g.matrix.length ≤ p := Nat.le_of_not_lt hlt
      rw [List.set_eq_of_length_le hle]
  · rw [getD_set_ne _ (fun hh => hpu hh.symm) _ _]

theorem WF_addEdge_ok_m {g g' : AdjacencyMatrixGraph} {u v : Int}
    (hWF : g.WF) (h : g.addEdge u v = Except.ok g') : g'.WF := by
  obtain ⟨hn, hlen, hrows, hdiag, hcount⟩ := hWF
  by_cases hu : inRange g.n u
  · by_cases hv : inRange g.n v
    · by_cases huv : u = v
      · rw [addEdge_self_m g hu hv huv] at h; cases h
      · by_cases he : g.cell u.toNat v.toNat = true
        · rw [addEdge_valid_present_m g hu hv huv he] at h
          cases h
          exact ⟨hn, hlen, hrows, hdiag, hcount⟩
        · have he' : g.cell u.toNat v.toNat = false := by
            revert he; cases g.cell u.toNat v.toNat <;> simp
          rw [addEdge_valid_absent_m g hu hv huv he'] at h
          cases h
          have hun : u.toNat < g.n := toNat_lt_of_inRange hu
          have hvn : v.toNat < g.n := toNat_lt_of_inRange hv
          have huvn : u.toNat ≠ v.toNat := toNat_inj_of_inRange hu hv huv
          have hulen : u.toNat < g.matrix.length := by omega
          have hrowlen : (g.matrix.getD u.toNat []).length = g.n :=
            row_length hlen hrows hun
          have hvlen : v.toNat < (g.matrix.getD u.toNat []).length := by omega
          refine ⟨hn, by simp [setCell, hlen], ?_, ?_, ?_⟩
          · intro row hrow
            rcases List.mem_or_eq_of_mem_set hrow with hmem | heq
            · exact hrows row hmem
            · rw [heq, List.length_set]
              exact hrowlen
          · intro i hi
            have : ¬ (i = u.toNat ∧ i = v.toNat) := by
              rintro ⟨rfl, hh⟩; exact huvn hh
            have hc := cell_setCell_ne (g := g) (p := i) (q := i) true this
            unfold cell
            simp only
            rw [hc]
            exact hdiag i hi
          · have hsum := sum_map_set (fun row => row.countP (fun b => b)) []
              g.matrix u.toNat hulen ((g.matrix.getD u.toNat []).set v.toNat true)
            have hcp := countP_set (fun b => b) false (g.matrix.getD u.toNat [])
              v.toNat hvlen true
            have hcellval : (g.matrix.getD u.toNat []).getD v.toNat false = false := he'
            rw [hcellval] at hcp
            simp only [if_true, if_false, Bool.false_eq_true] at hcp
            simp only [hcount, setCell]
            have : ((g.matrix.set u.toNat ((g.matrix.getD u.toNat []).set v.toNat true)).map
                (fun row => row.countP (fun b => b))).sum =
                (g.matrix.map (fun row => row.countP (fun b => b))).sum + 1 := by omega
            rw [this]
            push_cast
            ring
    · rw [addEdge_err_right_m g hu hv] at h; cases h
  · rw [addEdge_err_left_m g hu] at h; cases h

theorem WF_removeEdge_ok_m {g g' : AdjacencyMatrixGraph} {u v : Int}
    (hWF : g.WF) (h : g.removeEdge u v = Except.ok g') : g'.WF := by
  obtain ⟨hn, hlen, hrows, hdiag, hcount⟩ := hWF
  by_cases hu : inRange g.n u
  · by_cases hv : inRange g.n v
    · by_cases huv : u = v
      · rw [removeEdge_self_m g hu hv huv] at h; cases h
      · by_cases he : g.cell u.toNat v.toNat = true
        · rw [removeEdge_valid_present_m g hu hv huv he] at h
          cases h
          have hun : u.toNat < g.n := toNat_lt_of_inRange hu
          have hvn : v.toNat < g.n := toNat_lt_of_inRange hv
          have huvn : u.toNat ≠ v.toNat := toNat_inj_of_inRange hu hv huv
          have hulen : u.toNat < g.matrix.length := by omega
          have hrowlen : (g.matrix.getD u.toNat []).length = g.n :=
            row_length hlen hrows hun
          have hvlen : v.toNat < (g.matrix.getD u.toNat []).length := by omega
          refine ⟨hn, by simp [setCell, hlen], ?_, ?_, ?_⟩
          · intro row hrow
            rcases List.mem_or_eq_of_mem_set hrow with hmem | heq
            · exact hrows row hmem
            · rw [heq, List.length_set]
              exact hrowlen
          · intro i hi
            have : ¬ (i = u.toNat ∧ i = v.toNat) := by
              rintro ⟨rfl, hh⟩; exact huvn hh
            have hc := cell_setCell_ne (g := g) (p := i) (q := i) false this
            unfold cell
            simp only
            rw [hc]
            exact hdiag i hi
          · have hsum := sum_map_set (fun row => row.countP (fun b => b)) []
              g.matrix u.toNat hulen ((g.matrix.getD u.toNat []).set v.toNat false)
            have hcp := countP_set (fun b => b) false (g.matrix.getD u.toNat [])
              v.toNat hvlen false
            have hcellval : (g.matrix.getD u.toNat []).getD v.toNat false = true := he
            rw [hcellval] at hcp
            simp only [if_true, if_false, Bool.false_eq_true] at hcp
            have hsumge : (g.matrix.getD u.toNat []).countP (fun b => b) ≤
                (g.matrix.map (fun row => row.countP (fun b => b))).sum :=
              le_sum_map_of_mem (getD_mem_of_lt hulen [])
            simp only [hcount, setCell]
            omega
        · have he' : g.cell u.toNat v.toNat = false := by
            revert he; cases g.cell u.toNat v.toNat <;> simp
          rw [removeEdge_valid_absent_m g hu hv huv he'] at h
          cases h
          exact ⟨hn, hlen, hrows, hdiag, hcount⟩
    · rw [removeEdge_err_right_m g hu hv] at h; cases h
  · rw [removeEdge_err_left_m g hu] at h; cases h

theorem WF_setVertexLabel_ok_m {g g' : AdjacencyMatrixGraph} {v : Int} {label : String}
    (hWF : g.WF) (h : g.setVertexLabel v label = Except.ok g') : g'.WF := by
  obtain ⟨hn, hlen, hrows, hdiag, hcount⟩ := hWF
  by_cases hv : inRange g.n v
  · rw [setVertexLabel_valid_m g label hv] at h
    cases h
    exact ⟨hn, hlen, hrows, hdiag, hcount⟩
  · rw [setVertexLabel_err_m g label hv] at h; cases h

theorem WF_applyOp_m {g : AdjacencyMatrixGraph} (hWF : g.WF) (op : Op) :
    (g.applyOp op).WF := by
  cases op with
  | addEdge u v =>
    simp only [applyOp]
    cases h : g.addEdge u v with
    | ok g' => exact WF_addEdge_ok_m hWF h
    | error e => exact hWF
  | removeEdge u v =>
    simp only [applyOp]
    cases h : g.removeEdge u v with
    | ok g' => exact WF_removeEdge_ok_m hWF h
    | error e => exact hWF
  | setLabel v s =>
    simp only [applyOp]
    cases h : g.setVertexLabel v s with
    | ok g' => exact WF_setVertexLabel_ok_m hWF h
    | error e => exact hWF

theorem WF_applyOps_m {g : AdjacencyMatrixGraph} (hWF : g.WF) (ops : List Op) :
    (g.applyOps ops).WF := by
  induction ops generalizing g with
  | nil => exact hWF
  | cons op rest ih => exact ih (WF_applyOp_m hWF op)

end AdjacencyMatrixGraph

/-! ### DFS correctness

The recursive `_dfs_undirected` marks exactly the vertices weakly reachable
from the start vertex.  The lemmas are generic in the neighbour enumeration
`nbrs`, so they apply to both backends (which enumerate the same neighbour
sets in different orders). -/

section DFS

variable (nbrs : Nat → List Nat)

theorem dfs_subset :
    ∀ (fuel x : Nat) (vis : List Nat), vis ⊆ dfsUndirected nbrs fuel x vis := by
  intro fuel
  induction fuel with
  | zero => intro x vis a ha; simpa [dfsUndirected] using ha
  | succ f ih =>
    intro x vis
    have hmono : ∀ (l acc : List Nat),
        acc ⊆ l.foldl (fun a y => if y ∈ a then a else dfsUndirected nbrs f y a) acc := by
      intro l
      induction l with
      | nil => intro acc a ha; simpa using ha
      | cons y t iht =>
        intro acc
        simp only [List.foldl_cons]
        refine List.Subset.trans ?_ (iht _)
        by_cases hy : y ∈ acc
        · simp [hy]
        · simp only [if_neg hy]
          exact ih y acc
    intro a ha
    simp only [dfsUndirected]
    exact hmono (nbrs x) (x :: vis) (List.mem_cons_of_mem _ ha)

theorem dfs_foldl_mono (f : Nat) :
    ∀ (l acc : List Nat),
      acc ⊆ l.foldl (fun a y => if y ∈ a then a else dfsUndirected nbrs f y a) acc := by
  intro l
  induction l with
  | nil => intro acc a ha; simpa using ha
  | cons y t iht =>
    intro acc
    simp only [List.foldl_cons]
    refine List.Subset.trans ?_ (iht _)
    by_cases hy : y ∈ acc
    · simp [hy]
    · simp only [if_neg hy]
      exact dfs_subset nbrs f y acc

theorem dfs_mem_start (f x : Nat) (vis : List Nat) :
    x ∈ dfsUndirected nbrs (f+1) x vis := by
  simp only [dfsUndirected]
  exact dfs_foldl_mono nbrs f (nbrs x) (x :: vis) (List.mem_cons_self x vis)

theorem dfs_bounded {n : Nat} (hb : ∀ x y, y ∈ nbrs x → y < n) :
    ∀ (fuel x : Nat) (vis : List Nat), x < n → (∀ v ∈ vis, v < n) →
      ∀ v ∈ dfsUndirected nbrs fuel x vis, v < n := by
  intro fuel
  induction fuel with
  | zero => intro x vis _ hvis v hv; exact hvis v (by simpa [dfsUndirected] using hv)
  | succ f ih =>
    intro x vis hx hvis
    simp only [dfsUndirected]
    have hfold : ∀ (l acc : List Nat), (∀ y ∈ l, y < n) → (∀ v ∈ acc, v < n) →
        ∀ v ∈ l.foldl (fun a y => if y ∈ a then a else dfsUndirected nbrs f y a) acc,
          v < n := by
      intro l
      induction l with
      | nil => intro acc _ hacc v hv; exact hacc v (by simpa using hv)
      | cons y t iht =>
        intro acc hl hacc
        simp only [List.foldl_cons]
        refine iht _ (fun y' hy' => hl y' (List.mem_cons_of_mem _ hy')) ?_
        by_cases hy : y ∈ acc
        · simpa [hy] using hacc
        · simp only [if_neg hy]
          exact ih y acc (hl y (List.mem_cons_self _ _)) hacc
    refine hfold (nbrs x) (x :: vis) (fun y hy => hb x y hy) ?_
    intro v hv
    rcases List.mem_cons.mp hv with rfl | hv
    · exact hx
    · exact hvis v hv

theorem dfs_nodup :
    ∀ (fuel x : Nat) (vis : List Nat), vis.Nodup → x ∉ vis →
      (dfsUndirected nbrs fuel x vis).Nodup := by
  intro fuel
  induction fuel with
  | zero => intro x vis hnd _; simpa [dfsUndirected] using hnd
  | succ f ih =>
    intro x vis hnd hx
    simp only [dfsUndirected]
    have hfold : ∀ (l acc : List Nat), acc.Nodup →
        (l.foldl (fun a y => if y ∈ a then a else dfsUndirected nbrs f y a) acc).Nodup := by
      intro l
      induction l with
      | nil => intro acc hacc; simpa using hacc
      | cons y t iht =>
        intro acc hacc
        simp only [List.foldl_cons]
        refine iht _ ?_
        by_cases hy : y ∈ acc
        · simpa [hy] using hacc
        · simp only [if_neg hy]
          exact ih y acc hacc hy
    exact hfold (nbrs x) (x :: vis) (List.nodup_cons.mpr ⟨hx, hnd⟩)

theorem dfs_length_le :
    ∀ (fuel x : Nat) (vis : List Nat),
      vis.length ≤ (dfsUndirected nbrs fuel x vis).length := by
  intro fuel
  induction fuel with
  | zero => intro x vis; simp [dfsUndirected]
  | succ f ih =>
    intro x vis
    simp only [dfsUndirected]
    have hfold : ∀ (l acc : List Nat), acc.length ≤
        (l.foldl (fun a y => if y ∈ a then a else dfsUndirected nbrs f y a) acc).length := by
      intro l
      induction l with
      | nil => intro acc; simp
      | cons y t iht =>
        intro acc
        simp only [List.foldl_cons]
        refine le_trans ?_ (iht _)
        by_cases hy : y ∈ acc
        · simp [hy]
        · simp only [if_neg hy]
          exact ih y acc
    exact le_trans (by simp) (hfold (nbrs x) (x :: vis))

theorem dfs_sound :
    ∀ (fuel x : Nat) (vis : List Nat) (z : Nat),
      z ∈ dfsUndirected nbrs fuel x vis →
        z ∈ vis ∨ Relation.ReflTransGen (fun a b => b ∈ nbrs a) x z := by
  intro fuel
  induction fuel with
  | zero => intro x vis z hz; exact Or.inl (by simpa [dfsUndirected] using hz)
  | succ f ih =>
    intro x vis z hz
    simp only [dfsUndirected] at hz
    have hfold : ∀ (l acc : List Nat), l ⊆ nbrs x →
        (∀ w ∈ acc, w ∈ vis ∨ Relation.ReflTransGen (fun a b => b ∈ nbrs a) x w) →
        ∀ w ∈ l.foldl (fun a y => if y ∈ a then a else dfsUndirected nbrs f y a) acc,
          w ∈ vis ∨ Relation.ReflTransGen (fun a b => b ∈ nbrs a) x w := by
      intro l
      induction l with
      | nil => intro acc _ hacc w hw; exact hacc w (by simpa using hw)
      | cons y t iht =>
        intro acc hl hacc
        simp only [List.foldl_cons]
        refine iht _ (fun y' hy' => hl (List.mem_cons_of_mem _ hy')) ?_
        by_cases hy : y ∈ acc
        · simpa [hy] using hacc
        · simp only [if_neg hy]
          intro w hw
          rcases ih y acc w hw with hin | hreach
          · exact hacc w hin
          · exact Or.inr (Relation.ReflTransGen.head (hl (List.mem_cons_self _ _)) hreach)
    refine hfold (nbrs x) (x :: vis) (fun a ha => ha) ?_ z hz
    intro w hw
    rcases List.mem_cons.mp hw with rfl | hw
    · exact Or.inr Relation.ReflTransGen.refl
    · exact Or.inl hw

/-- The closure property of a completed DFS call at a given fuel level:
once the call returns, every newly visited vertex has all its neighbours
visited. -/
def DfsClosed (n fuel : Nat) : Prop :=
  ∀ (x : Nat) (vis : List Nat), x < n → x ∉ vis → vis.Nodup →
    (∀ v ∈ vis, v < n) → n ≤ fuel + vis.length →
    ∀ z ∈ dfsUndirected nbrs fuel x vis, z ∉ vis →
      ∀ y ∈ nbrs z, y ∈ dfsUndirected nbrs fuel x vis

theorem dfs_fold_closed {n : Nat} (hb : ∀ x y, y ∈ nbrs x → y < n) (f : Nat)
    (ihf : DfsClosed nbrs n f) :
    ∀ (l E acc : List Nat),
      (∀ y ∈ l, y < n) → acc.Nodup → (∀ v ∈ acc, v < n) → n ≤ f + acc.length →
      (∀ z ∈ acc, z ∉ E → ∀ y ∈ nbrs z, y ∈ acc) →
      ((∀ z ∈ l.foldl (fun a y => if y ∈ a then a else dfsUndirected nbrs f y a) acc,
          z ∉ E → ∀ y ∈ nbrs z,
            y ∈ l.foldl (fun a y => if y ∈ a then a else dfsUndirected nbrs f y a) acc) ∧
        (∀ y ∈ l,
          y ∈ l.foldl (fun a y => if y ∈ a then a else dfsUndirected nbrs f y a) acc)) := by
  intro l
  induction l with
  | nil =>
    intro E acc _ _ _ _ hclosed
    refine ⟨?_, by simp⟩
    simpa using hclosed
  | cons y t iht =>
    intro E acc hl hnd hbv hfuel hclosed
    simp only [List.foldl_cons]
    have hyn : y < n := hl y (List.mem_cons_self _ _)
    by_cases hy : y ∈ acc
    · simp only [if_pos hy]
      have := iht E acc (fun y' hy' => hl y' (List.mem_cons_of_mem _ hy')) hnd hbv
        hfuel hclosed
      refine ⟨this.1, ?_⟩
      intro w hw
      rcases List.mem_cons.mp hw with rfl | hw
      · exact dfs_foldl_mono nbrs f t acc hy
      · exact this.2 w hw
    · simp only [if_neg hy]
      have hlenacc : acc.length + 1 ≤ n :=
        length_le_of_nodup_lt (List.nodup_cons.mpr ⟨hy, hnd⟩)
          (by intro v hv; rcases List.mem_cons.mp hv with rfl | hv
              · exact hyn
              · exact hbv v hv)
      have hfpos : 0 < f := by omega
      set acc' := dfsUndirected nbrs f y acc with hacc'
      have hsubacc : acc ⊆ acc' := dfs_subset nbrs f y acc
      have hnd' : acc'.Nodup := dfs_nodup nbrs f y acc hnd hy
      have hbv' : ∀ v ∈ acc', v < n := dfs_bounded nbrs hb f y acc hyn hbv
      have hlen' : acc.length ≤ acc'.length := dfs_length_le nbrs f y acc
      have hymem : y ∈ acc' := by
        obtain ⟨f', rfl⟩ : ∃ f', f = f' + 1 := ⟨f - 1, by omega⟩
        exact dfs_mem_start nbrs f' y acc
      have hclosed' : ∀ z ∈ acc', z ∉ E → ∀ w ∈ nbrs z, w ∈ acc' := by
        intro z hz hzE w hw
        by_cases hzacc : z ∈ acc
        · exact hsubacc (hclosed z hzacc hzE w hw)
        · exact ihf y acc hyn hy hnd hbv (by omega) z hz hzacc w hw
      have := iht E acc' (fun y' hy' => hl y' (List.mem_cons_of_mem _ hy')) hnd' hbv'
        (by omega) hclosed'
      refine ⟨this.1, ?_⟩
      intro w hw
      rcases List.mem_cons.mp hw with rfl | hw
      · exact dfs_foldl_mono nbrs f t acc' hymem
      · exact this.2 w hw

theorem dfs_closed {n : Nat} (hb : ∀ x y, y ∈ nbrs x → y < n) :
    ∀ fuel, DfsClosed nbrs n fuel := by
  intro fuel
  induction fuel with
  | zero =>
    intro x vis hx hxv hnd hbv hfuel z hz hzvis y hy
    exfalso
    have : (x :: vis).length ≤ n :=
      length_le_of_nodup_lt (List.nodup_cons.mpr ⟨hxv, hnd⟩)
        (by intro v hv; rcases List.mem_cons.mp hv with rfl | hv
            · exact hx
            · exact hbv v hv)
    simp only [List.length_cons] at this
    omega
  | succ f ih =>
    intro x vis hx hxv hnd hbv hfuel
    simp only [dfsUndirected]
    have hmaster := dfs_fold_closed nbrs hb f ih (nbrs x) (x :: vis) (x :: vis)
      (fun y hy => hb x y hy)
      (List.nodup_cons.mpr ⟨hxv, hnd⟩)
      (by intro v hv; rcases List.mem_cons.mp hv with rfl | hv
          · exact hx
          · exact hbv v hv)
      (by simp only [List.length_cons]; omega)
      (by intro z hz hzE; exact absurd hz hzE)
    intro z hz hzvis y hy
    by_cases hzx : z = x
    · subst hzx
      exact hmaster.2 y hy
    · refine hmaster.1 z hz ?_ y hy
      intro hmem
      rcases List.mem_cons.mp hmem with h | h
      · exact hzx h
      · exact hzvis h

theorem dfs_complete {n : Nat} (hb : ∀ x y, y ∈ nbrs x → y < n)
    {start : Nat} (hs : start < n) :
    ∀ z, Relation.ReflTransGen (fun a b => b ∈ nbrs a) start z →
      z ∈ dfsUndirected nbrs n start [] := by
  have hstart : start ∈ dfsUndirected nbrs n start [] := by
    obtain ⟨f, hf⟩ : ∃ f, n = f + 1 := ⟨n - 1, by omega⟩
    rw [hf]
    exact dfs_mem_start nbrs f start []
  have hclosed := dfs_closed nbrs hb n start [] hs (by simp) (by simp) (by simp)
    (by simp)
  intro z hz
  induction hz with
  | refl => exact hstart
  | tail hab hbc ih =>
    exact hclosed _ ih (by simp) _ hbc

theorem dfs_mem_iff {n : Nat} (hb : ∀ x y, y ∈ nbrs x → y < n)
    {start : Nat} (hs : start < n) (z : Nat) :
    z ∈ dfsUndirected nbrs n start [] ↔
      Relation.ReflTransGen (fun a b => b ∈ nbrs a) start z := by
  constructor
  · intro h
    rcases dfs_sound nbrs n start [] z h with hin | hreach
    · simp at hin
    · exact hreach
  · exact dfs_complete nbrs hb hs z

end DFS

theorem reflTransGen_congruent {r s : Nat → Nat → Prop} (h : ∀ a b, r a b ↔ s a b)
    {x y : Nat} : Relation.ReflTransGen r x y ↔ Relation.ReflTransGen s x y :=
  ⟨Relation.ReflTransGen.mono (fun a b hab => (h a b).mp hab),
   Relation.ReflTransGen.mono (fun a b hab => (h a b).mpr hab)⟩

/-! ### Weak adjacency and reachability, list backend -/

namespace AdjacencyListGraph

/-- One step of the undirected traversal: a stored edge in either
direction (target in range). -/
def weakStep (g : AdjacencyListGraph) (a b : Nat) : Prop :=
  b < g.n ∧ (g.edgeNat a b = true ∨ g.edgeNat b a = true)

/-- Weak reachability: the reflexive-transitive closure of `weakStep`. -/
def weakReach (g : AdjacencyListGraph) : Nat → Nat → Prop :=
  Relation.ReflTransGen g.weakStep

theorem edgeNat_true_facts {g : AdjacencyListGraph} (hWF : g.WF) {u v : Nat}
    (h : g.edgeNat u v = true) : u < g.n ∧ v < g.n ∧ u ≠ v := by
  obtain ⟨hn, hlen, hinv, _⟩ := hWF
  have hmem : v ∈ g.succs u := by
    have := h; unfold edgeNat at this; simpa using this
  have hu : u < g.n := by
    by_contra hcon
    have : g.succs u = [] := by
      unfold succs
      exact getD_of_length_le (by omega) []
    rw [this] at hmem
    simp at hmem
  obtain ⟨hnd, hnself, hbound⟩ := hinv u (List.mem_range.mpr hu)
  refine ⟨hu, hbound v hmem, ?_⟩
  intro heq
  subst heq
  exact hnself hmem

theorem mem_nbrs {g : AdjacencyListGraph} (hWF : g.WF) (x y : Nat) :
    y ∈ g.nbrs x ↔ g.weakStep x y := by
  unfold nbrs weakStep
  rw [List.mem_append, List.mem_filter, List.mem_range]
  constructor
  · rintro (hmem | ⟨hy, he⟩)
    · have hx : g.edgeNat x y = true := by
        unfold edgeNat; simpa using hmem
      obtain ⟨_, hyn, _⟩ := edgeNat_true_facts hWF hx
      exact ⟨hyn, Or.inl hx⟩
    · exact ⟨hy, Or.inr he⟩
  · rintro ⟨hy, he | he⟩
    · refine Or.inl ?_
      have := he; unfold edgeNat at this; simpa using this
    · exact Or.inr ⟨hy, he⟩

theorem nbrs_bounded {g : AdjacencyListGraph} (hWF : g.WF) :
    ∀ x y, y ∈ g.nbrs x → y < g.n := by
  intro x y hy
  exact ((mem_nbrs hWF x y).mp hy).1

end AdjacencyListGraph

/-! ### Weak adjacency and reachability, matrix backend -/

namespace AdjacencyMatrixGraph

/-- One step of the undirected traversal: a true cell in either
direction (target in range). -/
def weakStep (g : AdjacencyMatrixGraph) (a b : Nat) : Prop :=
  b < g.n ∧ (g.cell a b = true ∨ g.cell b a = true)

/-- Weak reachability: the reflexive-transitive closure of `weakStep`. -/
def weakReach (g : AdjacencyMatrixGraph) : Nat → Nat → Prop :=
  Relation.ReflTransGen g.weakStep

theorem mem_nbrs_m (g : AdjacencyMatrixGraph) (x y : Nat) :
    y ∈ g.nbrs x ↔ g.weakStep x y := by
  unfold nbrs weakStep
  rw [List.mem_filter, List.mem_range]
  constructor
  · rintro ⟨hy, he⟩
    rcases Bool.or_eq_true_iff.mp he with h | h
    · exact ⟨hy, Or.inl h⟩
    · exact ⟨hy, Or.inr h⟩
  · rintro ⟨hy, he | he⟩
    · exact ⟨hy, by simp [he]⟩
    · exact ⟨hy, by simp [he]⟩

theorem nbrs_bounded_m (g : AdjacencyMatrixGraph) :
    ∀ x y, y ∈ g.nbrs x → y < g.n := by
  intro x y hy
  exact ((mem_nbrs_m g x y).mp hy).1

end AdjacencyMatrixGraph

/-! ### isConnected characterization, list backend -/

namespace AdjacencyListGraph

theorem isConnected_small {g : AdjacencyListGraph} (h : g.n ≤ 1) :
    g.isConnected = true := by
  unfold isConnected
  rw [if_pos h]

theorem isConnected_empty {g : AdjacencyListGraph} (h1 : ¬ g.n ≤ 1)
    (he : g.edge_count = 0) : g.isConnected = false := by
  unfold isConnected
  rw [if_neg h1, if_pos (by unfold isEmptyGraph; simp [he])]

theorem isConnected_eq_of_find {g : AdjacencyListGraph} (h1 : ¬ g.n ≤ 1)
    (h2 : ¬ g.isEmptyGraph = true) {s : Nat}
    (hfind : (List.range g.n).find? (fun i => g.nonIsolated i) = some s) :
    g.isConnected = (List.range g.n).all
      (fun i => !(g.nonIsolated i) || decide (i ∈ dfsUndirected g.nbrs g.n s [])) := by
  unfold isConnected
  rw [if_neg h1, if_neg h2, hfind]

theorem nonIsolated_facts {g : AdjacencyListGraph} (hWF : g.WF) {s : Nat}
    (hsi : g.nonIsolated s = true) : 2 ≤ g.n ∧ g.edge_count ≠ 0 := by
  have hedge : ∃ a b, g.edgeNat a b = true := by
    unfold nonIsolated at hsi
    rcases Bool.or_eq_true_iff.mp hsi with h | h
    · have hpos : 0 < g.inDegNat s := by simpa using h
      unfold inDegNat at hpos
      obtain ⟨i, _, hi⟩ := List.countP_pos_iff.mp hpos
      exact ⟨i, s, hi⟩
    · have hpos : 0 < g.outDegNat s := by simpa using h
      unfold outDegNat at hpos
      obtain ⟨y, hy⟩ := List.exists_mem_of_length_pos hpos
      refine ⟨s, y, ?_⟩
      unfold edgeNat
      simpa using hy
  obtain ⟨a, b, hab⟩ := hedge
  obtain ⟨han, hbn, hne⟩ := edgeNat_true_facts hWF hab
  constructor
  · omega
  · obtain ⟨_, hlen, _, hcount⟩ := hWF
    have hmem : b ∈ g.succs a := by
      have := hab; unfold edgeNat at this; simpa using this
    have hlenpos : 1 ≤ (g.succs a).length := by
      cases hl : g.succs a with
      | nil => rw [hl] at hmem; simp at hmem
      | cons x t => simp [hl]
    have hsumge : (g.succs a).length ≤ (g.adj.map List.length).sum :=
      le_sum_map_of_mem (getD_mem_of_lt (by omega) [])
    rw [hcount]
    omega

theorem isConnected_char {g : AdjacencyListGraph} (hWF : g.WF) {s : Nat}
    (hs : s < g.n) (hsi : g.nonIsolated s = true)
    (hmin : ∀ j < s, g.nonIsolated j = false) :
    (g.isConnected = true ↔
      ∀ i < g.n, g.nonIsolated i = true → g.weakReach s i) := by
  obtain ⟨h2, hne⟩ := nonIsolated_facts hWF hsi
  have hfind : (List.range g.n).find? (fun i => g.nonIsolated i) = some s :=
    range_find?_eq_some hs hsi hmin
  rw [isConnected_eq_of_find (by omega) (by unfold isEmptyGraph; simpa using hne) hfind]
  rw [List.all_eq_true]
  have hmem_iff : ∀ i : Nat, i ∈ dfsUndirected g.nbrs g.n s [] ↔ g.weakReach s i := by
    intro i
    rw [dfs_mem_iff g.nbrs (nbrs_bounded hWF) hs i]
    exact reflTransGen_congruent (mem_nbrs hWF)
  constructor
  · intro h i hi hni
    have := h i (List.mem_range.mpr hi)
    rw [hni] at this
    simp only [Bool.not_true, Bool.false_or, decide_eq_true_eq] at this
    exact (hmem_iff i).mp this
  · intro h i hi
    cases hni : g.nonIsolated i with
    | false => simp
    | true =>
      have := (hmem_iff i).mpr (h i (List.mem_range.mp hi) hni)
      simp [this]

end AdjacencyListGraph

/-! ### isConnected characterization, matrix backend -/

namespace AdjacencyMatrixGraph

theorem isConnected_small_m {g : AdjacencyMatrixGraph} (h : g.n ≤ 1) :
    g.isConnected = true := by
  unfold isConnected
  rw [if_pos h]

theorem isConnected_empty_m {g : AdjacencyMatrixGraph} (h1 : ¬ g.n ≤ 1)
    (he : g.edge_count = 0) : g.isConnected = false := by
  unfold isConnected
  rw [if_neg h1, if_pos (by unfold isEmptyGraph; simp [he])]

theorem isConnected_eq_of_find_m {g : AdjacencyMatrixGraph} (h1 : ¬ g.n ≤ 1)
    (h2 : ¬ g.isEmptyGraph = true) {s : Nat}
    (hfind : (List.range g.n).find? (fun i => g.nonIsolated i) = some s) :
    g.isConnected = (List.range g.n).all
      (fun i => !(g.nonIsolated i) || decide (i ∈ dfsUndirected g.nbrs g.n s [])) := by
  unfold isConnected
  rw [if_neg h1, if_neg h2, hfind]

theorem cell_true_lt {g : AdjacencyMatrixGraph} (hWF : g.WF) {u v : Nat}
    (h : g.cell u v = true) : u < g.n ∧ v < g.n ∧ u ≠ v := by
  obtain ⟨hn, hlen, hrows, hdiag, _⟩ := hWF
  have hu : u < g.n := by
    by_contra hcon
    have : g.matrix.getD u [] = [] := getD_of_length_le (by omega) []
    unfold cell at h
    rw [this] at h
    simp [List.getD] at h
  have hrowlen : (g.matrix.getD u []).length = g.n :=
    hrows _ (getD_mem_of_lt (by omega) [])
  have hv : v < g.n := by
    by_contra hcon
    unfold cell at h
    rw [getD_of_length_le (by omega) false] at h
    cases h
  refine ⟨hu, hv, ?_⟩
  intro heq
  subst heq
  rw [hdiag u (List.mem_range.mpr hu)] at h
  cases h

theorem nonIsolated_facts_m {g : AdjacencyMatrixGraph} (hWF : g.WF) {s : Nat}
    (hsi : g.nonIsolated s = true) : 2 ≤ g.n ∧ g.edge_count ≠ 0 := by
  have hedge : ∃ a b, g.cell a b = true := by
    unfold nonIsolated at hsi
    rcases Bool.or_eq_true_iff.mp hsi with h | h
    · have hpos : 0 < g.inDegNat s := by simpa using h
      unfold inDegNat at hpos
      obtain ⟨i, _, hi⟩ := List.countP_pos_iff.mp hpos
      exact ⟨i, s, hi⟩
    · have hpos : 0 < g.outDegNat s := by simpa using h
      unfold outDegNat at hpos
      obtain ⟨j, _, hj⟩ := List.countP_pos_iff.mp hpos
      exact ⟨s, j, hj⟩
  obtain ⟨a, b, hab⟩ := hedge
  obtain ⟨han, hbn, hne⟩ := cell_true_lt hWF hab
  constructor
  · omega
  · obtain ⟨_, hlen, hrows, _, hcount⟩ := hWF
    have hrowlen : (g.matrix.getD a []).length = g.n :=
      hrows _ (getD_mem_of_lt (by omega) [])
    have hcellpos : 0 < (g.matrix.getD a []).countP (fun x => x) := by
      rw [List.countP_pos_iff]
      refine ⟨(g.matrix.getD a []).getD b false, getD_mem_of_lt (by omega) false, ?_⟩
      exact hab
    have hsumge : (g.matrix.getD a []).countP (fun x => x) ≤
        (g.matrix.map (fun row => row.countP (fun x => x))).sum :=
      le_sum_map_of_mem (getD_mem_of_lt (by omega) [])
    rw [hcount]
    omega

theorem isConnected_char_m {g : AdjacencyMatrixGraph} (hWF : g.WF) {s : Nat}
    (hs : s < g.n) (hsi : g.nonIsolated s = true)
    (hmin : ∀ j < s, g.nonIsolated j = false) :
    (g.isConnected = true ↔
      ∀ i < g.n, g.nonIsolated i = true → g.weakReach s i) := by
  obtain ⟨h2, hne⟩ := nonIsolated_facts_m hWF hsi
  have hfind : (List.range g.n).find? (fun i => g.nonIsolated i) = some s :=
    range_find?_eq_some hs hsi hmin
  rw [isConnected_eq_of_find_m (by omega) (by unfold isEmptyGraph; simpa using hne) hfind]
  rw [List.all_eq_true]
  have hmem_iff : ∀ i : Nat, i ∈ dfsUndirected g.nbrs g.n s [] ↔ g.weakReach s i := by
    intro i
    rw [dfs_mem_iff g.nbrs (nbrs_bounded_m g) hs i]
    exact reflTransGen_congruent (mem_nbrs_m g)
  constructor
  · intro h i hi hni
    have := h i (List.mem_range.mpr hi)
    rw [hni] at this
    simp only [Bool.not_true, Bool.false_or, decide_eq_true_eq] at this
    exact (hmem_iff i).mp this
  · intro h i hi
    cases hni : g.nonIsolated i with
    | false => simp
    | true =>
      have := (hmem_iff i).mpr (h i (List.mem_range.mp hi) hni)
      simp [this]

end AdjacencyMatrixGraph

/-! ### isCompleteGraph characterization -/

namespace AdjacencyListGraph

theorem succs_length_of_all_present {g : AdjacencyListGraph} (hWF : g.WF) {x : Nat}
    (hx : x < g.n) (hall : ∀ j < g.n, x ≠ j → g.edgeNat x j = true) :
    (g.succs x).length = g.n - 1 := by
  obtain ⟨hn, hlen, hinv, _⟩ := hWF
  obtain ⟨hnd, hnself, hbound⟩ := hinv x (List.mem_range.mpr hx)
  have hmemiff : ∀ j, j ∈ g.succs x ↔ j ∈ (List.range g.n).erase x := by
    intro j
    rw [(List.nodup_range g.n).mem_erase_iff, List.mem_range]
    constructor
    · intro hj
      refine ⟨?_, hbound j hj⟩
      intro heq
      subst heq
      exact hnself hj
    · rintro ⟨hne, hj⟩
      have := hall j hj (fun heq => hne (heq.symm))
      unfold edgeNat at this
      simpa using this
  have := length_eq_of_nodup_same_mem hnd ((List.nodup_range g.n).erase x) hmemiff
  rw [this, List.length_erase_of_mem (List.mem_range.mpr hx), List.length_range]

theorem isCompleteGraph_char {g : AdjacencyListGraph} (hWF : g.WF) :
    (g.isCompleteGraph = true ↔ g.n ≤ 1 ∨
      (g.edge_count = ((g.n * (g.n - 1) : Nat) : Int) ∧
        ∀ i < g.n, ∀ j < g.n, i ≠ j → g.edgeNat i j = true)) := by
  by_cases hn1 : g.n ≤ 1
  · unfold isCompleteGraph
    rw [if_pos hn1]
    exact ⟨fun _ => Or.inl hn1, fun _ => rfl⟩
  · unfold isCompleteGraph
    rw [if_neg hn1]
    by_cases hcnt : g.edge_count = ((g.n * (g.n - 1) : Nat) : Int)
    · rw [if_neg (not_not_intro hcnt)]
      rw [List.all_eq_true]
      constructor
      · intro h
        refine Or.inr ⟨hcnt, ?_⟩
        intro i hi j hj hij
        have := h i (List.mem_range.mpr hi)
        rw [Bool.and_eq_true] at this
        have hinner := (List.all_eq_true.mp this.2) j (List.mem_range.mpr hj)
        rcases Bool.or_eq_true_iff.mp hinner with hd | hd
        · exact absurd (of_decide_eq_true hd) hij
        · exact hd
      · rintro (h | ⟨_, h⟩)
        · exact absurd h hn1
        · intro x hx
          have hxn : x < g.n := List.mem_range.mp hx
          rw [Bool.and_eq_true]
          constructor
          · rw [decide_eq_true_eq]
            exact succs_length_of_all_present hWF hxn (fun j hj hne => h x hxn j hj hne)
          · rw [List.all_eq_true]
            intro j hj
            by_cases hij : x = j
            · simp [hij]
            · have := h x hxn j (List.mem_range.mp hj) hij
              rw [Bool.or_eq_true_iff]
              exact Or.inr this
    · rw [if_pos hcnt]
      constructor
      · intro h; cases h
      · rintro (h | ⟨hc, _⟩)
        · exact absurd h hn1
        · exact absurd hc hcnt

end AdjacencyListGraph

namespace AdjacencyMatrixGraph

theorem isCompleteGraph_char_m (g : AdjacencyMatrixGraph) :
    (g.isCompleteGraph = true ↔ g.n ≤ 1 ∨
      (g.edge_count = ((g.n * (g.n - 1) : Nat) : Int) ∧
        ∀ i < g.n, ∀ j < g.n, i ≠ j → g.cell i j = true)) := by
  by_cases hn1 : g.n ≤ 1
  · unfold isCompleteGraph
    rw [if_pos hn1]
    exact ⟨fun _ => Or.inl hn1, fun _ => rfl⟩
  · unfold isCompleteGraph
    rw [if_neg hn1]
    by_cases hcnt : g.edge_count = ((g.n * (g.n - 1) : Nat) : Int)
    · rw [if_neg (not_not_intro hcnt)]
      rw [List.all_eq_true]
      constructor
      · intro h
        refine Or.inr ⟨hcnt, ?_⟩
        intro i hi j hj hij
        have hinner := (List.all_eq_true.mp (h i (List.mem_range.mpr hi))) j
          (List.mem_range.mpr hj)
        rcases Bool.or_eq_true_iff.mp hinner with hd | hd
        · exact absurd (of_decide_eq_true hd) hij
        · exact hd
      · rintro (h | ⟨_, h⟩)
        · exact absurd h hn1
        · intro x hx
          rw [List.all_eq_true]
          intro j hj
          by_cases hij : x = j
          · simp [hij]
          · have := h x (List.mem_range.mp hx) j (List.mem_range.mp hj) hij
            rw [Bool.or_eq_true_iff]
            exact Or.inr this
    · rw [if_pos hcnt]
      constructor
      · intro h; cases h
      · rintro (h | ⟨hc, _⟩)
        · exact absurd h hn1
        · exact absurd hc hcnt

end AdjacencyMatrixGraph

/-! ### Degree-sum identities -/

theorem sum_map_range_eq_finset (f : Nat → Nat) (n : Nat) :
    ((List.range n).map f).sum = Finset.sum (Finset.range n) f := by
  induction n with
  | zero => simp
  | succ m ih =>
    rw [List.range_succ, List.map_append, List.sum_append, Finset.sum_range_succ, ih]
    simp

theorem sum_map_getD {α : Type} (f : α → Nat) (d : α) :
    ∀ (l : List α),
      ((List.range l.length).map (fun i => f (l.getD i d))).sum = (l.map f).sum := by
  intro l
  induction l with
  | nil => simp
  | cons a t ih =>
    rw [List.length_cons, List.range_succ_eq_map, List.map_cons, List.map_map,
      List.sum_cons, List.map_cons, List.sum_cons]
    have hcomp : ((fun i => f ((a :: t).getD i d)) ∘ Nat.succ) =
        (fun i => f (t.getD i d)) := by
      funext i
      simp [List.getD_cons_succ]
    rw [hcomp, ih]
    simp [List.getD]

theorem countP_range_getD {α : Type} (p : α → Bool) (d : α) (l : List α) :
    (List.range l.length).countP (fun i => p (l.getD i d)) = l.countP p := by
  rw [countP_eq_sum_map, countP_eq_sum_map]
  exact sum_map_getD (fun a => if p a then 1 else 0) d l

theorem countP_swap (p : Nat → Nat → Bool) (n m : Nat) :
    ((List.range n).map (fun u => (List.range m).countP (fun i => p i u))).sum =
      ((List.range m).map (fun i => (List.range n).countP (fun u => p i u))).sum := by
  have hl : ∀ (k j : Nat) (q : Nat → Nat → Bool),
      ((List.range k).map (fun u => (List.range j).countP (fun i => q i u))).sum =
        Finset.sum (Finset.range k) (fun u =>
          Finset.sum (Finset.range j) (fun i => if q i u then 1 else 0)) := by
    intro k j q
    rw [sum_map_range_eq_finset]
    refine Finset.sum_congr rfl ?_
    intro u _
    rw [countP_eq_sum_map, sum_map_range_eq_finset]
  rw [hl n m p, hl m n (fun u i => p i u)]
  exact Finset.sum_comm

namespace AdjacencyListGraph

theorem degree_sums {g : AdjacencyListGraph} (hWF : g.WF) :
    ((List.range g.n).map g.outDegNat).sum = ((List.range g.n).map g.inDegNat).sum ∧
      g.edge_count = ((((List.range g.n).map g.outDegNat).sum : Nat) : Int) := by
  obtain ⟨hn, hlen, hinv, hcount⟩ := hWF
  have hout : ((List.range g.n).map g.outDegNat).sum = (g.adj.map List.length).sum := by
    have : (List.range g.n).map g.outDegNat =
        (List.range g.adj.length).map (fun i => (g.adj.getD i []).length) := by
      rw [hlen]
      rfl
    rw [this, sum_map_getD List.length [] g.adj]
  have hswap := countP_swap (fun i u => g.edgeNat i u) g.n g.n
  have hin : ((List.range g.n).map g.inDegNat).sum =
      ((List.range g.n).map (fun i => (List.range g.n).countP
        (fun u => g.edgeNat i u))).sum := by
    unfold inDegNat
    exact hswap
  have hrow : ∀ i ∈ List.range g.n,
      (List.range g.n).countP (fun u => g.edgeNat i u) = g.outDegNat i := by
    intro i hi
    obtain ⟨hnd, _, hbound⟩ := hinv i hi
    unfold outDegNat
    have : (List.range g.n).countP (fun u => g.edgeNat i u) =
        (List.range g.n).countP (fun u => decide (u ∈ g.succs i)) := rfl
    rw [this, countP_range_mem_eq_length hnd hbound]
  constructor
  · rw [hin, List.map_congr_left hrow]
  · rw [hcount, hout]

end AdjacencyListGraph

namespace AdjacencyMatrixGraph

theorem degree_sums_m {g : AdjacencyMatrixGraph} (hWF : g.WF) :
    ((List.range g.n).map g.outDegNat).sum = ((List.range g.n).map g.inDegNat).sum ∧
      g.edge_count = ((((List.range g.n).map g.outDegNat).sum : Nat) : Int) := by
  obtain ⟨hn, hlen, hrows, hdiag, hcount⟩ := hWF
  have hrowlen : ∀ u, u < g.n → (g.matrix.getD u []).length = g.n := by
    intro u hu
    exact hrows _ (getD_mem_of_lt (by omega) [])
  have hout_row : ∀ u ∈ List.range g.n,
      g.outDegNat u = (g.matrix.getD u []).countP (fun b => b) := by
    intro u hu
    unfold outDegNat
    have h1 : (List.range g.n).countP (fun j => g.cell u j) =
        (List.range (g.matrix.getD u []).length).countP
          (fun j => (g.matrix.getD u []).getD j false) := by
      rw [hrowlen u (List.mem_range.mp hu)]
      rfl
    rw [h1]
    exact countP_range_getD (fun b => b) false (g.matrix.getD u [])
  have hout : ((List.range g.n).map g.outDegNat).sum =
      (g.matrix.map (fun row => row.countP (fun b => b))).sum := by
    rw [List.map_congr_left hout_row]
    have : (List.range g.n).map (fun u => (g.matrix.getD u []).countP (fun b => b)) =
        (List.range g.matrix.length).map
          (fun u => (g.matrix.getD u []).countP (fun b => b)) := by
      rw [hlen]
    rw [this, sum_map_getD (fun row => row.countP (fun b => b)) [] g.matrix]
  have hswap := countP_swap (fun i u => g.cell i u) g.n g.n
  constructor
  · unfold inDegNat
    rw [hswap]
    rfl
  · rw [hcount, hout]

end AdjacencyMatrixGraph

/-! ### Cross-backend simulation -/

/-- The two backends store the same graph: same vertex count, same edge
counter, and cell-for-membership agreement at every index pair. -/
def Rel (g : AdjacencyListGraph) (h : AdjacencyMatrixGraph) : Prop :=
  g.n = h.n ∧ g.edge_count = h.edge_count ∧
  ∀ u v : Nat, g.edgeNat u v = h.cell u v

/-- The combined invariant carried through an operation sequence. -/
def Inv (g : AdjacencyListGraph) (h : AdjacencyMatrixGraph) : Prop :=
  g.WF ∧ h.WF ∧ Rel g h

theorem Rel_mk0 (n : Nat) : Rel (AdjacencyListGraph.mk0 n) (AdjacencyMatrixGraph.mk0 n) := by
  refine ⟨rfl, rfl, ?_⟩
  intro u v
  unfold AdjacencyListGraph.edgeNat AdjacencyListGraph.succs AdjacencyListGraph.mk0
    AdjacencyMatrixGraph.cell AdjacencyMatrixGraph.mk0
  simp only
  by_cases hu : u < n
  · rw [getD_replicate_def hu [] [], getD_replicate_def hu [] (List.replicate n false)]
    by_cases hv : v < n
    · rw [getD_replicate_def hv false false]
      simp
    · rw [getD_of_length_le (by simpa using Nat.le_of_not_lt hv) false]
      simp
  · rw [getD_of_length_le (by simpa using Nat.le_of_not_lt hu) ([] : List Nat),
      getD_of_length_le (by simpa using Nat.le_of_not_lt hu) ([] : List Bool)]
    simp [List.getD]

theorem Inv_mk0 {n : Nat} (hn : 0 < n) :
    Inv (AdjacencyListGraph.mk0 n) (AdjacencyMatrixGraph.mk0 n) :=
  ⟨AdjacencyListGraph.WF_mk0 hn, AdjacencyMatrixGraph.WF_mk0_m hn, Rel_mk0 n⟩

theorem Inv_applyOp {g : AdjacencyListGraph} {h : AdjacencyMatrixGraph}
    (hInv : Inv g h) (op : Op) : Inv (g.applyOp op) (h.applyOp op) := by
  obtain ⟨hWFg, hWFh, hne, hce, hedge⟩ := hInv
  refine ⟨AdjacencyListGraph.WF_applyOp hWFg op, AdjacencyMatrixGraph.WF_applyOp_m hWFh op, ?_⟩
  obtain ⟨hgn, hglen, hginv, hgcount⟩ := hWFg
  obtain ⟨hhn, hhlen, hhrows, hhdiag, hhcount⟩ := hWFh
  cases op with
  | setLabel v s =>
    simp only [AdjacencyListGraph.applyOp, AdjacencyMatrixGraph.applyOp]
    by_cases hv : inRange g.n v
    · rw [AdjacencyListGraph.setVertexLabel_valid g s hv,
        AdjacencyMatrixGraph.setVertexLabel_valid_m h s (hne ▸ hv)]
      exact ⟨hne, hce, hedge⟩
    · rw [AdjacencyListGraph.setVertexLabel_err g s hv,
        AdjacencyMatrixGraph.setVertexLabel_err_m h s (fun hc => hv (hne ▸ hc))]
      exact ⟨hne, hce, hedge⟩
  | addEdge u v =>
    simp only [AdjacencyListGraph.applyOp, AdjacencyMatrixGraph.applyOp]
    by_cases hu : inRange g.n u
    · by_cases hv : inRange g.n v
      · by_cases huv : u = v
        · rw [AdjacencyListGraph.addEdge_self g hu hv huv,
            AdjacencyMatrixGraph.addEdge_self_m h (hne ▸ hu) (hne ▸ hv) huv]
          exact ⟨hne, hce, hedge⟩
        · by_cases he : g.edgeNat u.toNat v.toNat = true
          · rw [AdjacencyListGraph.addEdge_valid_present g hu hv huv he,
              AdjacencyMatrixGraph.addEdge_valid_present_m h (hne ▸ hu) (hne ▸ hv) huv
                ((hedge u.toNat v.toNat) ▸ he)]
            exact ⟨hne, hce, hedge⟩
          · have he' : g.edgeNat u.toNat v.toNat = false := by
              revert he; cases g.edgeNat u.toNat v.toNat <;> simp
            rw [AdjacencyListGraph.addEdge_valid_absent g hu hv huv he',
              AdjacencyMatrixGraph.addEdge_valid_absent_m h (hne ▸ hu) (hne ▸ hv) huv
                ((hedge u.toNat v.toNat) ▸ he')]
            refine ⟨hne, by simp only; omega, ?_⟩
            intro p q
            have hun : u.toNat < g.n := toNat_lt_of_inRange hu
            have hvn : v.toNat < g.n := toNat_lt_of_inRange hv
            have hulenl : u.toNat < g.adj.length := by omega
            have hulenm : u.toNat < h.matrix.length := by omega
            have hrowlen : (h.matrix.getD u.toNat []).length = h.n :=
              h.row_length hhlen hhrows (by omega)
            show decide (q ∈ (g.adj.set u.toNat (g.succs u.toNat ++ [v.toNat])).getD p []) =
              ((h.setCell u.toNat v.toNat true).getD p []).getD q false
            unfold AdjacencyMatrixGraph.setCell
            by_cases hp : p = u.toNat
            · subst hp
              rw [getD_set_self _ hulenl _ _, getD_set_self _ hulenm _ _]
              by_cases hq : q = v.toNat
              · subst hq
                rw [getD_set_self _ (by omega) _ _]
                simp
              · rw [getD_set_ne _ (fun hh => hq hh.symm) _ _]
                have hthis := hedge u.toNat q
                unfold AdjacencyListGraph.edgeNat at hthis
                unfold AdjacencyMatrixGraph.cell at hthis
                have hmem : decide (q ∈ g.succs u.toNat ++ [v.toNat]) =
                    decide (q ∈ g.succs u.toNat ∨ q = v.toNat) :=
                  decide_eq_decide.mpr (by rw [List.mem_append, List.mem_singleton])
                rw [hmem, Bool.decide_or, show decide (q = v.toNat) = false by simp [hq],
                  Bool.or_false]
                exact hthis
            · rw [getD_set_ne _ (fun hh => hp hh.symm) _ _,
                getD_set_ne _ (fun hh => hp hh.symm) _ _]
              exact hedge p q
      · rw [AdjacencyListGraph.addEdge_err_right g hu hv,
          AdjacencyMatrixGraph.addEdge_err_right_m h (hne ▸ hu) (fun hc => hv (hne ▸ hc))]
        exact ⟨hne, hce, hedge⟩
    · rw [AdjacencyListGraph.addEdge_err_left g hu,
        AdjacencyMatrixGraph.addEdge_err_left_m h (fun hc => hu (hne ▸ hc))]
      exact ⟨hne, hce, hedge⟩
  | removeEdge u v =>
    simp only [AdjacencyListGraph.applyOp, AdjacencyMatrixGraph.applyOp]
    by_cases hu : inRange g.n u
    · by_cases hv : inRange g.n v
      · by_cases huv : u = v
        · rw [AdjacencyListGraph.removeEdge_self g hu hv huv,
            AdjacencyMatrixGraph.removeEdge_self_m h (hne ▸ hu) (hne ▸ hv) huv]
          exact ⟨hne, hce, hedge⟩
        · by_cases he : g.edgeNat u.toNat v.toNat = true
          · rw [AdjacencyListGraph.removeEdge_valid_present g hu hv huv he,
              AdjacencyMatrixGraph.removeEdge_valid_present_m h (hne ▸ hu) (hne ▸ hv) huv
                ((hedge u.toNat v.toNat) ▸ he)]
            refine ⟨hne, by simp only; omega, ?_⟩
            intro p q
            have hun : u.toNat < g.n := toNat_lt_of_inRange hu
            have hvn : v.toNat < g.n := toNat_lt_of_inRange hv
            have hulenl : u.toNat < g.adj.length := by omega
            have hulenm : u.toNat < h.matrix.length := by omega
            have hrowlen : (h.matrix.getD u.toNat []).length = h.n :=
              h.row_length hhlen hhrows (by omega)
            obtain ⟨hnd, hnself, hbound⟩ := hginv u.toNat (List.mem_range.mpr hun)
            show decide (q ∈ (g.adj.set u.toNat ((g.succs u.toNat).erase v.toNat)).getD p []) =
              ((h.setCell u.toNat v.toNat false).getD p []).getD q false
            unfold AdjacencyMatrixGraph.setCell
            by_cases hp : p = u.toNat
            · subst hp
              rw [getD_set_self _ hulenl _ _, getD_set_self _ hulenm _ _]
              by_cases hq : q = v.toNat
              · subst hq
                rw [getD_set_self _ (by omega) _ _]
                simp [List.Nodup.not_mem_erase hnd]
              · rw [getD_set_ne _ (fun hh => hq hh.symm) _ _]
                have hthis := hedge u.toNat q
                unfold AdjacencyListGraph.edgeNat at hthis
                unfold AdjacencyMatrixGraph.cell at hthis
                have hmem : decide (q ∈ (g.succs u.toNat).erase v.toNat) =
                    decide (q ≠ v.toNat ∧ q ∈ g.succs u.toNat) :=
                  decide_eq_decide.mpr hnd.mem_erase_iff
                rw [hmem, Bool.decide_and, show decide (q ≠ v.toNat) = true by simp [hq],
                  Bool.true_and]
                exact hthis
            · rw [getD_set_ne _ (fun hh => hp hh.symm) _ _,
                getD_set_ne _ (fun hh => hp hh.symm) _ _]
              exact hedge p q
          · have he' : g.edgeNat u.toNat v.toNat = false := by
              revert he; cases g.edgeNat u.toNat v.toNat <;> simp
            rw [AdjacencyListGraph.removeEdge_valid_absent g hu hv huv he',
              AdjacencyMatrixGraph.removeEdge_valid_absent_m h (hne ▸ hu) (hne ▸ hv) huv
                ((hedge u.toNat v.toNat) ▸ he')]
            exact ⟨hne, hce, hedge⟩
      · rw [AdjacencyListGraph.removeEdge_err_right g hu hv,
          AdjacencyMatrixGraph.removeEdge_err_right_m h (hne ▸ hu) (fun hc => hv (hne ▸ hc))]
        exact ⟨hne, hce, hedge⟩
    · rw [AdjacencyListGraph.removeEdge_err_left g hu,
        AdjacencyMatrixGraph.removeEdge_err_left_m h (fun hc => hu (hne ▸ hc))]
      exact ⟨hne, hce, hedge⟩

theorem Inv_applyOps {g : AdjacencyListGraph} {h : AdjacencyMatrixGraph}
    (hInv : Inv g h) (ops : List Op) : Inv (g.applyOps ops) (h.applyOps ops) := by
  induction ops generalizing g h with
  | nil => exact hInv
  | cons op rest ih => exact ih (Inv_applyOp hInv op)

theorem bool_eq_of_true_iff {a b : Bool} (h : (a = true) ↔ (b = true)) : a = b := by
  cases a <;> cases b <;> simp_all

theorem AdjacencyListGraph.isConnected_none {g : AdjacencyListGraph}
    (h1 : ¬ g.n ≤ 1) (h2 : ¬ g.isEmptyGraph = true)
    (hfind : (List.range g.n).find? (fun i => g.nonIsolated i) = none) :
    g.isConnected = false := by
  unfold isConnected
  rw [if_neg h1, if_neg h2, hfind]

theorem AdjacencyMatrixGraph.isConnected_none_m {g : AdjacencyMatrixGraph}
    (h1 : ¬ g.n ≤ 1) (h2 : ¬ g.isEmptyGraph = true)
    (hfind : (List.range g.n).find? (fun i => g.nonIsolated i) = none) :
    g.isConnected = false := by
  unfold isConnected
  rw [if_neg h1, if_neg h2, hfind]

/-! ### Observational agreement of the two backends under `Inv` -/

theorem obs_hasEdge {g : AdjacencyListGraph} {h : AdjacencyMatrixGraph}
    (hInv : Inv g h) : ∀ u v : Int, g.hasEdge u v = h.hasEdge u v := by
  obtain ⟨hWFg, hWFh, hne, hce, hedge⟩ := hInv
  intro u v
  by_cases hu : inRange g.n u
  · by_cases hv : inRange g.n v
    · by_cases huv : u = v
      · rw [AdjacencyListGraph.hasEdge_self g hu hv huv,
          AdjacencyMatrixGraph.hasEdge_self_m h (hne ▸ hu) (hne ▸ hv) huv]
      · rw [AdjacencyListGraph.hasEdge_valid g hu hv huv,
          AdjacencyMatrixGraph.hasEdge_valid_m h (hne ▸ hu) (hne ▸ hv) huv,
          hedge u.toNat v.toNat]
    · rw [AdjacencyListGraph.hasEdge_err_right g hu hv,
        AdjacencyMatrixGraph.hasEdge_err_right_m h (hne ▸ hu) (fun hc => hv (hne ▸ hc))]
  · rw [AdjacencyListGraph.hasEdge_err_left g hu,
      AdjacencyMatrixGraph.hasEdge_err_left_m h (fun hc => hu (hne ▸ hc))]

theorem inDegNat_agree {g : AdjacencyListGraph} {h : AdjacencyMatrixGraph}
    (hInv : Inv g h) : ∀ u : Nat, g.inDegNat u = h.inDegNat u := by
  obtain ⟨hWFg, hWFh, hne, hce, hedge⟩ := hInv
  intro u
  unfold AdjacencyListGraph.inDegNat AdjacencyMatrixGraph.inDegNat
  rw [← hne]
  exact List.countP_congr (fun i _ => by rw [hedge i u])

theorem outDegNat_agree {g : AdjacencyListGraph} {h : AdjacencyMatrixGraph}
    (hInv : Inv g h) : ∀ u : Nat, g.outDegNat u = h.outDegNat u := by
  obtain ⟨hWFg, hWFh, hne, hce, hedge⟩ := hInv
  intro u
  unfold AdjacencyMatrixGraph.outDegNat
  rw [← hne]
  by_cases hu : u < g.n
  · obtain ⟨_, _, hinv, _⟩ := hWFg
    obtain ⟨hnd, _, hbound⟩ := hinv u (List.mem_range.mpr hu)
    have hcongr : (List.range g.n).countP (fun j => h.cell u j) =
        (List.range g.n).countP (fun j => g.edgeNat u j) :=
      List.countP_congr (fun j _ => by rw [hedge u j])
    rw [hcongr]
    have : (List.range g.n).countP (fun j => g.edgeNat u j) =
        (List.range g.n).countP (fun j => decide (j ∈ g.succs u)) := rfl
    rw [this, countP_range_mem_eq_length hnd hbound]
    rfl
  · obtain ⟨_, hglen, _, _⟩ := hWFg
    have hsuccs : g.succs u = [] := by
      unfold AdjacencyListGraph.succs
      exact getD_of_length_le (by omega) []
    have hrow : h.matrix.getD u [] = [] := by
      obtain ⟨_, hhlen, _, _, _⟩ := hWFh
      exact getD_of_length_le (by omega) []
    have h0 : (List.range g.n).countP (fun j => h.cell u j) = 0 := by
      rw [List.countP_eq_zero]
      intro j _
      unfold AdjacencyMatrixGraph.cell
      rw [hrow]
      simp [List.getD]
    rw [h0]
    unfold AdjacencyListGraph.outDegNat
    rw [hsuccs]
    rfl

theorem nonIsolated_agree {g : AdjacencyListGraph} {h : AdjacencyMatrixGraph}
    (hInv : Inv g h) : ∀ i : Nat, g.nonIsolated i = h.nonIsolated i := by
  intro i
  unfold AdjacencyListGraph.nonIsolated AdjacencyMatrixGraph.nonIsolated
  rw [inDegNat_agree hInv i, outDegNat_agree hInv i]

theorem obs_getVertexInDegree {g : AdjacencyListGraph} {h : AdjacencyMatrixGraph}
    (hInv : Inv g h) : ∀ u : Int, g.getVertexInDegree u = h.getVertexInDegree u := by
  have hne := hInv.2.2.1
  intro u
  by_cases hu : inRange g.n u
  · rw [AdjacencyListGraph.getVertexInDegree_valid g hu,
      AdjacencyMatrixGraph.getVertexInDegree_valid_m h (hne ▸ hu),
      inDegNat_agree hInv u.toNat]
  · rw [AdjacencyListGraph.getVertexInDegree_err g hu,
      AdjacencyMatrixGraph.getVertexInDegree_err_m h (fun hc => hu (hne ▸ hc))]

theorem obs_getVertexOutDegree {g : AdjacencyListGraph} {h : AdjacencyMatrixGraph}
    (hInv : Inv g h) : ∀ u : Int, g.getVertexOutDegree u = h.getVertexOutDegree u := by
  have hne := hInv.2.2.1
  intro u
  by_cases hu : inRange g.n u
  · rw [AdjacencyListGraph.getVertexOutDegree_valid g hu,
      AdjacencyMatrixGraph.getVertexOutDegree_valid_m h (hne ▸ hu),
      outDegNat_agree hInv u.toNat]
  · rw [AdjacencyListGraph.getVertexOutDegree_err g hu,
      AdjacencyMatrixGraph.getVertexOutDegree_err_m h (fun hc => hu (hne ▸ hc))]

theorem obs_isEmptyGraph {g : AdjacencyListGraph} {h : AdjacencyMatrixGraph}
    (hInv : Inv g h) : g.isEmptyGraph = h.isEmptyGraph := by
  unfold AdjacencyListGraph.isEmptyGraph AdjacencyMatrixGraph.isEmptyGraph
  rw [hInv.2.2.2.1]

theorem obs_isCompleteGraph {g : AdjacencyListGraph} {h : AdjacencyMatrixGraph}
    (hInv : Inv g h) : g.isCompleteGraph = h.isCompleteGraph := by
  obtain ⟨hWFg, hWFh, hne, hce, hedge⟩ := hInv
  refine bool_eq_of_true_iff ?_
  rw [AdjacencyListGraph.isCompleteGraph_char hWFg,
    AdjacencyMatrixGraph.isCompleteGraph_char_m h, hne, hce]
  constructor
  · rintro (hs | ⟨hc, hall⟩)
    · exact Or.inl hs
    · refine Or.inr ⟨hc, ?_⟩
      intro i hi j hj hij
      rw [← hedge i j]
      exact hall i hi j hj hij
  · rintro (hs | ⟨hc, hall⟩)
    · exact Or.inl hs
    · refine Or.inr ⟨hc, ?_⟩
      intro i hi j hj hij
      rw [hedge i j]
      exact hall i hi j hj hij

theorem obs_isConnected {g : AdjacencyListGraph} {h : AdjacencyMatrixGraph}
    (hInv : Inv g h) : g.isConnected = h.isConnected := by
  obtain ⟨hWFg, hWFh, hne, hce, hedge⟩ := hInv
  by_cases hn1 : g.n ≤ 1
  · rw [AdjacencyListGraph.isConnected_small hn1,
      AdjacencyMatrixGraph.isConnected_small_m (hne ▸ hn1)]
  · by_cases hec : g.edge_count = 0
    · rw [AdjacencyListGraph.isConnected_empty hn1 hec,
        AdjacencyMatrixGraph.isConnected_empty_m (fun hc => hn1 (hne ▸ hc)) (hce ▸ hec)]
    · have hfe : (List.range h.n).find? (fun i => h.nonIsolated i) =
          (List.range g.n).find? (fun i => g.nonIsolated i) := by
        rw [← hne]
        exact (find?_congruent (List.range g.n)
          (fun i _ => nonIsolated_agree ⟨hWFg, hWFh, hne, hce, hedge⟩ i)).symm
      have hgemp : ¬ g.isEmptyGraph = true := by
        unfold AdjacencyListGraph.isEmptyGraph
        simpa using hec
      have hhemp : ¬ h.isEmptyGraph = true := by
        unfold AdjacencyMatrixGraph.isEmptyGraph
        rw [← hce]
        simpa using hec
      cases hfind : (List.range g.n).find? (fun i => g.nonIsolated i) with
      | none =>
        rw [AdjacencyListGraph.isConnected_none hn1 hgemp hfind,
          AdjacencyMatrixGraph.isConnected_none_m (fun hc => hn1 (hne ▸ hc)) hhemp
            (by rw [hfe, hfind])]
      | some s =>
        have hs : s < g.n :=
          List.mem_range.mp (List.mem_of_find?_eq_some hfind)
        rw [AdjacencyListGraph.isConnected_eq_of_find hn1 hgemp hfind,
          AdjacencyMatrixGraph.isConnected_eq_of_find_m (fun hc => hn1 (hne ▸ hc)) hhemp
            (by rw [hfe, hfind])]
        rw [← hne]
        refine all_congruent (List.range g.n) ?_
        intro i _
        rw [nonIsolated_agree ⟨hWFg, hWFh, hne, hce, hedge⟩ i]
        have hmem : (i ∈ dfsUndirected g.nbrs g.n s []) ↔
            (i ∈ dfsUndirected h.nbrs g.n s []) := by
          rw [dfs_mem_iff g.nbrs (AdjacencyListGraph.nbrs_bounded hWFg) hs i,
            dfs_mem_iff h.nbrs (n := g.n)
              (fun x y hy => hne ▸ AdjacencyMatrixGraph.nbrs_bounded_m h x y hy) hs i]
          refine reflTransGen_congruent ?_
          intro a b
          rw [AdjacencyListGraph.mem_nbrs hWFg, AdjacencyMatrixGraph.mem_nbrs_m h]
          unfold AdjacencyListGraph.weakStep AdjacencyMatrixGraph.weakStep
          rw [hne, hedge a b, hedge b a]
        rw [decide_eq_decide.mpr hmem]

/-! ### Derived predicates: evaluation and error propagation -/

theorem bind_ok {α β : Type} (a : α) (f : α → Except GraphError β) :
    ((Except.ok a : Except GraphError α) >>= f) = f a := rfl

theorem isDivergentWith_err1 {n : Nat} {hasE : Int → Int → Except GraphError Bool}
    {u1 v1 u2 v2 : Int} {e : GraphError}
    (h : validate_edge n u1 v1 = Except.error e) :
    isDivergentWith n hasE u1 v1 u2 v2 = Except.error e := by
  unfold isDivergentWith
  rw [h, bind_unit]

theorem isDivergentWith_err2 {n : Nat} {hasE : Int → Int → Except GraphError Bool}
    {u1 v1 u2 v2 : Int} {e : GraphError}
    (h1 : validate_edge n u1 v1 = Except.ok ())
    (h2 : validate_edge n u2 v2 = Except.error e) :
    isDivergentWith n hasE u1 v1 u2 v2 = Except.error e := by
  unfold isDivergentWith
  rw [h1, bind_unit, h2, bind_unit]

theorem isDivergentWith_eval {n : Nat} {hasE : Int → Int → Except GraphError Bool}
    {u1 v1 u2 v2 : Int} {b1 b2 : Bool}
    (h1 : validate_edge n u1 v1 = Except.ok ())
    (h2 : validate_edge n u2 v2 = Except.ok ())
    (hE1 : hasE u1 v1 = Except.ok b1) (hE2 : hasE u2 v2 = Except.ok b2) :
    isDivergentWith n hasE u1 v1 u2 v2 =
      Except.ok (decide (u1 = u2) && (decide (v1 ≠ v2) && (b1 && b2))) := by
  unfold isDivergentWith
  rw [h1, bind_unit, h2, bind_unit]
  by_cases h12 : u1 = u2
  · rw [if_pos h12, show decide (u1 = u2) = true by simp [h12], Bool.true_and]
    by_cases hv12 : v1 ≠ v2
    · rw [if_pos hv12, show decide (v1 ≠ v2) = true by simp [hv12], Bool.true_and,
        hE1, bind_ok]
      cases b1 with
      | true => rw [if_pos rfl, hE2]; simp
      | false => simp; rfl
    · rw [if_neg hv12, show decide (v1 ≠ v2) = false by simp [not_not.mp hv12]]
      simp
      rfl
  · rw [if_neg h12, show decide (u1 = u2) = false by simp [h12]]
    simp
    rfl

theorem isConvergentWith_err1 {n : Nat} {hasE : Int → Int → Except GraphError Bool}
    {u1 v1 u2 v2 : Int} {e : GraphError}
    (h : validate_edge n u1 v1 = Except.error e) :
    isConvergentWith n hasE u1 v1 u2 v2 = Except.error e := by
  unfold isConvergentWith
  rw [h, bind_unit]

theorem isConvergentWith_err2 {n : Nat} {hasE : Int → Int → Except GraphError Bool}
    {u1 v1 u2 v2 : Int} {e : GraphError}
    (h1 : validate_edge n u1 v1 = Except.ok ())
    (h2 : validate_edge n u2 v2 = Except.error e) :
    isConvergentWith n hasE u1 v1 u2 v2 = Except.error e := by
  unfold isConvergentWith
  rw [h1, bind_unit, h2, bind_unit]

theorem isConvergentWith_eval {n : Nat} {hasE : Int → Int → Except GraphError Bool}
    {u1 v1 u2 v2 : Int} {b1 b2 : Bool}
    (h1 : validate_edge n u1 v1 = Except.ok ())
    (h2 : validate_edge n u2 v2 = Except.ok ())
    (hE1 : hasE u1 v1 = Except.ok b1) (hE2 : hasE u2 v2 = Except.ok b2) :
    isConvergentWith n hasE u1 v1 u2 v2 =
      Except.ok (decide (v1 = v2) && (decide (u1 ≠ u2) && (b1 && b2))) := by
  unfold isConvergentWith
  rw [h1, bind_unit, h2, bind_unit]
  by_cases h12 : v1 = v2
  · rw [if_pos h12, show decide (v1 = v2) = true by simp [h12], Bool.true_and]
    by_cases hu12 : u1 ≠ u2
    · rw [if_pos hu12, show decide (u1 ≠ u2) = true by simp [hu12], Bool.true_and,
        hE1, bind_ok]
      cases b1 with
      | true => rw [if_pos rfl, hE2]; simp
      | false => simp; rfl
    · rw [if_neg hu12, show decide (u1 ≠ u2) = false by simp [not_not.mp hu12]]
      simp
      rfl
  · rw [if_neg h12, show decide (v1 = v2) = false by simp [h12]]
    simp
    rfl

theorem isIncidentWith_err1 {n : Nat} {hasE : Int → Int → Except GraphError Bool}
    {u v x : Int} {e : GraphError}
    (h : validate_edge n u v = Except.error e) :
    isIncidentWith n hasE u v x = Except.error e := by
  unfold isIncidentWith
  rw [h, bind_unit]

theorem isIncidentWith_err2 {n : Nat} {hasE : Int → Int → Except GraphError Bool}
    {u v x : Int} {e : GraphError}
    (h1 : validate_edge n u v = Except.ok ())
    (h2 : validate_vertex n x = Except.error e) :
    isIncidentWith n hasE u v x = Except.error e := by
  unfold isIncidentWith
  rw [h1, bind_unit, h2, bind_unit]

theorem isIncidentWith_eval {n : Nat} {hasE : Int → Int → Except GraphError Bool}
    {u v x : Int} {b : Bool}
    (h1 : validate_edge n u v = Except.ok ())
    (h2 : validate_vertex n x = Except.ok ())
    (hE : hasE u v = Except.ok b) :
    isIncidentWith n hasE u v x =
      Except.ok (b && (decide (u = x) || decide (v = x))) := by
  unfold isIncidentWith
  rw [h1, bind_unit, h2, bind_unit, hE, bind_ok]
  cases b with
  | true => rw [if_pos rfl]; simp; rfl
  | false => simp; rfl

/-! ### Round-trip restoration lemmas -/

namespace AdjacencyListGraph

theorem hasEdge_congruent {g g' : AdjacencyListGraph} (hn : g'.n = g.n)
    (he : ∀ p q : Nat, g'.edgeNat p q = g.edgeNat p q) :
    ∀ u v : Int, g'.hasEdge u v = g.hasEdge u v := by
  intro u v
  unfold hasEdge
  rw [hn, he]

theorem addRemove_restore {g : AdjacencyListGraph} (hWF : g.WF) {u v : Int}
    (hu : inRange g.n u) (hv : inRange g.n v) (huv : u ≠ v)
    (habs : g.edgeNat u.toNat v.toNat = false) :
    ∃ g1 g2, g.addEdge u v = Except.ok g1 ∧ g1.removeEdge u v = Except.ok g2 ∧
      g2.adj = g.adj ∧ g2.edge_count = g.edge_count ∧ g2.n = g.n ∧
      g2.labels = g.labels := by
  obtain ⟨hn, hlen, hinv, hcount⟩ := hWF
  have hun : u.toNat < g.n := toNat_lt_of_inRange hu
  have hulen : u.toNat < g.adj.length := by omega
  have hvmem : v.toNat ∉ g.succs u.toNat := by
    have := habs; unfold edgeNat at this; simpa using this
  set g1 : AdjacencyListGraph := { g with
    adj := g.adj.set u.toNat (g.succs u.toNat ++ [v.toNat]),
    edge_count := g.edge_count + 1 } with hg1
  have hadd : g.addEdge u v = Except.ok g1 := addEdge_valid_absent g hu hv huv habs
  have hsuccs1 : g1.succs u.toNat = g.succs u.toNat ++ [v.toNat] := by
    unfold succs
    rw [hg1]
    exact getD_set_self _ hulen _ _
  have hpres1 : g1.edgeNat u.toNat v.toNat = true := by
    unfold edgeNat
    rw [hsuccs1]
    simp
  set g2 : AdjacencyListGraph := { g1 with
    adj := g1.adj.set u.toNat ((g1.succs u.toNat).erase v.toNat),
    edge_count := g1.edge_count - 1 } with hg2
  have hrem : g1.removeEdge u v = Except.ok g2 :=
    removeEdge_valid_present g1 hu hv huv hpres1
  refine ⟨g1, g2, hadd, hrem, ?_, ?_, rfl, rfl⟩
  · rw [hg2, hg1]
    simp only
    rw [hsuccs1, List.erase_append_right _ hvmem, List.erase_cons_head,
      List.append_nil, List.set_set]
    exact set_getD_self g.adj u.toNat hulen []
  · rw [hg2, hg1]
    simp only
    omega

theorem removeAdd_restore {g : AdjacencyListGraph} (hWF : g.WF) {u v : Int}
    (hu : inRange g.n u) (hv : inRange g.n v) (huv : u ≠ v)
    (hpres : g.edgeNat u.toNat v.toNat = true) :
    ∃ g1 g2, g.removeEdge u v = Except.ok g1 ∧ g1.addEdge u v = Except.ok g2 ∧
      (∀ p q : Nat, g2.edgeNat p q = g.edgeNat p q) ∧
      g2.edge_count = g.edge_count ∧ g2.n = g.n ∧ g2.labels = g.labels := by
  obtain ⟨hn, hlen, hinv, hcount⟩ := hWF
  have hun : u.toNat < g.n := toNat_lt_of_inRange hu
  have hulen : u.toNat < g.adj.length := by omega
  obtain ⟨hnd, hnself, hbound⟩ := hinv u.toNat (List.mem_range.mpr hun)
  have hvmem : v.toNat ∈ g.succs u.toNat := by
    have := hpres; unfold edgeNat at this; simpa using this
  set g1 : AdjacencyListGraph := { g with
    adj := g.adj.set u.toNat ((g.succs u.toNat).erase v.toNat),
    edge_count := g.edge_count - 1 } with hg1
  have hrem : g.removeEdge u v = Except.ok g1 :=
    removeEdge_valid_present g hu hv huv hpres
  have hsuccs1 : g1.succs u.toNat = (g.succs u.toNat).erase v.toNat := by
    unfold succs
    rw [hg1]
    exact getD_set_self _ hulen _ _
  have habs1 : g1.edgeNat u.toNat v.toNat = false := by
    unfold edgeNat
    rw [hsuccs1]
    simp only [decide_eq_false_iff_not]
    exact hnd.not_mem_erase
  set g2 : AdjacencyListGraph := { g1 with
    adj := g1.adj.set u.toNat (g1.succs u.toNat ++ [v.toNat]),
    edge_count := g1.edge_count + 1 } with hg2
  have hadd : g1.addEdge u v = Except.ok g2 := addEdge_valid_absent g1 hu hv huv habs1
  refine ⟨g1, g2, hrem, hadd, ?_, ?_, rfl, rfl⟩
  · intro p q
    have hadj2 : g2.adj =
        g.adj.set u.toNat ((g.succs u.toNat).erase v.toNat ++ [v.toNat]) := by
      show g1.adj.set u.toNat (g1.succs u.toNat ++ [v.toNat]) =
        g.adj.set u.toNat ((g.succs u.toNat).erase v.toNat ++ [v.toNat])
      rw [hsuccs1]
      show (g.adj.set u.toNat ((g.succs u.toNat).erase v.toNat)).set u.toNat
        ((g.succs u.toNat).erase v.toNat ++ [v.toNat]) = _
      rw [List.set_set]
    unfold edgeNat succs
    refine decide_eq_decide.mpr ?_
    rw [hadj2]
    by_cases hp : p = u.toNat
    · subst hp
      rw [getD_set_self _ hulen _ _]
      rw [List.mem_append, List.mem_singleton, hnd.mem_erase_iff]
      constructor
      · rintro (⟨_, hmem⟩ | rfl)
        · exact hmem
        · exact hvmem
      · intro hmem
        by_cases hq : q = v.toNat
        · exact Or.inr hq
        · exact Or.inl ⟨hq, hmem⟩
    · rw [getD_set_ne _ (fun hh => hp hh.symm) _ _]
  · rw [hg2, hg1]
    simp only
    omega

end AdjacencyListGraph

namespace AdjacencyMatrixGraph

theorem hasEdge_congruent_m {g g' : AdjacencyMatrixGraph} (hn : g'.n = g.n)
    (he : ∀ p q : Nat, g'.cell p q = g.cell p q) :
    ∀ u v : Int, g'.hasEdge u v = g.hasEdge u v := by
  intro u v
  unfold hasEdge
  rw [hn, he]

theorem addRemove_restore_m {g : AdjacencyMatrixGraph} (hWF : g.WF) {u v : Int}
    (hu : inRange g.n u) (hv : inRange g.n v) (huv : u ≠ v)
    (habs : g.cell u.toNat v.toNat = false) :
    ∃ g1 g2, g.addEdge u v = Except.ok g1 ∧ g1.removeEdge u v = Except.ok g2 ∧
      g2.matrix = g.matrix ∧ g2.edge_count = g.edge_count ∧ g2.n = g.n ∧
      g2.labels = g.labels := by
  obtain ⟨hn, hlen, hrows, hdiag, hcount⟩ := hWF
  have hun : u.toNat < g.n := toNat_lt_of_inRange hu
  have hvn : v.toNat < g.n := toNat_lt_of_inRange hv
  have hulen : u.toNat < g.matrix.length := by omega
  have hrowlen : (g.matrix.getD u.toNat []).length = g.n :=
    row_length hlen hrows hun
  have hvlen : v.toNat < (g.matrix.getD u.toNat []).length := by omega
  set g1 : AdjacencyMatrixGraph := { g with
    matrix := g.setCell u.toNat v.toNat true,
    edge_count := g.edge_count + 1 } with hg1
  have hadd : g.addEdge u v = Except.ok g1 := addEdge_valid_absent_m g hu hv huv habs
  have hpres1 : g1.cell u.toNat v.toNat = true := by
    show ((g.setCell u.toNat v.toNat true).getD u.toNat []).getD v.toNat false = true
    exact cell_setCell_self true hulen hvlen
  set g2 : AdjacencyMatrixGraph := { g1 with
    matrix := g1.setCell u.toNat v.toNat false,
    edge_count := g1.edge_count - 1 } with hg2
  have hrem : g1.removeEdge u v = Except.ok g2 :=
    removeEdge_valid_present_m g1 hu hv huv hpres1
  refine ⟨g1, g2, hadd, hrem, ?_, ?_, rfl, rfl⟩
  · rw [hg2]
    show g1.setCell u.toNat v.toNat false = g.matrix
    unfold setCell
    rw [hg1]
    simp only
    show (g.setCell u.toNat v.toNat true).set u.toNat
      (((g.setCell u.toNat v.toNat true).getD u.toNat []).set v.toNat false) = g.matrix
    unfold setCell
    rw [getD_set_self _ hulen _ _, List.set_set, List.set_set]
    have hrow : (g.matrix.getD u.toNat []).set v.toNat false = g.matrix.getD u.toNat [] := by
      have hcv : (g.matrix.getD u.toNat []).getD v.toNat false = false := habs
      rw [← hcv]
      exact set_getD_self _ v.toNat hvlen false
    rw [hrow, set_getD_self g.matrix u.toNat hulen []]
  · rw [hg2, hg1]
    simp only
    omega

theorem removeAdd_restore_m {g : AdjacencyMatrixGraph} (hWF : g.WF) {u v : Int}
    (hu : inRange g.n u) (hv : inRange g.n v) (huv : u ≠ v)
    (hpres : g.cell u.toNat v.toNat = true) :
    ∃ g1 g2, g.removeEdge u v = Except.ok g1 ∧ g1.addEdge u v = Except.ok g2 ∧
      g2.matrix = g.matrix ∧ g2.edge_count = g.edge_count ∧ g2.n = g.n ∧
      g2.labels = g.labels := by
  obtain ⟨hn, hlen, hrows, hdiag, hcount⟩ := hWF
  have hun : u.toNat < g.n := toNat_lt_of_inRange hu
  have hvn : v.toNat < g.n := toNat_lt_of_inRange hv
  have hulen : u.toNat < g.matrix.length := by omega
  have hrowlen : (g.matrix.getD u.toNat []).length = g.n :=
    row_length hlen hrows hun
  have hvlen : v.toNat < (g.matrix.getD u.toNat []).length := by omega
  set g1 : AdjacencyMatrixGraph := { g with
    matrix := g.setCell u.toNat v.toNat false,
    edge_count := g.edge_count - 1 } with hg1
  have hrem : g.removeEdge u v = Except.ok g1 :=
    removeEdge_valid_present_m g hu hv huv hpres
  have habs1 : g1.cell u.toNat v.toNat = false := by
    show ((g.setCell u.toNat v.toNat false).getD u.toNat []).getD v.toNat false = false
    exact cell_setCell_self false hulen hvlen
  set g2 : AdjacencyMatrixGraph := { g1 with
    matrix := g1.setCell u.toNat v.toNat true,
    edge_count := g1.edge_count + 1 } with hg2
  have hadd : g1.addEdge u v = Except.ok g2 := addEdge_valid_absent_m g1 hu hv huv habs1
  refine ⟨g1, g2, hrem, hadd, ?_, ?_, rfl, rfl⟩
  · rw [hg2]
    show g1.setCell u.toNat v.toNat true = g.matrix
    unfold setCell
    rw [hg1]
    simp only
    show (g.setCell u.toNat v.toNat false).set u.toNat
      (((g.setCell u.toNat v.toNat false).getD u.toNat []).set v.toNat true) = g.matrix
    unfold setCell
    rw [getD_set_self _ hulen _ _, List.set_set, List.set_set]
    have hrow : (g.matrix.getD u.toNat []).set v.toNat true = g.matrix.getD u.toNat [] := by
      have hcv : (g.matrix.getD u.toNat []).getD v.toNat false = true := hpres
      rw [← hcv]
      exact set_getD_self _ v.toNat hvlen false
    rw [hrow, set_getD_self g.matrix u.toNat hulen []]
  · rw [hg2, hg1]
    simp only
    omega

end AdjacencyMatrixGraph

/-! ### Claims -/

/-- A public mutation with in-range arguments and distinct endpoints
(`addEdge`/`removeEdge` only), as in the cross-backend round-trip scenario. -/
def ValidEdgeOp (n : Nat) : Op → Prop
  | Op.addEdge u v => inRange n u ∧ inRange n v ∧ u ≠ v
  | Op.removeEdge u v => inRange n u ∧ inRange n v ∧ u ≠ v
  | Op.setLabel _ _ => False

instance (n : Nat) (op : Op) : Decidable (ValidEdgeOp n op) := by
  cases op <;> simp only [ValidEdgeOp] <;> infer_instance

/-- Observable agreement of a list-backend and a matrix-backend graph:
identical `hasEdge`, degree, `isConnected`, `isCompleteGraph` and
`isEmptyGraph` results. -/
def CrossEquiv (g : AdjacencyListGraph) (h : AdjacencyMatrixGraph) : Prop :=
  (∀ u v : Int, g.hasEdge u v = h.hasEdge u v) ∧
  (∀ u : Int, g.getVertexInDegree u = h.getVertexInDegree u) ∧
  (∀ u : Int, g.getVertexOutDegree u = h.getVertexOutDegree u) ∧
  g.isConnected = h.isConnected ∧
  g.isCompleteGraph = h.isCompleteGraph ∧
  g.isEmptyGraph = h.isEmptyGraph

/-- C1: for every vertex count n > 0 and every sequence of addEdge/removeEdge
calls with in-range arguments u ≠ v, an AdjacencyListGraph and an
AdjacencyMatrixGraph constructed with n and fed that same sequence report
identical results for hasEdge, getVertexInDegree, getVertexOutDegree,
isConnected, isCompleteGraph, and isEmptyGraph on every valid argument. -/
theorem claim_C1 (n : Nat) (hn : 0 < n) (ops : List Op)
    (_hops : ∀ op ∈ ops, ValidEdgeOp n op) :
    CrossEquiv (AdjacencyListGraph.applyOps (AdjacencyListGraph.mk0 n) ops)
      (AdjacencyMatrixGraph.applyOps (AdjacencyMatrixGraph.mk0 n) ops) := by
  have hInv := Inv_applyOps (Inv_mk0 hn) ops
  exact ⟨obs_hasEdge hInv, obs_getVertexInDegree hInv, obs_getVertexOutDegree hInv,
    obs_isConnected hInv, obs_isCompleteGraph hInv, obs_isEmptyGraph hInv⟩

theorem claim_C1_witness :
    0 < 2 ∧
    (∀ op ∈ [Op.addEdge 0 1, Op.addEdge 1 0, Op.removeEdge 0 1], ValidEdgeOp 2 op) ∧
    CrossEquiv
      (AdjacencyListGraph.applyOps (AdjacencyListGraph.mk0 2)
        [Op.addEdge 0 1, Op.addEdge 1 0, Op.removeEdge 0 1])
      (AdjacencyMatrixGraph.applyOps (AdjacencyMatrixGraph.mk0 2)
        [Op.addEdge 0 1, Op.addEdge 1 0, Op.removeEdge 0 1]) :=
  ⟨by decide, by decide, claim_C1 2 (by decide) _ (by decide)⟩

/-- C4: for every graph reachable from construction by any sequence of public
calls (either backend): every stored edge endpoint is in [0, vertexCount), no
stored edge has u = v, the stored pairs are distinct (no duplicate successor
entries), and the stored edgeCount equals the number of distinct stored
pairs. -/
theorem claim_C4 (n : Nat) (hn : 0 < n) (ops : List Op) :
    ((∀ i : Nat, ∀ v ∈ (AdjacencyListGraph.applyOps (AdjacencyListGraph.mk0 n) ops).succs i,
        i < (AdjacencyListGraph.applyOps (AdjacencyListGraph.mk0 n) ops).n ∧
        v < (AdjacencyListGraph.applyOps (AdjacencyListGraph.mk0 n) ops).n) ∧
      (∀ i : Nat, i ∉ (AdjacencyListGraph.applyOps (AdjacencyListGraph.mk0 n) ops).succs i) ∧
      (∀ i : Nat, ((AdjacencyListGraph.applyOps (AdjacencyListGraph.mk0 n) ops).succs i).Nodup) ∧
      (AdjacencyListGraph.applyOps (AdjacencyListGraph.mk0 n) ops).edge_count =
        ((((AdjacencyListGraph.applyOps (AdjacencyListGraph.mk0 n) ops).adj.map
          List.length).sum : Nat) : Int)) ∧
    ((∀ i j : Nat, (AdjacencyMatrixGraph.applyOps (AdjacencyMatrixGraph.mk0 n) ops).cell i j = true →
        i < (AdjacencyMatrixGraph.applyOps (AdjacencyMatrixGraph.mk0 n) ops).n ∧
        j < (AdjacencyMatrixGraph.applyOps (AdjacencyMatrixGraph.mk0 n) ops).n ∧ i ≠ j) ∧
      (AdjacencyMatrixGraph.applyOps (AdjacencyMatrixGraph.mk0 n) ops).edge_count =
        ((((AdjacencyMatrixGraph.applyOps (AdjacencyMatrixGraph.mk0 n) ops).matrix.map
          (fun row => row.countP (fun b => b))).sum : Nat) : Int)) := by
  have hWFg := AdjacencyListGraph.WF_applyOps (AdjacencyListGraph.WF_mk0 hn) ops
  have hWFh := AdjacencyMatrixGraph.WF_applyOps_m (AdjacencyMatrixGraph.WF_mk0_m hn) ops
  set g := AdjacencyListGraph.applyOps (AdjacencyListGraph.mk0 n) ops with hgdef
  set h := AdjacencyMatrixGraph.applyOps (AdjacencyMatrixGraph.mk0 n) ops with hhdef
  obtain ⟨hgn, hglen, hginv, hgcount⟩ := hWFg
  constructor
  · refine ⟨?_, ?_, ?_, hgcount⟩
    · intro i v hv
      have hedge : g.edgeNat i v = true := by
        unfold AdjacencyListGraph.edgeNat
        simpa using hv
      have := AdjacencyListGraph.edgeNat_true_facts ⟨hgn, hglen, hginv, hgcount⟩ hedge
      exact ⟨this.1, this.2.1⟩
    · intro i hmem
      have hedge : g.edgeNat i i = true := by
        unfold AdjacencyListGraph.edgeNat
        simpa using hmem
      have := AdjacencyListGraph.edgeNat_true_facts ⟨hgn, hglen, hginv, hgcount⟩ hedge
      exact this.2.2 rfl
    · intro i
      by_cases hi : i < g.n
      · exact (hginv i (List.mem_range.mpr hi)).1
      · have : g.succs i = [] := by
          unfold AdjacencyListGraph.succs
          exact getD_of_length_le (by omega) []
        rw [this]
        exact List.nodup_nil
  · obtain ⟨hhn, hhlen, hhrows, hhdiag, hhcount⟩ := hWFh
    refine ⟨?_, hhcount⟩
    intro i j hij
    exact AdjacencyMatrixGraph.cell_true_lt ⟨hhn, hhlen, hhrows, hhdiag, hhcount⟩ hij

theorem claim_C4_witness :
    0 < 2 ∧
    (((∀ i : Nat, ∀ v ∈ (AdjacencyListGraph.applyOps (AdjacencyListGraph.mk0 2)
        [Op.addEdge 0 1, Op.addEdge 0 1, Op.setLabel 0 "a", Op.removeEdge 1 0,
          Op.addEdge (-1) 0]).succs i,
        i < (AdjacencyListGraph.applyOps (AdjacencyListGraph.mk0 2)
        [Op.addEdge 0 1, Op.addEdge 0 1, Op.setLabel 0 "a", Op.removeEdge 1 0,
          Op.addEdge (-1) 0]).n ∧
        v < (AdjacencyListGraph.applyOps (AdjacencyListGraph.mk0 2)
        [Op.addEdge 0 1, Op.addEdge 0 1, Op.setLabel 0 "a", Op.removeEdge 1 0,
          Op.addEdge (-1) 0]).n) ∧
      (∀ i : Nat, i ∉ (AdjacencyListGraph.applyOps (AdjacencyListGraph.mk0 2)
        [Op.addEdge 0 1, Op.addEdge 0 1, Op.setLabel 0 "a", Op.removeEdge 1 0,
          Op.addEdge (-1) 0]).succs i) ∧
      (∀ i : Nat, ((AdjacencyListGraph.applyOps (AdjacencyListGraph.mk0 2)
        [Op.addEdge 0 1, Op.addEdge 0 1, Op.setLabel 0 "a", Op.removeEdge 1 0,
          Op.addEdge (-1) 0]).succs i).Nodup) ∧
      (AdjacencyListGraph.applyOps (AdjacencyListGraph.mk0 2)
        [Op.addEdge 0 1, Op.addEdge 0 1, Op.setLabel 0 "a", Op.removeEdge 1 0,
          Op.addEdge (-1) 0]).edge_count =
        ((((AdjacencyListGraph.applyOps (AdjacencyListGraph.mk0 2)
        [Op.addEdge 0 1, Op.addEdge 0 1, Op.setLabel 0 "a", Op.removeEdge 1 0,
          Op.addEdge (-1) 0]).adj.map List.length).sum : Nat) : Int)) ∧
    ((∀ i j : Nat, (AdjacencyMatrixGraph.applyOps (AdjacencyMatrixGraph.mk0 2)
        [Op.addEdge 0 1, Op.addEdge 0 1, Op.setLabel 0 "a", Op.removeEdge 1 0,
          Op.addEdge (-1) 0]).cell i j = true →
        i < (AdjacencyMatrixGraph.applyOps (AdjacencyMatrixGraph.mk0 2)
        [Op.addEdge 0 1, Op.addEdge 0 1, Op.setLabel 0 "a", Op.removeEdge 1 0,
          Op.addEdge (-1) 0]).n ∧
        j < (AdjacencyMatrixGraph.applyOps (AdjacencyMatrixGraph.mk0 2)
        [Op.addEdge 0 1, Op.addEdge 0 1, Op.setLabel 0 "a", Op.removeEdge 1 0,
          Op.addEdge (-1) 0]).n ∧ i ≠ j) ∧
      (AdjacencyMatrixGraph.applyOps (AdjacencyMatrixGraph.mk0 2)
        [Op.addEdge 0 1, Op.addEdge 0 1, Op.setLabel 0 "a", Op.removeEdge 1 0,
          Op.addEdge (-1) 0]).edge_count =
        ((((AdjacencyMatrixGraph.applyOps (AdjacencyMatrixGraph.mk0 2)
        [Op.addEdge 0 1, Op.addEdge 0 1, Op.setLabel 0 "a", Op.removeEdge 1 0,
          Op.addEdge (-1) 0]).matrix.map
          (fun row => row.countP (fun b => b))).sum : Nat) : Int))) :=
  ⟨by decide, claim_C4 2 (by decide)
    [Op.addEdge 0 1, Op.addEdge 0 1, Op.setLabel 0 "a", Op.removeEdge 1 0,
      Op.addEdge (-1) 0]⟩

/-- C8: for every graph of size n reachable by any sequence of public calls
(either backend), the sum over all vertices of getVertexOutDegree equals the
sum over all vertices of getVertexInDegree, and both equal getEdgeCount. -/
theorem claim_C8 (n : Nat) (hn : 0 < n) (ops : List Op) :
    ((∀ i : Nat, i < (AdjacencyListGraph.applyOps (AdjacencyListGraph.mk0 n) ops).n →
        (AdjacencyListGraph.applyOps (AdjacencyListGraph.mk0 n) ops).getVertexOutDegree i =
          Except.ok ((AdjacencyListGraph.applyOps (AdjacencyListGraph.mk0 n) ops).outDegNat i) ∧
        (AdjacencyListGraph.applyOps (AdjacencyListGraph.mk0 n) ops).getVertexInDegree i =
          Except.ok ((AdjacencyListGraph.applyOps (AdjacencyListGraph.mk0 n) ops).inDegNat i)) ∧
      ((List.range (AdjacencyListGraph.applyOps (AdjacencyListGraph.mk0 n) ops).n).map
        (AdjacencyListGraph.applyOps (AdjacencyListGraph.mk0 n) ops).outDegNat).sum =
      ((List.range (AdjacencyListGraph.applyOps (AdjacencyListGraph.mk0 n) ops).n).map
        (AdjacencyListGraph.applyOps (AdjacencyListGraph.mk0 n) ops).inDegNat).sum ∧
      (AdjacencyListGraph.applyOps (AdjacencyListGraph.mk0 n) ops).getEdgeCount =
      ((((List.range (AdjacencyListGraph.applyOps (AdjacencyListGraph.mk0 n) ops).n).map
        (AdjacencyListGraph.applyOps (AdjacencyListGraph.mk0 n) ops).outDegNat).sum : Nat) : Int)) ∧
    ((∀ i : Nat, i < (AdjacencyMatrixGraph.applyOps (AdjacencyMatrixGraph.mk0 n) ops).n →
        (AdjacencyMatrixGraph.applyOps (AdjacencyMatrixGraph.mk0 n) ops).getVertexOutDegree i =
          Except.ok ((AdjacencyMatrixGraph.applyOps (AdjacencyMatrixGraph.mk0 n) ops).outDegNat i) ∧
        (AdjacencyMatrixGraph.applyOps (AdjacencyMatrixGraph.mk0 n) ops).getVertexInDegree i =
          Except.ok ((AdjacencyMatrixGraph.applyOps (AdjacencyMatrixGraph.mk0 n) ops).inDegNat i)) ∧
      ((List.range (AdjacencyMatrixGraph.applyOps (AdjacencyMatrixGraph.mk0 n) ops).n).map
        (AdjacencyMatrixGraph.applyOps (AdjacencyMatrixGraph.mk0 n) ops).outDegNat).sum =
      ((List.range (AdjacencyMatrixGraph.applyOps (AdjacencyMatrixGraph.mk0 n) ops).n).map
        (AdjacencyMatrixGraph.applyOps (AdjacencyMatrixGraph.mk0 n) ops).inDegNat).sum ∧
      (AdjacencyMatrixGraph.applyOps (AdjacencyMatrixGraph.mk0 n) ops).getEdgeCount =
      ((((List.range (AdjacencyMatrixGraph.applyOps (AdjacencyMatrixGraph.mk0 n) ops).n).map
        (AdjacencyMatrixGraph.applyOps (AdjacencyMatrixGraph.mk0 n) ops).outDegNat).sum : Nat) : Int)) := by
  have hWFg := AdjacencyListGraph.WF_applyOps (AdjacencyListGraph.WF_mk0 hn) ops
  have hWFh := AdjacencyMatrixGraph.WF_applyOps_m (AdjacencyMatrixGraph.WF_mk0_m hn) ops
  obtain ⟨hsum1, hsum2⟩ := AdjacencyListGraph.degree_sums hWFg
  obtain ⟨hsum1m, hsum2m⟩ := AdjacencyMatrixGraph.degree_sums_m hWFh
  constructor
  · refine ⟨?_, hsum1, hsum2⟩
    intro i hi
    have hir : inRange (AdjacencyListGraph.applyOps (AdjacencyListGraph.mk0 n) ops).n
        (i : Int) := inRange_of_lt hi
    constructor
    · rw [AdjacencyListGraph.getVertexOutDegree_valid _ hir]
      simp
    · rw [AdjacencyListGraph.getVertexInDegree_valid _ hir]
      simp
  · refine ⟨?_, hsum1m, hsum2m⟩
    intro i hi
    have hir : inRange (AdjacencyMatrixGraph.applyOps (AdjacencyMatrixGraph.mk0 n) ops).n
        (i : Int) := inRange_of_lt hi
    constructor
    · rw [AdjacencyMatrixGraph.getVertexOutDegree_valid_m _ hir]
      simp
    · rw [AdjacencyMatrixGraph.getVertexInDegree_valid_m _ hir]
      simp

theorem claim_C8_witness :
    0 < 3 ∧
    (((∀ i : Nat, i < (AdjacencyListGraph.applyOps (AdjacencyListGraph.mk0 3)
        [Op.addEdge 0 1, Op.addEdge 2 1]).n →
        (AdjacencyListGraph.applyOps (AdjacencyListGraph.mk0 3)
          [Op.addEdge 0 1, Op.addEdge 2 1]).getVertexOutDegree i =
          Except.ok ((AdjacencyListGraph.applyOps (AdjacencyListGraph.mk0 3)
            [Op.addEdge 0 1, Op.addEdge 2 1]).outDegNat i) ∧
        (AdjacencyListGraph.applyOps (AdjacencyListGraph.mk0 3)
          [Op.addEdge 0 1, Op.addEdge 2 1]).getVertexInDegree i =
          Except.ok ((AdjacencyListGraph.applyOps (AdjacencyListGraph.mk0 3)
            [Op.addEdge 0 1, Op.addEdge 2 1]).inDegNat i)) ∧
      ((List.range (AdjacencyListGraph.applyOps (AdjacencyListGraph.mk0 3)
        [Op.addEdge 0 1, Op.addEdge 2 1]).n).map
        (AdjacencyListGraph.applyOps (AdjacencyListGraph.mk0 3)
          [Op.addEdge 0 1, Op.addEdge 2 1]).outDegNat).sum =
      ((List.range (AdjacencyListGraph.applyOps (AdjacencyListGraph.mk0 3)
        [Op.addEdge 0 1, Op.addEdge 2 1]).n).map
        (AdjacencyListGraph.applyOps (AdjacencyListGraph.mk0 3)
          [Op.addEdge 0 1, Op.addEdge 2 1]).inDegNat).sum ∧
      (AdjacencyListGraph.applyOps (AdjacencyListGraph.mk0 3)
        [Op.addEdge 0 1, Op.addEdge 2 1]).getEdgeCount =
      ((((List.range (AdjacencyListGraph.applyOps (AdjacencyListGraph.mk0 3)
        [Op.addEdge 0 1, Op.addEdge 2 1]).n).map
        (AdjacencyListGraph.applyOps (AdjacencyListGraph.mk0 3)
          [Op.addEdge 0 1, Op.addEdge 2 1]).outDegNat).sum : Nat) : Int)) ∧
    ((∀ i : Nat, i < (AdjacencyMatrixGraph.applyOps (AdjacencyMatrixGraph.mk0 3)
        [Op.addEdge 0 1, Op.addEdge 2 1]).n →
        (AdjacencyMatrixGraph.applyOps (AdjacencyMatrixGraph.mk0 3)
          [Op.addEdge 0 1, Op.addEdge 2 1]).getVertexOutDegree i =
          Except.ok ((AdjacencyMatrixGraph.applyOps (AdjacencyMatrixGraph.mk0 3)
            [Op.addEdge 0 1, Op.addEdge 2 1]).outDegNat i) ∧
        (AdjacencyMatrixGraph.applyOps (AdjacencyMatrixGraph.mk0 3)
          [Op.addEdge 0 1, Op.addEdge 2 1]).getVertexInDegree i =
          Except.ok ((AdjacencyMatrixGraph.applyOps (AdjacencyMatrixGraph.mk0 3)
            [Op.addEdge 0 1, Op.addEdge 2 1]).inDegNat i)) ∧
      ((List.range (AdjacencyMatrixGraph.applyOps (AdjacencyMatrixGraph.mk0 3)
        [Op.addEdge 0 1, Op.addEdge 2 1]).n).map
        (AdjacencyMatrixGraph.applyOps (AdjacencyMatrixGraph.mk0 3)
          [Op.addEdge 0 1, Op.addEdge 2 1]).outDegNat).sum =
      ((List.range (AdjacencyMatrixGraph.applyOps (AdjacencyMatrixGraph.mk0 3)
        [Op.addEdge 0 1, Op.addEdge 2 1]).n).map
        (AdjacencyMatrixGraph.applyOps (AdjacencyMatrixGraph.mk0 3)
          [Op.addEdge 0 1, Op.addEdge 2 1]).inDegNat).sum ∧
      (AdjacencyMatrixGraph.applyOps (AdjacencyMatrixGraph.mk0 3)
        [Op.addEdge 0 1, Op.addEdge 2 1]).getEdgeCount =
      ((((List.range (AdjacencyMatrixGraph.applyOps (AdjacencyMatrixGraph.mk0 3)
        [Op.addEdge 0 1, Op.addEdge 2 1]).n).map
        (AdjacencyMatrixGraph.applyOps (AdjacencyMatrixGraph.mk0 3)
          [Op.addEdge 0 1, Op.addEdge 2 1]).outDegNat).sum : Nat) : Int))) :=
  ⟨by decide, claim_C8 3 (by decide) [Op.addEdge 0 1, Op.addEdge 2 1]⟩

/-- C2: for every graph (either backend), isConnected() returns true when
vertexCount ≤ 1; returns false when the edge set is empty and
vertexCount ≥ 2; and otherwise returns true iff every vertex with nonzero
in-degree or out-degree lies in the weak component reachable from the
lowest-indexed non-isolated vertex, with each directed edge traversed in both
directions; vertices with zero total degree are ignored. -/
theorem claim_C2 :
    (∀ g : AdjacencyListGraph, g.WF →
      (g.n ≤ 1 → g.isConnected = true) ∧
      (2 ≤ g.n → g.edge_count = 0 → g.isConnected = false) ∧
      (∀ s : Nat, s < g.n → g.nonIsolated s = true →
        (∀ j < s, g.nonIsolated j = false) →
        (g.isConnected = true ↔
          ∀ i < g.n, g.nonIsolated i = true → g.weakReach s i))) ∧
    (∀ g : AdjacencyMatrixGraph, g.WF →
      (g.n ≤ 1 → g.isConnected = true) ∧
      (2 ≤ g.n → g.edge_count = 0 → g.isConnected = false) ∧
      (∀ s : Nat, s < g.n → g.nonIsolated s = true →
        (∀ j < s, g.nonIsolated j = false) →
        (g.isConnected = true ↔
          ∀ i < g.n, g.nonIsolated i = true → g.weakReach s i))) := by
  constructor
  · intro g hWF
    refine ⟨AdjacencyListGraph.isConnected_small, ?_, ?_⟩
    · intro h2 he
      exact AdjacencyListGraph.isConnected_empty (by omega) he
    · intro s hs hsi hmin
      exact AdjacencyListGraph.isConnected_char hWF hs hsi hmin
  · intro g hWF
    refine ⟨AdjacencyMatrixGraph.isConnected_small_m, ?_, ?_⟩
    · intro h2 he
      exact AdjacencyMatrixGraph.isConnected_empty_m (by omega) he
    · intro s hs hsi hmin
      exact AdjacencyMatrixGraph.isConnected_char_m hWF hs hsi hmin

theorem claim_C2_witness :
    (AdjacencyListGraph.applyOps (AdjacencyListGraph.mk0 4)
      [Op.addEdge 0 1, Op.addEdge 1 2]).WF ∧
    (AdjacencyListGraph.applyOps (AdjacencyListGraph.mk0 4)
      [Op.addEdge 0 1, Op.addEdge 1 2]).nonIsolated 0 = true ∧
    ((AdjacencyListGraph.applyOps (AdjacencyListGraph.mk0 4)
        [Op.addEdge 0 1, Op.addEdge 1 2]).isConnected = true ↔
      ∀ i < (AdjacencyListGraph.applyOps (AdjacencyListGraph.mk0 4)
        [Op.addEdge 0 1, Op.addEdge 1 2]).n,
        (AdjacencyListGraph.applyOps (AdjacencyListGraph.mk0 4)
          [Op.addEdge 0 1, Op.addEdge 1 2]).nonIsolated i = true →
        (AdjacencyListGraph.applyOps (AdjacencyListGraph.mk0 4)
          [Op.addEdge 0 1, Op.addEdge 1 2]).weakReach 0 i) ∧
    (AdjacencyMatrixGraph.applyOps (AdjacencyMatrixGraph.mk0 4)
      [Op.addEdge 0 1, Op.addEdge 1 2]).WF ∧
    ((AdjacencyMatrixGraph.applyOps (AdjacencyMatrixGraph.mk0 4)
        [Op.addEdge 0 1, Op.addEdge 1 2]).isConnected = true ↔
      ∀ i < (AdjacencyMatrixGraph.applyOps (AdjacencyMatrixGraph.mk0 4)
        [Op.addEdge 0 1, Op.addEdge 1 2]).n,
        (AdjacencyMatrixGraph.applyOps (AdjacencyMatrixGraph.mk0 4)
          [Op.addEdge 0 1, Op.addEdge 1 2]).nonIsolated i = true →
        (AdjacencyMatrixGraph.applyOps (AdjacencyMatrixGraph.mk0 4)
          [Op.addEdge 0 1, Op.addEdge 1 2]).weakReach 0 i) :=
  ⟨by decide, by decide,
   (claim_C2.1 _ (by decide)).2.2 0 (by decide) (by decide)
     (fun j hj => absurd hj (Nat.not_lt_zero j)),
   by decide,
   (claim_C2.2 _ (by decide)).2.2 0 (by decide) (by decide)
     (fun j hj => absurd hj (Nat.not_lt_zero j))⟩

/-- C3: for every graph (either backend), isCompleteGraph() returns true when
vertexCount ≤ 1, and otherwise returns true iff the stored edgeCount equals
vertexCount·(vertexCount−1) and every ordered pair of distinct vertices has
an edge; in particular it is false whenever any single distinct ordered pair
lacks an edge. -/
theorem claim_C3 :
    (∀ g : AdjacencyListGraph, g.WF →
      (g.n ≤ 1 → g.isCompleteGraph = true) ∧
      (2 ≤ g.n →
        (g.isCompleteGraph = true ↔
          g.edge_count = ((g.n * (g.n - 1) : Nat) : Int) ∧
          ∀ i < g.n, ∀ j < g.n, i ≠ j → g.edgeNat i j = true)) ∧
      (∀ i j : Nat, i < g.n → j < g.n → i ≠ j → g.edgeNat i j = false →
        g.isCompleteGraph = false)) ∧
    (∀ g : AdjacencyMatrixGraph, g.WF →
      (g.n ≤ 1 → g.isCompleteGraph = true) ∧
      (2 ≤ g.n →
        (g.isCompleteGraph = true ↔
          g.edge_count = ((g.n * (g.n - 1) : Nat) : Int) ∧
          ∀ i < g.n, ∀ j < g.n, i ≠ j → g.cell i j = true)) ∧
      (∀ i j : Nat, i < g.n → j < g.n → i ≠ j → g.cell i j = false →
        g.isCompleteGraph = false)) := by
  constructor
  · intro g hWF
    have hchar := AdjacencyListGraph.isCompleteGraph_char hWF
    refine ⟨fun h1 => hchar.mpr (Or.inl h1), ?_, ?_⟩
    · intro h2
      constructor
      · intro htrue
        rcases hchar.mp htrue with h1 | hr
        · omega
        · exact hr
      · intro hr
        exact hchar.mpr (Or.inr hr)
    · intro i j hi hj hij hmiss
      cases hcomp : g.isCompleteGraph with
      | false => rfl
      | true =>
        exfalso
        rcases hchar.mp hcomp with h1 | ⟨_, hall⟩
        · omega
        · rw [hall i hi j hj hij] at hmiss
          cases hmiss
  · intro g hWF
    have hchar := AdjacencyMatrixGraph.isCompleteGraph_char_m g
    refine ⟨fun h1 => hchar.mpr (Or.inl h1), ?_, ?_⟩
    · intro h2
      constructor
      · intro htrue
        rcases hchar.mp htrue with h1 | hr
        · omega
        · exact hr
      · intro hr
        exact hchar.mpr (Or.inr hr)
    · intro i j hi hj hij hmiss
      cases hcomp : g.isCompleteGraph with
      | false => rfl
      | true =>
        exfalso
        rcases hchar.mp hcomp with h1 | ⟨_, hall⟩
        · omega
        · rw [hall i hi j hj hij] at hmiss
          cases hmiss

theorem claim_C3_witness :
    (AdjacencyListGraph.applyOps (AdjacencyListGraph.mk0 2)
      [Op.addEdge 0 1, Op.addEdge 1 0]).WF ∧
    2 ≤ (AdjacencyListGraph.applyOps (AdjacencyListGraph.mk0 2)
      [Op.addEdge 0 1, Op.addEdge 1 0]).n ∧
    ((AdjacencyListGraph.applyOps (AdjacencyListGraph.mk0 2)
        [Op.addEdge 0 1, Op.addEdge 1 0]).isCompleteGraph = true ↔
      (AdjacencyListGraph.applyOps (AdjacencyListGraph.mk0 2)
        [Op.addEdge 0 1, Op.addEdge 1 0]).edge_count =
        ((((AdjacencyListGraph.applyOps (AdjacencyListGraph.mk0 2)
          [Op.addEdge 0 1, Op.addEdge 1 0]).n *
          ((AdjacencyListGraph.applyOps (AdjacencyListGraph.mk0 2)
            [Op.addEdge 0 1, Op.addEdge 1 0]).n - 1) : Nat)) : Int) ∧
      ∀ i < (AdjacencyListGraph.applyOps (AdjacencyListGraph.mk0 2)
          [Op.addEdge 0 1, Op.addEdge 1 0]).n,
        ∀ j < (AdjacencyListGraph.applyOps (AdjacencyListGraph.mk0 2)
          [Op.addEdge 0 1, Op.addEdge 1 0]).n, i ≠ j →
          (AdjacencyListGraph.applyOps (AdjacencyListGraph.mk0 2)
            [Op.addEdge 0 1, Op.addEdge 1 0]).edgeNat i j = true) ∧
    (AdjacencyMatrixGraph.applyOps (AdjacencyMatrixGraph.mk0 2)
      [Op.addEdge 0 1, Op.addEdge 1 0]).WF ∧
    ((AdjacencyMatrixGraph.applyOps (AdjacencyMatrixGraph.mk0 2)
        [Op.addEdge 0 1, Op.addEdge 1 0]).isCompleteGraph = true ↔
      (AdjacencyMatrixGraph.applyOps (AdjacencyMatrixGraph.mk0 2)
        [Op.addEdge 0 1, Op.addEdge 1 0]).edge_count =
        ((((AdjacencyMatrixGraph.applyOps (AdjacencyMatrixGraph.mk0 2)
          [Op.addEdge 0 1, Op.addEdge 1 0]).n *
          ((AdjacencyMatrixGraph.applyOps (AdjacencyMatrixGraph.mk0 2)
            [Op.addEdge 0 1, Op.addEdge 1 0]).n - 1) : Nat)) : Int) ∧
      ∀ i < (AdjacencyMatrixGraph.applyOps (AdjacencyMatrixGraph.mk0 2)
          [Op.addEdge 0 1, Op.addEdge 1 0]).n,
        ∀ j < (AdjacencyMatrixGraph.applyOps (AdjacencyMatrixGraph.mk0 2)
          [Op.addEdge 0 1, Op.addEdge 1 0]).n, i ≠ j →
          (AdjacencyMatrixGraph.applyOps (AdjacencyMatrixGraph.mk0 2)
            [Op.addEdge 0 1, Op.addEdge 1 0]).cell i j = true) :=
  ⟨by decide, by decide,
   (claim_C3.1 _ (by decide)).2.1 (by decide),
   by decide,
   (claim_C3.2 _ (by decide)).2.1 (by decide)⟩

/-- C5 counterexample: on a reachable graph that already contains the edge
(0,1), calling addEdge(0,1) twice leaves edgeCount unchanged, so it does not
increase by exactly 1 as the claim states for every graph. -/
theorem claim_C5_counterexample :
    inRange (AdjacencyListGraph.applyOps (AdjacencyListGraph.mk0 2) [Op.addEdge 0 1]).n 0 ∧
    inRange (AdjacencyListGraph.applyOps (AdjacencyListGraph.mk0 2) [Op.addEdge 0 1]).n 1 ∧
    (0 : Int) ≠ 1 ∧
    ¬ ((AdjacencyListGraph.applyOps
        (AdjacencyListGraph.applyOps (AdjacencyListGraph.mk0 2) [Op.addEdge 0 1])
        [Op.addEdge 0 1, Op.addEdge 0 1]).getEdgeCount =
      (AdjacencyListGraph.applyOps (AdjacencyListGraph.mk0 2)
        [Op.addEdge 0 1]).getEdgeCount + 1) := by
  refine ⟨by decide, by decide, by decide, by decide⟩

/-- C5 (amended): for every well-formed graph (either backend) and every
valid pair u ≠ v such that the edge is NOT already present, after calling
addEdge(u, v) twice in succession hasEdge(u, v) is true and edgeCount has
increased by exactly 1 (the second call is a no-op). -/
theorem claim_C5_amended :
    (∀ g : AdjacencyListGraph, g.WF → ∀ u v : Int,
      inRange g.n u → inRange g.n v → u ≠ v →
      g.edgeNat u.toNat v.toNat = false →
      ∃ g1 g2, g.addEdge u v = Except.ok g1 ∧ g1.addEdge u v = Except.ok g2 ∧
        g2.hasEdge u v = Except.ok true ∧
        g2.getEdgeCount = g.getEdgeCount + 1) ∧
    (∀ g : AdjacencyMatrixGraph, g.WF → ∀ u v : Int,
      inRange g.n u → inRange g.n v → u ≠ v →
      g.cell u.toNat v.toNat = false →
      ∃ g1 g2, g.addEdge u v = Except.ok g1 ∧ g1.addEdge u v = Except.ok g2 ∧
        g2.hasEdge u v = Except.ok true ∧
        g2.getEdgeCount = g.getEdgeCount + 1) := by
  constructor
  · intro g hWF u v hu hv huv habs
    obtain ⟨hn, hlen, hinv, hcount⟩ := hWF
    have hun : u.toNat < g.n := toNat_lt_of_inRange hu
    have hulen : u.toNat < g.adj.length := by omega
    set g1 : AdjacencyListGraph := { g with
      adj := g.adj.set u.toNat (g.succs u.toNat ++ [v.toNat]),
      edge_count := g.edge_count + 1 } with hg1
    have hadd : g.addEdge u v = Except.ok g1 :=
      AdjacencyListGraph.addEdge_valid_absent g hu hv huv habs
    have hpres1 : g1.edgeNat u.toNat v.toNat = true := by
      unfold AdjacencyListGraph.edgeNat AdjacencyListGraph.succs
      rw [hg1]
      simp only
      rw [getD_set_self _ hulen _ _]
      simp
    refine ⟨g1, g1, hadd, AdjacencyListGraph.addEdge_valid_present g1 hu hv huv hpres1,
      ?_, rfl⟩
    rw [AdjacencyListGraph.hasEdge_valid g1 hu hv huv, hpres1]
  · intro g hWF u v hu hv huv habs
    obtain ⟨hn, hlen, hrows, hdiag, hcount⟩ := hWF
    have hun : u.toNat < g.n := toNat_lt_of_inRange hu
    have hvn : v.toNat < g.n := toNat_lt_of_inRange hv
    have hulen : u.toNat < g.matrix.length := by omega
    have hrowlen : (g.matrix.getD u.toNat []).length = g.n :=
      AdjacencyMatrixGraph.row_length hlen hrows hun
    have hvlen : v.toNat < (g.matrix.getD u.toNat []).length := by omega
    set g1 : AdjacencyMatrixGraph := { g with
      matrix := g.setCell u.toNat v.toNat true,
      edge_count := g.edge_count + 1 } with hg1
    have hadd : g.addEdge u v = Except.ok g1 :=
      AdjacencyMatrixGraph.addEdge_valid_absent_m g hu hv huv habs
    have hpres1 : g1.cell u.toNat v.toNat = true := by
      show ((g.setCell u.toNat v.toNat true).getD u.toNat []).getD v.toNat false = true
      exact AdjacencyMatrixGraph.cell_setCell_self true hulen hvlen
    refine ⟨g1, g1, hadd, AdjacencyMatrixGraph.addEdge_valid_present_m g1 hu hv huv hpres1,
      ?_, rfl⟩
    rw [AdjacencyMatrixGraph.hasEdge_valid_m g1 hu hv huv, hpres1]

theorem claim_C5_witness :
    (AdjacencyListGraph.mk0 2).WF ∧ inRange (AdjacencyListGraph.mk0 2).n 0 ∧
    inRange (AdjacencyListGraph.mk0 2).n 1 ∧ (0 : Int) ≠ 1 ∧
    (AdjacencyListGraph.mk0 2).edgeNat (0 : Int).toNat (1 : Int).toNat = false ∧
    (AdjacencyMatrixGraph.mk0 2).WF ∧
    (AdjacencyMatrixGraph.mk0 2).cell (0 : Int).toNat (1 : Int).toNat = false ∧
    (∃ g1 g2, (AdjacencyListGraph.mk0 2).addEdge 0 1 = Except.ok g1 ∧
      g1.addEdge 0 1 = Except.ok g2 ∧ g2.hasEdge 0 1 = Except.ok true ∧
      g2.getEdgeCount = (AdjacencyListGraph.mk0 2).getEdgeCount + 1) ∧
    (∃ g1 g2, (AdjacencyMatrixGraph.mk0 2).addEdge 0 1 = Except.ok g1 ∧
      g1.addEdge 0 1 = Except.ok g2 ∧ g2.hasEdge 0 1 = Except.ok true ∧
      g2.getEdgeCount = (AdjacencyMatrixGraph.mk0 2).getEdgeCount + 1) :=
  ⟨by decide, by decide, by decide, by decide, by decide, by decide, by decide,
   claim_C5_amended.1 _ (by decide) 0 1 (by decide) (by decide) (by decide) (by decide),
   claim_C5_amended.2 _ (by decide) 0 1 (by decide) (by decide) (by decide) (by decide)⟩

/-- C9: for every well-formed graph (either backend) and valid pair u ≠ v:
if hasEdge(u,v) is false, addEdge(u,v) then removeEdge(u,v) restores the
observable state (hasEdge on every pair and edgeCount); if hasEdge(u,v) is
true, removeEdge(u,v) then addEdge(u,v) does likewise. -/
theorem claim_C9 :
    (∀ g : AdjacencyListGraph, g.WF → ∀ u v : Int,
      inRange g.n u → inRange g.n v → u ≠ v →
      (g.hasEdge u v = Except.ok false →
        ∃ g1 g2, g.addEdge u v = Except.ok g1 ∧ g1.removeEdge u v = Except.ok g2 ∧
          (∀ p q : Int, g2.hasEdge p q = g.hasEdge p q) ∧
          g2.getEdgeCount = g.getEdgeCount) ∧
      (g.hasEdge u v = Except.ok true →
        ∃ g1 g2, g.removeEdge u v = Except.ok g1 ∧ g1.addEdge u v = Except.ok g2 ∧
          (∀ p q : Int, g2.hasEdge p q = g.hasEdge p q) ∧
          g2.getEdgeCount = g.getEdgeCount)) ∧
    (∀ g : AdjacencyMatrixGraph, g.WF → ∀ u v : Int,
      inRange g.n u → inRange g.n v → u ≠ v →
      (g.hasEdge u v = Except.ok false →
        ∃ g1 g2, g.addEdge u v = Except.ok g1 ∧ g1.removeEdge u v = Except.ok g2 ∧
          (∀ p q : Int, g2.hasEdge p q = g.hasEdge p q) ∧
          g2.getEdgeCount = g.getEdgeCount) ∧
      (g.hasEdge u v = Except.ok true →
        ∃ g1 g2, g.removeEdge u v = Except.ok g1 ∧ g1.addEdge u v = Except.ok g2 ∧
          (∀ p q : Int, g2.hasEdge p q = g.hasEdge p q) ∧
          g2.getEdgeCount = g.getEdgeCount)) := by
  constructor
  · intro g hWF u v hu hv huv
    constructor
    · intro hedge
      have habs : g.edgeNat u.toNat v.toNat = false := by
        have := hedge
        rw [AdjacencyListGraph.hasEdge_valid g hu hv huv] at this
        exact (Except.ok.injEq _ _).mp this
      obtain ⟨g1, g2, hadd, hrem, hadj, hec, hn2, _⟩ :=
        AdjacencyListGraph.addRemove_restore hWF hu hv huv habs
      refine ⟨g1, g2, hadd, hrem, ?_, hec⟩
      refine AdjacencyListGraph.hasEdge_congruent hn2 ?_
      intro p q
      unfold AdjacencyListGraph.edgeNat AdjacencyListGraph.succs
      rw [hadj]
    · intro hedge
      have hpres : g.edgeNat u.toNat v.toNat = true := by
        have := hedge
        rw [AdjacencyListGraph.hasEdge_valid g hu hv huv] at this
        exact (Except.ok.injEq _ _).mp this
      obtain ⟨g1, g2, hrem, hadd, hedges, hec, hn2, _⟩ :=
        AdjacencyListGraph.removeAdd_restore hWF hu hv huv hpres
      exact ⟨g1, g2, hrem, hadd, AdjacencyListGraph.hasEdge_congruent hn2 hedges, hec⟩
  · intro g hWF u v hu hv huv
    constructor
    · intro hedge
      have habs : g.cell u.toNat v.toNat = false := by
        have := hedge
        rw [AdjacencyMatrixGraph.hasEdge_valid_m g hu hv huv] at this
        exact (Except.ok.injEq _ _).mp this
      obtain ⟨g1, g2, hadd, hrem, hmat, hec, hn2, _⟩ :=
        AdjacencyMatrixGraph.addRemove_restore_m hWF hu hv huv habs
      refine ⟨g1, g2, hadd, hrem, ?_, hec⟩
      refine AdjacencyMatrixGraph.hasEdge_congruent_m hn2 ?_
      intro p q
      unfold AdjacencyMatrixGraph.cell
      rw [hmat]
    · intro hedge
      have hpres : g.cell u.toNat v.toNat = true := by
        have := hedge
        rw [AdjacencyMatrixGraph.hasEdge_valid_m g hu hv huv] at this
        exact (Except.ok.injEq _ _).mp this
      obtain ⟨g1, g2, hrem, hadd, hmat, hec, hn2, _⟩ :=
        AdjacencyMatrixGraph.removeAdd_restore_m hWF hu hv huv hpres
      refine ⟨g1, g2, hrem, hadd, ?_, hec⟩
      refine AdjacencyMatrixGraph.hasEdge_congruent_m hn2 ?_
      intro p q
      unfold AdjacencyMatrixGraph.cell
      rw [hmat]

theorem claim_C9_witness :
    (AdjacencyListGraph.applyOps (AdjacencyListGraph.mk0 3) [Op.addEdge 1 2]).WF ∧
    inRange (AdjacencyListGraph.applyOps (AdjacencyListGraph.mk0 3) [Op.addEdge 1 2]).n 0 ∧
    inRange (AdjacencyListGraph.applyOps (AdjacencyListGraph.mk0 3) [Op.addEdge 1 2]).n 1 ∧
    (0 : Int) ≠ 1 ∧
    (AdjacencyMatrixGraph.applyOps (AdjacencyMatrixGraph.mk0 3) [Op.addEdge 1 2]).WF ∧
    (((AdjacencyListGraph.applyOps (AdjacencyListGraph.mk0 3)
        [Op.addEdge 1 2]).hasEdge 0 1 = Except.ok false →
      ∃ g1 g2, (AdjacencyListGraph.applyOps (AdjacencyListGraph.mk0 3)
          [Op.addEdge 1 2]).addEdge 0 1 = Except.ok g1 ∧
        g1.removeEdge 0 1 = Except.ok g2 ∧
        (∀ p q : Int, g2.hasEdge p q = (AdjacencyListGraph.applyOps
          (AdjacencyListGraph.mk0 3) [Op.addEdge 1 2]).hasEdge p q) ∧
        g2.getEdgeCount = (AdjacencyListGraph.applyOps (AdjacencyListGraph.mk0 3)
          [Op.addEdge 1 2]).getEdgeCount) ∧
     ((AdjacencyListGraph.applyOps (AdjacencyListGraph.mk0 3)
        [Op.addEdge 1 2]).hasEdge 0 1 = Except.ok true →
      ∃ g1 g2, (AdjacencyListGraph.applyOps (AdjacencyListGraph.mk0 3)
          [Op.addEdge 1 2]).removeEdge 0 1 = Except.ok g1 ∧
        g1.addEdge 0 1 = Except.ok g2 ∧
        (∀ p q : Int, g2.hasEdge p q = (AdjacencyListGraph.applyOps
          (AdjacencyListGraph.mk0 3) [Op.addEdge 1 2]).hasEdge p q) ∧
        g2.getEdgeCount = (AdjacencyListGraph.applyOps (AdjacencyListGraph.mk0 3)
          [Op.addEdge 1 2]).getEdgeCount)) ∧
    (((AdjacencyMatrixGraph.applyOps (AdjacencyMatrixGraph.mk0 3)
        [Op.addEdge 1 2]).hasEdge 0 1 = Except.ok false →
      ∃ g1 g2, (AdjacencyMatrixGraph.applyOps (AdjacencyMatrixGraph.mk0 3)
          [Op.addEdge 1 2]).addEdge 0 1 = Except.ok g1 ∧
        g1.removeEdge 0 1 = Except.ok g2 ∧
        (∀ p q : Int, g2.hasEdge p q = (AdjacencyMatrixGraph.applyOps
          (AdjacencyMatrixGraph.mk0 3) [Op.addEdge 1 2]).hasEdge p q) ∧
        g2.getEdgeCount = (AdjacencyMatrixGraph.applyOps (AdjacencyMatrixGraph.mk0 3)
          [Op.addEdge 1 2]).getEdgeCount) ∧
     ((AdjacencyMatrixGraph.applyOps (AdjacencyMatrixGraph.mk0 3)
        [Op.addEdge 1 2]).hasEdge 0 1 = Except.ok true →
      ∃ g1 g2, (AdjacencyMatrixGraph.applyOps (AdjacencyMatrixGraph.mk0 3)
          [Op.addEdge 1 2]).removeEdge 0 1 = Except.ok g1 ∧
        g1.addEdge 0 1 = Except.ok g2 ∧
        (∀ p q : Int, g2.hasEdge p q = (AdjacencyMatrixGraph.applyOps
          (AdjacencyMatrixGraph.mk0 3) [Op.addEdge 1 2]).hasEdge p q) ∧
        g2.getEdgeCount = (AdjacencyMatrixGraph.applyOps (AdjacencyMatrixGraph.mk0 3)
          [Op.addEdge 1 2]).getEdgeCount)) :=
  ⟨by decide, by decide, by decide, by decide, by decide,
   claim_C9.1 _ (by decide) 0 1 (by decide) (by decide) (by decide),
   claim_C9.2 _ (by decide) 0 1 (by decide) (by decide) (by decide)⟩

/-- C10: for every graph (either backend), every valid vertex v and every
string label, setVertexLabel(v, label) changes only the label mapping at
index v: vertexCount, edgeCount, hasEdge on every pair, and getVertexLabel(w)
for every valid w ≠ v are unchanged, and getVertexLabel(v) subsequently
returns exactly the given label. -/
theorem claim_C10 :
    (∀ g : AdjacencyListGraph, ∀ v : Int, ∀ label : String, inRange g.n v →
      ∃ g', g.setVertexLabel v label = Except.ok g' ∧
        g'.getVertexCount = g.getVertexCount ∧
        g'.getEdgeCount = g.getEdgeCount ∧
        (∀ p q : Int, g'.hasEdge p q = g.hasEdge p q) ∧
        (∀ w : Int, inRange g.n w → w ≠ v →
          g'.getVertexLabel w = g.getVertexLabel w) ∧
        g'.getVertexLabel v = Except.ok label) ∧
    (∀ g : AdjacencyMatrixGraph, ∀ v : Int, ∀ label : String, inRange g.n v →
      ∃ g', g.setVertexLabel v label = Except.ok g' ∧
        g'.getVertexCount = g.getVertexCount ∧
        g'.getEdgeCount = g.getEdgeCount ∧
        (∀ p q : Int, g'.hasEdge p q = g.hasEdge p q) ∧
        (∀ w : Int, inRange g.n w → w ≠ v →
          g'.getVertexLabel w = g.getVertexLabel w) ∧
        g'.getVertexLabel v = Except.ok label) := by
  constructor
  · intro g v label hv
    refine ⟨{ g with labels := (v.toNat, label) :: g.labels },
      AdjacencyListGraph.setVertexLabel_valid g label hv, rfl, rfl,
      fun p q => rfl, ?_, ?_⟩
    · intro w hw hwv
      rw [AdjacencyListGraph.getVertexLabel_valid g hw,
        AdjacencyListGraph.getVertexLabel_valid
          ({ g with labels := (v.toNat, label) :: g.labels } : AdjacencyListGraph) hw]
      have hne : (w.toNat == v.toNat) = false :=
        beq_eq_false_iff_ne.mpr (toNat_inj_of_inRange hw hv hwv)
      simp only
      rw [List.lookup_cons, hne]
    · rw [AdjacencyListGraph.getVertexLabel_valid
        ({ g with labels := (v.toNat, label) :: g.labels } : AdjacencyListGraph) hv]
      simp only
      rw [List.lookup_cons_self]
      rfl
  · intro g v label hv
    refine ⟨{ g with labels := (v.toNat, label) :: g.labels },
      AdjacencyMatrixGraph.setVertexLabel_valid_m g label hv, rfl, rfl,
      fun p q => rfl, ?_, ?_⟩
    · intro w hw hwv
      rw [AdjacencyMatrixGraph.getVertexLabel_valid_m g hw,
        AdjacencyMatrixGraph.getVertexLabel_valid_m
          ({ g with labels := (v.toNat, label) :: g.labels } : AdjacencyMatrixGraph) hw]
      have hne : (w.toNat == v.toNat) = false :=
        beq_eq_false_iff_ne.mpr (toNat_inj_of_inRange hw hv hwv)
      simp only
      rw [List.lookup_cons, hne]
    · rw [AdjacencyMatrixGraph.getVertexLabel_valid_m
        ({ g with labels := (v.toNat, label) :: g.labels } : AdjacencyMatrixGraph) hv]
      simp only
      rw [List.lookup_cons_self]
      rfl

theorem claim_C10_witness :
    inRange (AdjacencyListGraph.mk0 2).n 1 ∧
    inRange (AdjacencyMatrixGraph.mk0 2).n 1 ∧
    (∃ g', (AdjacencyListGraph.mk0 2).setVertexLabel 1 "hub" = Except.ok g' ∧
      g'.getVertexCount = (AdjacencyListGraph.mk0 2).getVertexCount ∧
      g'.getEdgeCount = (AdjacencyListGraph.mk0 2).getEdgeCount ∧
      (∀ p q : Int, g'.hasEdge p q = (AdjacencyListGraph.mk0 2).hasEdge p q) ∧
      (∀ w : Int, inRange (AdjacencyListGraph.mk0 2).n w → w ≠ 1 →
        g'.getVertexLabel w = (AdjacencyListGraph.mk0 2).getVertexLabel w) ∧
      g'.getVertexLabel 1 = Except.ok "hub") ∧
    (∃ g', (AdjacencyMatrixGraph.mk0 2).setVertexLabel 1 "hub" = Except.ok g' ∧
      g'.getVertexCount = (AdjacencyMatrixGraph.mk0 2).getVertexCount ∧
      g'.getEdgeCount = (AdjacencyMatrixGraph.mk0 2).getEdgeCount ∧
      (∀ p q : Int, g'.hasEdge p q = (AdjacencyMatrixGraph.mk0 2).hasEdge p q) ∧
      (∀ w : Int, inRange (AdjacencyMatrixGraph.mk0 2).n w → w ≠ 1 →
        g'.getVertexLabel w = (AdjacencyMatrixGraph.mk0 2).getVertexLabel w) ∧
      g'.getVertexLabel 1 = Except.ok "hub") :=
  ⟨by decide, by decide,
   claim_C10.1 (AdjacencyListGraph.mk0 2) 1 "hub" (by decide),
   claim_C10.2 (AdjacencyMatrixGraph.mk0 2) 1 "hub" (by decide)⟩

/-- C6: for every graph and in-range arguments, isDivergent and isConvergent
raise the invalid-operation (self-loop) error whenever u1 = v1 or u2 = v2,
and isIncident raises it whenever u = v, even though the caller only compares
edges; when no argument pair is self-referencing, isDivergent returns true
iff u1 = u2, v1 ≠ v2 and both edges exist, and isConvergent returns true iff
v1 = v2, u1 ≠ u2 and both edges exist. -/
theorem claim_C6 :
    (∀ g : AdjacencyListGraph, ∀ u1 v1 u2 v2 x : Int,
      inRange g.n u1 → inRange g.n v1 → inRange g.n u2 → inRange g.n v2 →
      inRange g.n x →
      ((u1 = v1 ∨ u2 = v2) →
        g.isDivergent u1 v1 u2 v2 = Except.error GraphError.selfLoop ∧
        g.isConvergent u1 v1 u2 v2 = Except.error GraphError.selfLoop) ∧
      (u1 = v1 → g.isIncident u1 v1 x = Except.error GraphError.selfLoop) ∧
      (u1 ≠ v1 → u2 ≠ v2 →
        (g.isDivergent u1 v1 u2 v2 = Except.ok true ↔
          u1 = u2 ∧ v1 ≠ v2 ∧ g.hasEdge u1 v1 = Except.ok true ∧
            g.hasEdge u2 v2 = Except.ok true) ∧
        (g.isConvergent u1 v1 u2 v2 = Except.ok true ↔
          v1 = v2 ∧ u1 ≠ u2 ∧ g.hasEdge u1 v1 = Except.ok true ∧
            g.hasEdge u2 v2 = Except.ok true))) ∧
    (∀ g : AdjacencyMatrixGraph, ∀ u1 v1 u2 v2 x : Int,
      inRange g.n u1 → inRange g.n v1 → inRange g.n u2 → inRange g.n v2 →
      inRange g.n x →
      ((u1 = v1 ∨ u2 = v2) →
        g.isDivergent u1 v1 u2 v2 = Except.error GraphError.selfLoop ∧
        g.isConvergent u1 v1 u2 v2 = Except.error GraphError.selfLoop) ∧
      (u1 = v1 → g.isIncident u1 v1 x = Except.error GraphError.selfLoop) ∧
      (u1 ≠ v1 → u2 ≠ v2 →
        (g.isDivergent u1 v1 u2 v2 = Except.ok true ↔
          u1 = u2 ∧ v1 ≠ v2 ∧ g.hasEdge u1 v1 = Except.ok true ∧
            g.hasEdge u2 v2 = Except.ok true) ∧
        (g.isConvergent u1 v1 u2 v2 = Except.ok true ↔
          v1 = v2 ∧ u1 ≠ u2 ∧ g.hasEdge u1 v1 = Except.ok true ∧
            g.hasEdge u2 v2 = Except.ok true))) := by
  constructor
  · intro g u1 v1 u2 v2 x hu1 hv1 hu2 hv2 hx
    refine ⟨?_, ?_, ?_⟩
    · intro hor
      by_cases h11 : u1 = v1
      · have hval := validate_edge_self hu1 hv1 h11
        exact ⟨isDivergentWith_err1 hval, isConvergentWith_err1 hval⟩
      · have h22 : u2 = v2 := hor.resolve_left h11
        have hval1 := validate_edge_ok hu1 hv1 h11
        have hval2 := validate_edge_self hu2 hv2 h22
        exact ⟨isDivergentWith_err2 hval1 hval2, isConvergentWith_err2 hval1 hval2⟩
    · intro h11
      exact isIncidentWith_err1 (validate_edge_self hu1 hv1 h11)
    · intro h11 h22
      have hE1 := AdjacencyListGraph.hasEdge_valid g hu1 hv1 h11
      have hE2 := AdjacencyListGraph.hasEdge_valid g hu2 hv2 h22
      have hval1 := validate_edge_ok hu1 hv1 h11
      have hval2 := validate_edge_ok hu2 hv2 h22
      constructor
      · rw [show g.isDivergent u1 v1 u2 v2 =
            isDivergentWith g.n g.hasEdge u1 v1 u2 v2 from rfl,
          isDivergentWith_eval hval1 hval2 hE1 hE2]
        constructor
        · intro hok
          have hb := (Except.ok.injEq _ _).mp hok
          simp only [Bool.and_eq_true, decide_eq_true_eq] at hb
          obtain ⟨h12, hv12, hb1, hb2⟩ := hb
          exact ⟨h12, hv12, by rw [hE1, hb1], by rw [hE2, hb2]⟩
        · rintro ⟨h12, hv12, hh1, hh2⟩
          rw [hE1] at hh1
          rw [hE2] at hh2
          have hb1 := (Except.ok.injEq _ _).mp hh1
          have hb2 := (Except.ok.injEq _ _).mp hh2
          rw [hb1, hb2]
          simp [h12, hv12]
      · rw [show g.isConvergent u1 v1 u2 v2 =
            isConvergentWith g.n g.hasEdge u1 v1 u2 v2 from rfl,
          isConvergentWith_eval hval1 hval2 hE1 hE2]
        constructor
        · intro hok
          have hb := (Except.ok.injEq _ _).mp hok
          simp only [Bool.and_eq_true, decide_eq_true_eq] at hb
          obtain ⟨h12, hu12, hb1, hb2⟩ := hb
          exact ⟨h12, hu12, by rw [hE1, hb1], by rw [hE2, hb2]⟩
        · rintro ⟨h12, hu12, hh1, hh2⟩
          rw [hE1] at hh1
          rw [hE2] at hh2
          have hb1 := (Except.ok.injEq _ _).mp hh1
          have hb2 := (Except.ok.injEq _ _).mp hh2
          rw [hb1, hb2]
          simp [h12, hu12]
  · intro g u1 v1 u2 v2 x hu1 hv1 hu2 hv2 hx
    refine ⟨?_, ?_, ?_⟩
    · intro hor
      by_cases h11 : u1 = v1
      · have hval := validate_edge_self hu1 hv1 h11
        exact ⟨isDivergentWith_err1 hval, isConvergentWith_err1 hval⟩
      · have h22 : u2 = v2 := hor.resolve_left h11
        have hval1 := validate_edge_ok hu1 hv1 h11
        have hval2 := validate_edge_self hu2 hv2 h22
        exact ⟨isDivergentWith_err2 hval1 hval2, isConvergentWith_err2 hval1 hval2⟩
    · intro h11
      exact isIncidentWith_err1 (validate_edge_self hu1 hv1 h11)
    · intro h11 h22
      have hE1 := AdjacencyMatrixGraph.hasEdge_valid_m g hu1 hv1 h11
      have hE2 := AdjacencyMatrixGraph.hasEdge_valid_m g hu2 hv2 h22
      have hval1 := validate_edge_ok hu1 hv1 h11
      have hval2 := validate_edge_ok hu2 hv2 h22
      constructor
      · rw [show g.isDivergent u1 v1 u2 v2 =
            isDivergentWith g.n g.hasEdge u1 v1 u2 v2 from rfl,
          isDivergentWith_eval hval1 hval2 hE1 hE2]
        constructor
        · intro hok
          have hb := (Except.ok.injEq _ _).mp hok
          simp only [Bool.and_eq_true, decide_eq_true_eq] at hb
          obtain ⟨h12, hv12, hb1, hb2⟩ := hb
          exact ⟨h12, hv12, by rw [hE1, hb1], by rw [hE2, hb2]⟩
        · rintro ⟨h12, hv12, hh1, hh2⟩
          rw [hE1] at hh1
          rw [hE2] at hh2
          have hb1 := (Except.ok.injEq _ _).mp hh1
          have hb2 := (Except.ok.injEq _ _).mp hh2
          rw [hb1, hb2]
          simp [h12, hv12]
      · rw [show g.isConvergent u1 v1 u2 v2 =
            isConvergentWith g.n g.hasEdge u1 v1 u2 v2 from rfl,
          isConvergentWith_eval hval1 hval2 hE1 hE2]
        constructor
        · intro hok
          have hb := (Except.ok.injEq _ _).mp hok
          simp only [Bool.and_eq_true, decide_eq_true_eq] at hb
          obtain ⟨h12, hu12, hb1, hb2⟩ := hb
          exact ⟨h12, hu12, by rw [hE1, hb1], by rw [hE2, hb2]⟩
        · rintro ⟨h12, hu12, hh1, hh2⟩
          rw [hE1] at hh1
          rw [hE2] at hh2
          have hb1 := (Except.ok.injEq _ _).mp hh1
          have hb2 := (Except.ok.injEq _ _).mp hh2
          rw [hb1, hb2]
          simp [h12, hu12]

theorem claim_C6_witness :
    inRange (AdjacencyListGraph.applyOps (AdjacencyListGraph.mk0 3)
      [Op.addEdge 0 1, Op.addEdge 0 2]).n 0 ∧
    inRange (AdjacencyListGraph.applyOps (AdjacencyListGraph.mk0 3)
      [Op.addEdge 0 1, Op.addEdge 0 2]).n 1 ∧
    inRange (AdjacencyListGraph.applyOps (AdjacencyListGraph.mk0 3)
      [Op.addEdge 0 1, Op.addEdge 0 2]).n 2 ∧
    (((0 : Int) = 1 ∨ (0 : Int) = 2) →
      (AdjacencyListGraph.applyOps (AdjacencyListGraph.mk0 3)
        [Op.addEdge 0 1, Op.addEdge 0 2]).isDivergent 0 1 0 2 =
          Except.error GraphError.selfLoop ∧
      (AdjacencyListGraph.applyOps (AdjacencyListGraph.mk0 3)
        [Op.addEdge 0 1, Op.addEdge 0 2]).isConvergent 0 1 0 2 =
          Except.error GraphError.selfLoop) ∧
    ((0 : Int) = 1 →
      (AdjacencyListGraph.applyOps (AdjacencyListGraph.mk0 3)
        [Op.addEdge 0 1, Op.addEdge 0 2]).isIncident 0 1 1 =
          Except.error GraphError.selfLoop) ∧
    ((0 : Int) ≠ 1 → (0 : Int) ≠ 2 →
      ((AdjacencyListGraph.applyOps (AdjacencyListGraph.mk0 3)
          [Op.addEdge 0 1, Op.addEdge 0 2]).isDivergent 0 1 0 2 = Except.ok true ↔
        (0 : Int) = 0 ∧ (1 : Int) ≠ 2 ∧
          (AdjacencyListGraph.applyOps (AdjacencyListGraph.mk0 3)
            [Op.addEdge 0 1, Op.addEdge 0 2]).hasEdge 0 1 = Except.ok true ∧
          (AdjacencyListGraph.applyOps (AdjacencyListGraph.mk0 3)
            [Op.addEdge 0 1, Op.addEdge 0 2]).hasEdge 0 2 = Except.ok true) ∧
      ((AdjacencyListGraph.applyOps (AdjacencyListGraph.mk0 3)
          [Op.addEdge 0 1, Op.addEdge 0 2]).isConvergent 0 1 0 2 = Except.ok true ↔
        (1 : Int) = 2 ∧ (0 : Int) ≠ 0 ∧
          (AdjacencyListGraph.applyOps (AdjacencyListGraph.mk0 3)
            [Op.addEdge 0 1, Op.addEdge 0 2]).hasEdge 0 1 = Except.ok true ∧
          (AdjacencyListGraph.applyOps (AdjacencyListGraph.mk0 3)
            [Op.addEdge 0 1, Op.addEdge 0 2]).hasEdge 0 2 = Except.ok true)) :=
  ⟨by decide, by decide, by decide,
   (claim_C6.1 _ 0 1 0 2 1 (by decide) (by decide) (by decide) (by decide) (by decide)).1,
   (claim_C6.1 _ 0 1 0 2 1 (by decide) (by decide) (by decide) (by decide) (by decide)).2.1,
   (claim_C6.1 _ 0 1 0 2 1 (by decide) (by decide) (by decide) (by decide) (by decide)).2.2⟩

/-! ### Range-failure helpers for C7 -/

theorem validate_edge_range_err {n : Nat} {u v : Int}
    (h : ¬ inRange n u ∨ ¬ inRange n v) :
    ∃ w, validate_edge n u v = Except.error (GraphError.rangeError w) := by
  by_cases hu : inRange n u
  · have hv : ¬ inRange n v := h.resolve_left (not_not_intro hu)
    exact ⟨v, validate_edge_err_right hu hv⟩
  · exact ⟨u, validate_edge_err_left hu⟩

namespace AdjacencyListGraph

variable (g : AdjacencyListGraph)

theorem hasEdge_range_fail {u v : Int} (h : ¬ inRange g.n u ∨ ¬ inRange g.n v) :
    isRangeFailure (g.hasEdge u v) = true := by
  by_cases hu : inRange g.n u
  · rw [hasEdge_err_right g hu (h.resolve_left (not_not_intro hu))]
    rfl
  · rw [hasEdge_err_left g hu]
    rfl

theorem addEdge_range_fail {u v : Int} (h : ¬ inRange g.n u ∨ ¬ inRange g.n v) :
    isRangeFailure (g.addEdge u v) = true := by
  by_cases hu : inRange g.n u
  · rw [addEdge_err_right g hu (h.resolve_left (not_not_intro hu))]
    rfl
  · rw [addEdge_err_left g hu]
    rfl

theorem removeEdge_range_fail {u v : Int} (h : ¬ inRange g.n u ∨ ¬ inRange g.n v) :
    isRangeFailure (g.removeEdge u v) = true := by
  by_cases hu : inRange g.n u
  · rw [removeEdge_err_right g hu (h.resolve_left (not_not_intro hu))]
    rfl
  · rw [removeEdge_err_left g hu]
    rfl

theorem applyOp_addEdge_noop {u v : Int} (h : ¬ inRange g.n u ∨ ¬ inRange g.n v) :
    g.applyOp (Op.addEdge u v) = g := by
  simp only [applyOp]
  by_cases hu : inRange g.n u
  · rw [addEdge_err_right g hu (h.resolve_left (not_not_intro hu))]
  · rw [addEdge_err_left g hu]

theorem applyOp_removeEdge_noop {u v : Int} (h : ¬ inRange g.n u ∨ ¬ inRange g.n v) :
    g.applyOp (Op.removeEdge u v) = g := by
  simp only [applyOp]
  by_cases hu : inRange g.n u
  · rw [removeEdge_err_right g hu (h.resolve_left (not_not_intro hu))]
  · rw [removeEdge_err_left g hu]

end AdjacencyListGraph

namespace AdjacencyMatrixGraph

variable (g : AdjacencyMatrixGraph)

theorem hasEdge_range_fail_m {u v : Int} (h : ¬ inRange g.n u ∨ ¬ inRange g.n v) :
    isRangeFailure (g.hasEdge u v) = true := by
  by_cases hu : inRange g.n u
  · rw [hasEdge_err_right_m g hu (h.resolve_left (not_not_intro hu))]
    rfl
  · rw [hasEdge_err_left_m g hu]
    rfl

theorem addEdge_range_fail_m {u v : Int} (h : ¬ inRange g.n u ∨ ¬ inRange g.n v) :
    isRangeFailure (g.addEdge u v) = true := by
  by_cases hu : inRange g.n u
  · rw [addEdge_err_right_m g hu (h.resolve_left (not_not_intro hu))]
    rfl
  · rw [addEdge_err_left_m g hu]
    rfl

theorem removeEdge_range_fail_m {u v : Int} (h : ¬ inRange g.n u ∨ ¬ inRange g.n v) :
    isRangeFailure (g.removeEdge u v) = true := by
  by_cases hu : inRange g.n u
  · rw [removeEdge_err_right_m g hu (h.resolve_left (not_not_intro hu))]
    rfl
  · rw [removeEdge_err_left_m g hu]
    rfl

theorem applyOp_addEdge_noop_m {u v : Int} (h : ¬ inRange g.n u ∨ ¬ inRange g.n v) :
    g.applyOp (Op.addEdge u v) = g := by
  simp only [applyOp]
  by_cases hu : inRange g.n u
  · rw [addEdge_err_right_m g hu (h.resolve_left (not_not_intro hu))]
  · rw [addEdge_err_left_m g hu]

theorem applyOp_removeEdge_noop_m {u v : Int} (h : ¬ inRange g.n u ∨ ¬ inRange g.n v) :
    g.applyOp (Op.removeEdge u v) = g := by
  simp only [applyOp]
  by_cases hu : inRange g.n u
  · rw [removeEdge_err_right_m g hu (h.resolve_left (not_not_intro hu))]
  · rw [removeEdge_err_left_m g hu]

end AdjacencyMatrixGraph

/-- C7 counterexample: on a 1-vertex graph, isDivergent(0, 0, 5, 1) has the
out-of-range argument 5, yet it raises the invalid-operation (self-loop)
error — the earlier in-range self-pair (0,0) masks the range error — so not
every call with an out-of-range vertex argument raises a range error. -/
theorem claim_C7_counterexample :
    ¬ inRange (AdjacencyListGraph.mk0 1).n 5 ∧
    (AdjacencyListGraph.mk0 1).isDivergent 0 0 5 1 =
      Except.error GraphError.selfLoop ∧
    isRangeFailure ((AdjacencyListGraph.mk0 1).isDivergent 0 0 5 1) = false :=
  ⟨by decide, rfl, rfl⟩

/-- C7 (amended): every vertex- or edge-touching operation raises a range
error when a vertex argument is out of range, and mutators leave the state
unchanged — except that for the comparison predicates an earlier-validated
self-referencing pair raises the invalid-operation error first, so the range
error on later arguments is only guaranteed when every earlier-validated
pair is in range and not self-referencing. -/
theorem claim_C7_amended :
    (∀ g : AdjacencyListGraph,
      (∀ u v : Int, ¬ inRange g.n u ∨ ¬ inRange g.n v →
        isRangeFailure (g.hasEdge u v) = true ∧
        isRangeFailure (g.addEdge u v) = true ∧
        isRangeFailure (g.removeEdge u v) = true ∧
        isRangeFailure (g.isSucessor u v) = true ∧
        isRangeFailure (g.isPredessor u v) = true ∧
        g.applyOp (Op.addEdge u v) = g ∧ g.applyOp (Op.removeEdge u v) = g) ∧
      (∀ u : Int, ¬ inRange g.n u →
        isRangeFailure (g.getVertexInDegree u) = true ∧
        isRangeFailure (g.getVertexOutDegree u) = true ∧
        isRangeFailure (g.getVertexLabel u) = true ∧
        (∀ s : String, isRangeFailure (g.setVertexLabel u s) = true ∧
          g.applyOp (Op.setLabel u s) = g)) ∧
      (∀ u1 v1 u2 v2 x : Int,
        ((¬ inRange g.n u1 ∨ ¬ inRange g.n v1) →
          isRangeFailure (g.isDivergent u1 v1 u2 v2) = true ∧
          isRangeFailure (g.isConvergent u1 v1 u2 v2) = true ∧
          isRangeFailure (g.isIncident u1 v1 x) = true) ∧
        (inRange g.n u1 → inRange g.n v1 → u1 ≠ v1 →
          (¬ inRange g.n u2 ∨ ¬ inRange g.n v2) →
          isRangeFailure (g.isDivergent u1 v1 u2 v2) = true ∧
          isRangeFailure (g.isConvergent u1 v1 u2 v2) = true) ∧
        (inRange g.n u1 → inRange g.n v1 → u1 ≠ v1 → ¬ inRange g.n x →
          isRangeFailure (g.isIncident u1 v1 x) = true))) ∧
    (∀ g : AdjacencyMatrixGraph,
      (∀ u v : Int, ¬ inRange g.n u ∨ ¬ inRange g.n v →
        isRangeFailure (g.hasEdge u v) = true ∧
        isRangeFailure (g.addEdge u v) = true ∧
        isRangeFailure (g.removeEdge u v) = true ∧
        isRangeFailure (g.isSucessor u v) = true ∧
        isRangeFailure (g.isPredessor u v) = true ∧
        g.applyOp (Op.addEdge u v) = g ∧ g.applyOp (Op.removeEdge u v) = g) ∧
      (∀ u : Int, ¬ inRange g.n u →
        isRangeFailure (g.getVertexInDegree u) = true ∧
        isRangeFailure (g.getVertexOutDegree u) = true ∧
        isRangeFailure (g.getVertexLabel u) = true ∧
        (∀ s : String, isRangeFailure (g.setVertexLabel u s) = true ∧
          g.applyOp (Op.setLabel u s) = g)) ∧
      (∀ u1 v1 u2 v2 x : Int,
        ((¬ inRange g.n u1 ∨ ¬ inRange g.n v1) →
          isRangeFailure (g.isDivergent u1 v1 u2 v2) = true ∧
          isRangeFailure (g.isConvergent u1 v1 u2 v2) = true ∧
          isRangeFailure (g.isIncident u1 v1 x) = true) ∧
        (inRange g.n u1 → inRange g.n v1 → u1 ≠ v1 →
          (¬ inRange g.n u2 ∨ ¬ inRange g.n v2) →
          isRangeFailure (g.isDivergent u1 v1 u2 v2) = true ∧
          isRangeFailure (g.isConvergent u1 v1 u2 v2) = true) ∧
        (inRange g.n u1 → inRange g.n v1 → u1 ≠ v1 → ¬ inRange g.n x →
          isRangeFailure (g.isIncident u1 v1 x) = true))) := by
  constructor
  · intro g
    refine ⟨?_, ?_, ?_⟩
    · intro u v h
      refine ⟨AdjacencyListGraph.hasEdge_range_fail g h,
        AdjacencyListGraph.addEdge_range_fail g h,
        AdjacencyListGraph.removeEdge_range_fail g h,
        AdjacencyListGraph.hasEdge_range_fail g h,
        AdjacencyListGraph.hasEdge_range_fail g (Or.symm h),
        AdjacencyListGraph.applyOp_addEdge_noop g h,
        AdjacencyListGraph.applyOp_removeEdge_noop g h⟩
    · intro u hu
      refine ⟨?_, ?_, ?_, ?_⟩
      · rw [AdjacencyListGraph.getVertexInDegree_err g hu]; rfl
      · rw [AdjacencyListGraph.getVertexOutDegree_err g hu]; rfl
      · rw [AdjacencyListGraph.getVertexLabel_err g hu]; rfl
      · intro s
        constructor
        · rw [AdjacencyListGraph.setVertexLabel_err g s hu]; rfl
        · simp only [AdjacencyListGraph.applyOp]
          rw [AdjacencyListGraph.setVertexLabel_err g s hu]
    · intro u1 v1 u2 v2 x
      refine ⟨?_, ?_, ?_⟩
      · intro h
        obtain ⟨w, hw⟩ := validate_edge_range_err h
        refine ⟨?_, ?_, ?_⟩
        · rw [show g.isDivergent u1 v1 u2 v2 =
              isDivergentWith g.n g.hasEdge u1 v1 u2 v2 from rfl,
            isDivergentWith_err1 hw]
          rfl
        · rw [show g.isConvergent u1 v1 u2 v2 =
              isConvergentWith g.n g.hasEdge u1 v1 u2 v2 from rfl,
            isConvergentWith_err1 hw]
          rfl
        · rw [show g.isIncident u1 v1 x =
              isIncidentWith g.n g.hasEdge u1 v1 x from rfl,
            isIncidentWith_err1 hw]
          rfl
      · intro hu1 hv1 h11 h
        obtain ⟨w, hw⟩ := validate_edge_range_err h
        have hval1 := validate_edge_ok hu1 hv1 h11
        constructor
        · rw [show g.isDivergent u1 v1 u2 v2 =
              isDivergentWith g.n g.hasEdge u1 v1 u2 v2 from rfl,
            isDivergentWith_err2 hval1 hw]
          rfl
        · rw [show g.isConvergent u1 v1 u2 v2 =
              isConvergentWith g.n g.hasEdge u1 v1 u2 v2 from rfl,
            isConvergentWith_err2 hval1 hw]
          rfl
      · intro hu1 hv1 h11 hx
        have hval1 := validate_edge_ok hu1 hv1 h11
        rw [show g.isIncident u1 v1 x =
            isIncidentWith g.n g.hasEdge u1 v1 x from rfl,
          isIncidentWith_err2 hval1 (validate_vertex_err hx)]
        rfl
  · intro g
    refine ⟨?_, ?_, ?_⟩
    · intro u v h
      refine ⟨AdjacencyMatrixGraph.hasEdge_range_fail_m g h,
        AdjacencyMatrixGraph.addEdge_range_fail_m g h,
        AdjacencyMatrixGraph.removeEdge_range_fail_m g h,
        AdjacencyMatrixGraph.hasEdge_range_fail_m g h,
        AdjacencyMatrixGraph.hasEdge_range_fail_m g (Or.symm h),
        AdjacencyMatrixGraph.applyOp_addEdge_noop_m g h,
        AdjacencyMatrixGraph.applyOp_removeEdge_noop_m g h⟩
    · intro u hu
      refine ⟨?_, ?_, ?_, ?_⟩
      · rw [AdjacencyMatrixGraph.getVertexInDegree_err_m g hu]; rfl
      · rw [AdjacencyMatrixGraph.getVertexOutDegree_err_m g hu]; rfl
      · rw [AdjacencyMatrixGraph.getVertexLabel_err_m g hu]; rfl
      · intro s
        constructor
        · rw [AdjacencyMatrixGraph.setVertexLabel_err_m g s hu]; rfl
        · simp only [AdjacencyMatrixGraph.applyOp]
          rw [AdjacencyMatrixGraph.setVertexLabel_err_m g s hu]
    · intro u1 v1 u2 v2 x
      refine ⟨?_, ?_, ?_⟩
      · intro h
        obtain ⟨w, hw⟩ := validate_edge_range_err h
        refine ⟨?_, ?_, ?_⟩
        · rw [show g.isDivergent u1 v1 u2 v2 =
              isDivergentWith g.n g.hasEdge u1 v1 u2 v2 from rfl,
            isDivergentWith_err1 hw]
          rfl
        · rw [show g.isConvergent u1 v1 u2 v2 =
              isConvergentWith g.n g.hasEdge u1 v1 u2 v2 from rfl,
            isConvergentWith_err1 hw]
          rfl
        · rw [show g.isIncident u1 v1 x =
              isIncidentWith g.n g.hasEdge u1 v1 x from rfl,
            isIncidentWith_err1 hw]
          rfl
      · intro hu1 hv1 h11 h
        obtain ⟨w, hw⟩ := validate_edge_range_err h
        have hval1 := validate_edge_ok hu1 hv1 h11
        constructor
        · rw [show g.isDivergent u1 v1 u2 v2 =
              isDivergentWith g.n g.hasEdge u1 v1 u2 v2 from rfl,
            isDivergentWith_err2 hval1 hw]
          rfl
        · rw [show g.isConvergent u1 v1 u2 v2 =
              isConvergentWith g.n g.hasEdge u1 v1 u2 v2 from rfl,
            isConvergentWith_err2 hval1 hw]
          rfl
      · intro hu1 hv1 h11 hx
        have hval1 := validate_edge_ok hu1 hv1 h11
        rw [show g.isIncident u1 v1 x =
            isIncidentWith g.n g.hasEdge u1 v1 x from rfl,
          isIncidentWith_err2 hval1 (validate_vertex_err hx)]
        rfl

theorem claim_C7_witness :
    (¬ inRange (AdjacencyListGraph.mk0 1).n 5 ∨
      ¬ inRange (AdjacencyListGraph.mk0 1).n 0) ∧
    (isRangeFailure ((AdjacencyListGraph.mk0 1).hasEdge 5 0) = true ∧
      isRangeFailure ((AdjacencyListGraph.mk0 1).addEdge 5 0) = true ∧
      isRangeFailure ((AdjacencyListGraph.mk0 1).removeEdge 5 0) = true ∧
      isRangeFailure ((AdjacencyListGraph.mk0 1).isSucessor 5 0) = true ∧
      isRangeFailure ((AdjacencyListGraph.mk0 1).isPredessor 5 0) = true ∧
      (AdjacencyListGraph.mk0 1).applyOp (Op.addEdge 5 0) = AdjacencyListGraph.mk0 1 ∧
      (AdjacencyListGraph.mk0 1).applyOp (Op.removeEdge 5 0) =
        AdjacencyListGraph.mk0 1) ∧
    (¬ inRange (AdjacencyMatrixGraph.mk0 1).n (-3) ∨
      ¬ inRange (AdjacencyMatrixGraph.mk0 1).n 0) ∧
    (isRangeFailure ((AdjacencyMatrixGraph.mk0 1).hasEdge (-3) 0) = true ∧
      isRangeFailure ((AdjacencyMatrixGraph.mk0 1).addEdge (-3) 0) = true ∧
      isRangeFailure ((AdjacencyMatrixGraph.mk0 1).removeEdge (-3) 0) = true ∧
      isRangeFailure ((AdjacencyMatrixGraph.mk0 1).isSucessor (-3) 0) = true ∧
      isRangeFailure ((AdjacencyMatrixGraph.mk0 1).isPredessor (-3) 0) = true ∧
      (AdjacencyMatrixGraph.mk0 1).applyOp (Op.addEdge (-3) 0) =
        AdjacencyMatrixGraph.mk0 1 ∧
      (AdjacencyMatrixGraph.mk0 1).applyOp (Op.removeEdge (-3) 0) =
        AdjacencyMatrixGraph.mk0 1) :=
  ⟨by decide,
   (claim_C7_amended.1 (AdjacencyListGraph.mk0 1)).1 5 0 (by decide),
   by decide,
   (claim_C7_amended.2 (AdjacencyMatrixGraph.mk0 1)).1 (-3) 0 (by decide)⟩

end TrabalhoGrafos
